import Mathlib

/-!
# Choke/unchoke delivery tracker (`episub.go`)

A shallow embedding of `deliveryTracker` and its operations.

* Go maps are association lists read by first match (`GoMap`). A `range` loop
  visits every key of the denoted map once (`GoMap.range`), in list order; Go's
  iteration order is unspecified, and every list order is one of the orders the
  runtime may pick.
* Counters are Go `int`s of 64 bits: `Int` values that every `+` and `++` of the code
  brings back into the `int64` range with `wrap64`.
* `time.Duration` is an `Int` kept in the `int64` range by `wrap64`;
  `time.Time` is an instant in nanoseconds and `time.Now()` is an argument.
* `float64` is `F64`: the binary64 values with correctly rounded conversion
  and division (round to nearest, ties to even).
* A Go panic is an `Except Panic` error.
* Where a claim speaks of the tracker before and after an operation, a call is a
  step of the tracker (`Call.after`).
-/

namespace Episub

/-! ## Go maps -/

/-- A Go `map[K]V`: association list, the first entry of a key is its value. -/
abbrev GoMap (K V : Type) := List (K × V)

namespace GoMap

variable {K V : Type} [DecidableEq K]

/-- The comma-ok read `v, ok := m[k]`. -/
def get? : GoMap K V → K → Option V
  | [], _ => none
  | (k', v) :: rest, k => if k' = k then some v else get? rest k

/-- The read `m[k]`, with the zero value `z` of the element type for an absent key. -/
def getD (m : GoMap K V) (k : K) (z : V) : V := (m.get? k).getD z

/-- The write `m[k] = v`. -/
def set : GoMap K V → K → V → GoMap K V
  | [], k, v => [(k, v)]
  | (k', v') :: rest, k, v => if k' = k then (k, v) :: rest else (k', v') :: set rest k v

/-- The builtin `delete(m, k)`. -/
def delete (m : GoMap K V) (k : K) : GoMap K V := m.filter (fun e => decide (e.1 ≠ k))

/-- Entries visited by `for k, v := range m`, skipping keys already seen. -/
def rangeAux (seen : List K) : GoMap K V → List (K × V)
  | [] => []
  | (k, v) :: rest =>
    if k ∈ seen then rangeAux seen rest else (k, v) :: rangeAux (k :: seen) rest

/-- Entries visited by `for k, v := range m`: every key once, with its value. -/
def range (m : GoMap K V) : List (K × V) := rangeAux [] m

end GoMap

/-- The read `m[p][t]` of a nested map; a nil inner map reads as the zero value `z`. -/
def at2 {V : Type} (m : GoMap String (GoMap String V)) (p t : String) (z : V) : V :=
  GoMap.getD (GoMap.getD m p []) t z

/-- The statement `delete(m[p], t)`: no effect when `m[p]` is nil. -/
def delete2 {V : Type} (m : GoMap String (GoMap String V)) (p t : String) :
    GoMap String (GoMap String V) :=
  match GoMap.get? m p with
  | none => m
  | some inner => GoMap.set m p (GoMap.delete inner t)

/-- The statement `m[k] = append(m[k], a)`. -/
def appendAt {A : Type} (m : GoMap String (List A)) (k : String) (a : A) :
    GoMap String (List A) :=
  GoMap.set m k (GoMap.getD m k [] ++ [a])

/-! ## Run-time panics -/

/-- The run-time panics the tracker's code can raise. -/
inductive Panic
  | nilMapWrite
  | sliceBounds
  | divideByZero
  deriving DecidableEq, Repr

deriving instance DecidableEq for Except

/-! ## `float64` -/

/-- Values of `float64`: NaN, the infinities, and `(-1)^neg * m * 2^e`. -/
inductive F64
  | nan
  | inf (neg : Bool)
  | fin (neg : Bool) (m : Nat) (e : Int)
  deriving DecidableEq, Repr

namespace F64

/-- Position of the leading bit of `n`, found in at most `fuel` halvings. -/
def log2Aux : Nat → Nat → Nat
  | 0, _ => 0
  | fuel + 1, n => if n < 2 then 0 else log2Aux fuel (n / 2) + 1

/-- Position of the leading bit of `n`: the floor of its binary logarithm. -/
def log2 (n : Nat) : Nat := log2Aux n n

/-- The quotient `n / d` of positive naturals rounded to binary64: 53 significant
bits (fewer below `2^-1022`), to nearest with ties to even, overflow to infinity. -/
def roundQuot (neg : Bool) (n d : Nat) : F64 :=
  let l : Int := (log2 n : Int) - (log2 d : Int)
  -- `e` is the exponent of the leading bit of `n / d`
  let e : Int := if l ≥ 0 then (if d * 2 ^ l.toNat ≤ n then l else l - 1)
                 else (if d ≤ n * 2 ^ (-l).toNat then l else l - 1)
  let E : Int := max e (-1022) - 52
  let num : Nat := if E ≥ 0 then n else n * 2 ^ (-E).toNat
  let den : Nat := if E ≥ 0 then d * 2 ^ E.toNat else d
  let q := num / den
  let r := num % den
  let q' := if den < 2 * r ∨ (2 * r = den ∧ q % 2 = 1) then q + 1 else q
  if E > 971 ∨ (E = 971 ∧ 2 ^ 53 ≤ q') then inf neg else fin neg q' E

/-- The conversion `float64(n)` of a non-negative integer. -/
def ofNat (n : Nat) : F64 := if n = 0 then fin false 0 0 else roundQuot false n 1

/-- The conversion `float64(i)` of an `int`. -/
def ofInt (i : Int) : F64 :=
  if i = 0 then fin false 0 0 else roundQuot (decide (i < 0)) i.natAbs 1

/-- The float64 constant denoted by the decimal fraction `n / d`. -/
def ofFrac (n d : Nat) : F64 := if n = 0 then fin false 0 0 else roundQuot false n d

/-- The float64 division `a / b`. -/
def div : F64 → F64 → F64
  | nan, _ => nan
  | _, nan => nan
  | inf _, inf _ => nan
  | inf s, fin s' _ _ => inf (xor s s')
  | fin s _ _, inf s' => fin (xor s s') 0 0
  | fin s m e, fin s' m' e' =>
    if m' = 0 then (if m = 0 then nan else inf (xor s s'))
    else if m = 0 then fin (xor s s') 0 0
    else
      let x : Int := e - e'
      if x ≥ 0 then roundQuot (xor s s') (m * 2 ^ x.toNat) m'
      else roundQuot (xor s s') m (m' * 2 ^ (-x).toNat)

/-- Signed numerator of a finite value at the common exponent `min e e'`. -/
def scaled (neg : Bool) (m : Nat) (e e0 : Int) : Int :=
  (if neg then -1 else 1) * (m : Int) * 2 ^ (e - e0).toNat

/-- The comparison `a < b`; false when either side is NaN. -/
def lt : F64 → F64 → Bool
  | nan, _ => false
  | _, nan => false
  | inf s, inf s' => s && !s'
  | inf s, fin _ _ _ => s
  | fin _ _ _, inf s' => !s'
  | fin s m e, fin s' m' e' =>
    decide (scaled s m e (min e e') < scaled s' m' e' (min e e'))

/-- The comparison `a > b`. -/
def gt (a b : F64) : Bool := lt b a

/-- The comparison `a <= b`; false when either side is NaN. -/
def le : F64 → F64 → Bool
  | nan, _ => false
  | _, nan => false
  | a, b => !(lt b a)

/-- The rational value of a finite float64 (0 for NaN and the infinities). -/
def toRat : F64 → ℚ
  | fin s m e => (if s then -1 else 1) * (m : ℚ) * (2 : ℚ) ^ e
  | _ => 0

end F64

/-! ## `time.Duration` and `time.Time` -/

/-- Nanosecond counts of `time.Duration`, an `int64`. -/
abbrev Duration := Int

/-- Instants of `time.Time`, in nanoseconds; the zero `time.Time` is instant 0. -/
abbrev Time := Int

/-- Two's-complement reduction of an integer to the `int64` range. -/
def wrap64 (x : Int) : Int := (x + 2 ^ 63) % 2 ^ 64 - 2 ^ 63

/-- The `int64` product of two durations. -/
def Duration.mul (a b : Duration) : Duration := wrap64 (a * b)

/-- The `int64` sum of two durations. -/
def Duration.add (a b : Duration) : Duration := wrap64 (a + b)

/-- The `int64` quotient of two durations, truncated toward zero (`b` non-zero). -/
def Duration.div (a b : Duration) : Duration := wrap64 (Int.tdiv a b)

/-- The call `time.Since(t)` at instant `now`: `now.Sub(t)`, which saturates at the
largest and smallest `Duration`. -/
def since (now t : Time) : Duration :=
  if now - t > 2 ^ 63 - 1 then 2 ^ 63 - 1
  else if now - t < -(2 ^ 63) then -(2 ^ 63)
  else now - t

/-! ## The tracker -/

/-- Identifiers `peer.ID`, a string type. -/
abbrev PeerID := String

/-- Topic names. -/
abbrev TopicID := String

/-- The fields of `*Message` the tracker reads: `msg.ReceivedFrom` and `*msg.Topic`. -/
structure Message where
  ReceivedFrom : PeerID
  Topic : TopicID
  deriving DecidableEq, Repr

/-- The fields of `GossipSubParams` the selectors read. -/
structure GossipSubParams where
  ChokeDuplicatesThreshold : F64
  ChokeChurn : Int
  UnchokeThreshold : F64
  UnchokeChurn : Int
  deriving DecidableEq, Repr

/-- The struct `deliveryTracker`. -/
structure deliveryTracker where
  duplicates : GoMap PeerID (GoMap TopicID Int)
  duplicateLatency : GoMap PeerID (GoMap TopicID Duration)
  firstDeliveries : GoMap PeerID (GoMap TopicID Int)
  firstDeliveryTime : GoMap String Time
  chokedPeers : GoMap PeerID (GoMap TopicID Bool)
  inboundChokedPeers : GoMap PeerID (GoMap TopicID Bool)
  firstIhaves : GoMap PeerID (GoMap TopicID Int)
  duplicateIhaves : GoMap PeerID (GoMap TopicID Int)
  deriving DecidableEq, Repr

/-- The constructor `NewDeliveryTracker`: eight empty maps. -/
def NewDeliveryTracker : deliveryTracker :=
  { duplicates := [], duplicateLatency := [], firstDeliveries := [], firstDeliveryTime := [],
    chokedPeers := [], inboundChokedPeers := [], firstIhaves := [], duplicateIhaves := [] }

/-! ### `sort.Slice` -/

/-- The inner loop of the library's insertion sort: the new element `x` is swapped
leftwards while `less x y` holds for its left neighbour `y`. The sorted prefix is
given last element first. -/
def insertLeft {A : Type} (less : A → A → Bool) (x : A) : List A → List A
  | [] => [x]
  | y :: rest => if less x y then y :: insertLeft less x rest else x :: y :: rest

/-- The call `sort.Slice(data, less)`: the library's insertion sort, which is what
`sort.Slice` runs on slices of at most 12 elements. -/
def sortSlice {A : Type} (less : A → A → Bool) (data : List A) : List A :=
  (data.foldl (fun rev x => insertLeft less x rev) []).reverse

/-- The slice expression `peers[:k]` for `k` below `len(peers)`: panics when `k < 0`. -/
def slicePrefix {A : Type} (peers : List A) (k : Int) : Except Panic (List A) :=
  if k < 0 then .error Panic.sliceBounds else .ok (peers.take k.toNat)

/-- The body of the second loop of both selectors for the topic with candidates
`peers`: sort, then cut to `churn` peers when there are more. -/
def capPeers (less : PeerID → PeerID → Bool) (churn : Int) (peers : List PeerID) :
    Except Panic (List PeerID) :=
  let sorted := sortSlice less peers
  if (sorted.length : Int) > churn then slicePrefix sorted churn else .ok sorted

/-- One iteration of the second loop: the entry of topic `e.1` is overwritten. -/
def capStep (less : TopicID → PeerID → PeerID → Bool) (churn : Int)
    (acc : GoMap TopicID (List PeerID)) (e : TopicID × List PeerID) :
    Except Panic (GoMap TopicID (List PeerID)) :=
  match capPeers (less e.1) churn e.2 with
  | .error p => .error p
  | .ok peers => .ok (GoMap.set acc e.1 peers)

/-- The second loop of both selectors: every topic's candidates are sorted by
`less t` and cut to the first `churn` peers. -/
def sortCap (less : TopicID → PeerID → PeerID → Bool) (churn : Int)
    (byTopic : GoMap TopicID (List PeerID)) : Except Panic (GoMap TopicID (List PeerID)) :=
  (GoMap.range byTopic).foldlM (capStep less churn) byTopic

/-- The third loop of both selectors: the per-topic lists are inverted into a map
keyed by peer. -/
def invert (byTopic : GoMap TopicID (List PeerID)) : GoMap PeerID (List TopicID) :=
  (GoMap.range byTopic).foldl
    (fun acc e => e.2.foldl (fun acc pid => appendAt acc pid e.1) acc) []

/-- The test `duplicatePercentage > params.ChokeDuplicatesThreshold` for a pair with
`v` duplicates and `f` first deliveries; the sum `f + v` is an `int` sum. -/
def chokeTest (threshold : F64) (f v : Int) : Bool :=
  let totalMessages := wrap64 (f + v)
  let duplicatePercentage := F64.div (F64.ofInt v) (F64.ofInt totalMessages)
  F64.gt duplicatePercentage threshold

/-- The test `params.UnchokeThreshold <= peerThreshold` for a pair with `fi` first
IHAVEs and `di` duplicate IHAVEs; the sum `fi + di` is an `int` sum. -/
def unchokeTest (threshold : F64) (fi di : Int) : Bool :=
  let totalMessageCount := F64.ofInt (wrap64 (fi + di))
  let peerThreshold := F64.div (F64.ofInt fi) totalMessageCount
  F64.le threshold peerThreshold

/-- The first loop of `viableForChoking`: candidates grouped by topic. -/
def chokeCandidatesByTopic (d : deliveryTracker) (params : GossipSubParams) :
    GoMap TopicID (List PeerID) :=
  (GoMap.range d.duplicates).foldl (fun acc e =>
    (GoMap.range e.2).foldl (fun acc tv =>
      if chokeTest params.ChokeDuplicatesThreshold (at2 d.firstDeliveries e.1 tv.1 0) tv.2
      then appendAt acc tv.1 e.1 else acc) acc) []

/-- The method `viableForChoking`. -/
def viableForChoking (d : deliveryTracker) (params : GossipSubParams) :
    Except Panic (GoMap PeerID (List TopicID)) := do
  let peersToChokeByTopic ← sortCap
    (fun t a b => decide (at2 d.duplicates a t 0 > at2 d.duplicates b t 0))
    params.ChokeChurn (chokeCandidatesByTopic d params)
  pure (invert peersToChokeByTopic)

/-- The first loop of `viableForUnchoking`: candidates grouped by topic. -/
def unchokeCandidatesByTopic (d : deliveryTracker) (params : GossipSubParams) :
    GoMap TopicID (List PeerID) :=
  (GoMap.range d.chokedPeers).foldl (fun acc e =>
    (GoMap.range e.2).foldl (fun acc tv =>
      if unchokeTest params.UnchokeThreshold (at2 d.firstIhaves e.1 tv.1 0)
        (at2 d.duplicateIhaves e.1 tv.1 0)
      then appendAt acc tv.1 e.1 else acc) acc) []

/-- The method `viableForUnchoking`; its comparator reads `firstIhaves` for the
left element and `duplicates` for the right one, as the source does. -/
def viableForUnchoking (d : deliveryTracker) (params : GossipSubParams) :
    Except Panic (GoMap PeerID (List TopicID)) := do
  let peerMap ← sortCap
    (fun t a b => decide (at2 d.firstIhaves a t 0 > at2 d.duplicates b t 0))
    params.UnchokeChurn (unchokeCandidatesByTopic d params)
  pure (invert peerMap)

/-- The statements `peerMap[topic]++` and `d.duplicates[msg.ReceivedFrom] = peerMap`
of `addDuplicate`: the `int` count of the pair goes up by one and wraps from the
largest `int` to the smallest. -/
def countDuplicate (d : deliveryTracker) (msg : Message) : deliveryTracker :=
  let topic := msg.Topic
  let peerMap := (GoMap.get? d.duplicates msg.ReceivedFrom).getD []
  let peerMap := GoMap.set peerMap topic (wrap64 (GoMap.getD peerMap topic 0 + 1))
  { d with duplicates := GoMap.set d.duplicates msg.ReceivedFrom peerMap }

/-- The method `addDuplicate`, run at instant `now`. The division by the new count
panics when that count is 0, which is after the count has been written. -/
def addDuplicate (d : deliveryTracker) (now : Time) (msg : Message) (id : String) :
    Except Panic deliveryTracker :=
  let topic := msg.Topic
  let totalDur := Duration.mul (at2 d.duplicateLatency msg.ReceivedFrom topic 0)
    (at2 d.duplicates msg.ReceivedFrom topic 0)
  let msgLatency := since now (GoMap.getD d.firstDeliveryTime id 0)
  let totalDur := Duration.add totalDur msgLatency
  let counted := countDuplicate d msg
  let peerlatencyMap := (GoMap.get? d.duplicateLatency msg.ReceivedFrom).getD []
  if at2 counted.duplicates msg.ReceivedFrom topic 0 = 0 then .error Panic.divideByZero
  else
    let peerlatencyMap := GoMap.set peerlatencyMap topic
      (Duration.div totalDur (at2 counted.duplicates msg.ReceivedFrom topic 0))
    .ok { counted with
      duplicateLatency := GoMap.set d.duplicateLatency msg.ReceivedFrom peerlatencyMap }

/-- The method `addFirstDelivery`, run at instant `now`. The increment writes into
`d.firstDeliveries[msg.ReceivedFrom]` without creating it: a nil inner map panics. -/
def addFirstDelivery (d : deliveryTracker) (now : Time) (msg : Message) (id : String) :
    Except Panic deliveryTracker :=
  let topic := msg.Topic
  match GoMap.get? d.firstDeliveries msg.ReceivedFrom with
  | none => .error Panic.nilMapWrite
  | some inner =>
    .ok { d with
      firstDeliveries :=
        GoMap.set d.firstDeliveries msg.ReceivedFrom
          (GoMap.set inner topic (wrap64 (GoMap.getD inner topic 0 + 1)))
      firstDeliveryTime := GoMap.set d.firstDeliveryTime id now }

/-- The method `chokePeers`. -/
def chokePeers (d : deliveryTracker) (chokedPeers : GoMap PeerID (List TopicID)) :
    deliveryTracker :=
  (GoMap.range chokedPeers).foldl (fun d e =>
    let peerMap := (GoMap.get? d.chokedPeers e.1).getD []
    let peerMap := e.2.foldl (fun peerMap t =>
      let «exists» := GoMap.getD peerMap t false
      if !«exists» then GoMap.set peerMap t true else peerMap) peerMap
    { d with chokedPeers := GoMap.set d.chokedPeers e.1 peerMap }) d

/-- The method `unChokePeers`. -/
def unChokePeers (d : deliveryTracker) (unchokedPeers : GoMap PeerID (List TopicID)) :
    deliveryTracker :=
  (GoMap.range unchokedPeers).foldl (fun d e =>
    e.2.foldl (fun d t =>
      { d with chokedPeers := delete2 d.chokedPeers e.1 t
               firstIhaves := delete2 d.firstIhaves e.1 t
               duplicateIhaves := delete2 d.duplicateIhaves e.1 t }) d) d

/-- The method `chokedFromPeer`. -/
def chokedFromPeer (d : deliveryTracker) (pid : PeerID) (topic : TopicID) : deliveryTracker :=
  let cPeer := (GoMap.get? d.inboundChokedPeers pid).getD []
  let cPeer := GoMap.set cPeer topic true
  { d with inboundChokedPeers := GoMap.set d.inboundChokedPeers pid cPeer }

/-- The method `unChokedFromPeer`. -/
def unChokedFromPeer (d : deliveryTracker) (pid : PeerID) (topic : TopicID) :
    deliveryTracker :=
  { d with inboundChokedPeers := delete2 d.inboundChokedPeers pid topic }

/-- The method `isChokedFromRemotePeer`. -/
def isChokedFromRemotePeer (d : deliveryTracker) (pid : PeerID) (topic : TopicID) : Bool :=
  at2 d.inboundChokedPeers pid topic false

/-- The method `isChokedFromLocalPeer`. -/
def isChokedFromLocalPeer (d : deliveryTracker) (pid : PeerID) (topic : TopicID) : Bool :=
  at2 d.chokedPeers pid topic false

/-! ### The statistics of the data model -/

/-- The count `DuplicateCount(peer, topic)`, the read `d.duplicates[peer][topic]`. -/
def DuplicateCount (d : deliveryTracker) (p : PeerID) (t : TopicID) : Int :=
  at2 d.duplicates p t 0

/-- The count `FirstDeliveryCount(peer, topic)`. -/
def FirstDeliveryCount (d : deliveryTracker) (p : PeerID) (t : TopicID) : Int :=
  at2 d.firstDeliveries p t 0

/-- The average `DuplicateLatencyAvg(peer, topic)`. -/
def DuplicateLatencyAvg (d : deliveryTracker) (p : PeerID) (t : TopicID) : Duration :=
  at2 d.duplicateLatency p t 0

/-- The count `FirstIhaveCount(peer, topic)`. -/
def FirstIhaveCount (d : deliveryTracker) (p : PeerID) (t : TopicID) : Int :=
  at2 d.firstIhaves p t 0

/-- The count `DuplicateIhaveCount(peer, topic)`. -/
def DuplicateIhaveCount (d : deliveryTracker) (p : PeerID) (t : TopicID) : Int :=
  at2 d.duplicateIhaves p t 0

/-- The time `FirstDeliveryTimestamp(messageID)`, if one is recorded. -/
def FirstDeliveryTimestamp (d : deliveryTracker) (id : String) : Option Time :=
  GoMap.get? d.firstDeliveryTime id

/-- The topics a selector's result lists for peer `p`. -/
def topicsOf (r : GoMap PeerID (List TopicID)) (p : PeerID) : List TopicID :=
  GoMap.getD r p []

/-! ### Definitions used in the statements and proofs -/

/-- The map the second loop leaves when no slice expression panics. -/
def capFold (less : TopicID → PeerID → PeerID → Bool) (k : Nat)
    (es : List (TopicID × List PeerID)) (acc : GoMap TopicID (List PeerID)) :
    GoMap TopicID (List PeerID) :=
  es.foldl (fun acc e => GoMap.set acc e.1 ((sortSlice (less e.1) e.2).take k)) acc

/-- Whether the nested map holds an entry for the pair `(p, t)`. -/
def hasEntry {V : Type} (m : GoMap PeerID (GoMap TopicID V)) (p : PeerID) (t : TopicID) :
    Bool :=
  (GoMap.get? (GoMap.getD m p []) t).isSome

/-- The choke candidates of topic `T`: the peers with a pair `(P, T)` in the
duplicates table whose duplicate share exceeds the choke threshold. -/
def chokeCandidates (d : deliveryTracker) (params : GossipSubParams) (T : TopicID) :
    List PeerID :=
  ((GoMap.range d.duplicates).map Prod.fst).filter (fun P =>
    hasEntry d.duplicates P T &&
      chokeTest params.ChokeDuplicatesThreshold (FirstDeliveryCount d P T) (DuplicateCount d P T))

/-- The unchoke candidates of topic `T`: the peers with a pair `(P, T)` in the
locally choked table whose first-IHAVE share reaches the unchoke threshold. -/
def unchokeCandidates (d : deliveryTracker) (params : GossipSubParams) (T : TopicID) :
    List PeerID :=
  ((GoMap.range d.chokedPeers).map Prod.fst).filter (fun P =>
    hasEntry d.chokedPeers P T &&
      unchokeTest params.UnchokeThreshold (FirstIhaveCount d P T) (DuplicateIhaveCount d P T))

/-- The peers for which a selector's result lists topic `T`. -/
def returnedPeers (r : GoMap PeerID (List TopicID)) (T : TopicID) : List PeerID :=
  ((GoMap.range r).map Prod.fst).filter (fun P => decide (T ∈ topicsOf r P))

/-- A tracker with one pair: 7 duplicates and 3 first deliveries from `P` on `T`. -/
def trackerSevenThree : deliveryTracker :=
  { NewDeliveryTracker with
    duplicates := [("P", [("T", 7)])]
    firstDeliveries := [("P", [("T", 3)])] }

/-- A tracker with five peers on topic `T`, with 5, 9, 3, 12 and 7 duplicates and no
first deliveries. -/
def trackerFivePeers : deliveryTracker :=
  { NewDeliveryTracker with
    duplicates := [("A", [("T", 5)]), ("B", [("T", 9)]), ("C", [("T", 3)]),
      ("D", [("T", 12)]), ("E", [("T", 7)])] }

/-- The inner loop of `chokePeers`: the topics of one peer are marked in its map. -/
def markTopics (peerMap : GoMap TopicID Bool) (topics : List TopicID) : GoMap TopicID Bool :=
  topics.foldl (fun peerMap t =>
    if !(GoMap.getD peerMap t false) then GoMap.set peerMap t true else peerMap) peerMap

/-- The pairs `(p, t)` a mapping from peers to topic lists ranges over, in order. -/
def pairsOf (m : GoMap PeerID (List TopicID)) : List (PeerID × TopicID) :=
  (GoMap.range m).flatMap (fun e => e.2.map (fun t => (e.1, t)))

/-- The statements `delete(m[p], t)` for a list of pairs, in order. -/
def deleteAll {V : Type} (m : GoMap PeerID (GoMap TopicID V)) (pairs : List (PeerID × TopicID)) :
    GoMap PeerID (GoMap TopicID V) :=
  pairs.foldl (fun m pt => delete2 m pt.1 pt.2) m

/-- A locally choked table that `chokePeers` and `unChokePeers` can have built,
starting from the empty table of a new tracker. -/
inductive ChokedBuilt : GoMap PeerID (GoMap TopicID Bool) → Prop
  | new : ChokedBuilt NewDeliveryTracker.chokedPeers
  | choke (d : deliveryTracker) (m : GoMap PeerID (List TopicID)) :
      ChokedBuilt d.chokedPeers → ChokedBuilt (chokePeers d m).chokedPeers
  | unchoke (d : deliveryTracker) (m : GoMap PeerID (List TopicID)) :
      ChokedBuilt d.chokedPeers → ChokedBuilt (unChokePeers d m).chokedPeers

/-- A tracker in which `P` is locally choked on `T`, with 1 first IHAVE and 9
duplicate IHAVEs, and has sent 7 duplicates and 3 first deliveries. -/
def trackerOneNine : deliveryTracker :=
  { NewDeliveryTracker with
    duplicates := [("P", [("T", 7)])]
    firstDeliveries := [("P", [("T", 3)])]
    chokedPeers := [("P", [("T", true)])]
    firstIhaves := [("P", [("T", 1)])]
    duplicateIhaves := [("P", [("T", 9)])] }

/-- A tracker in which `A` and `B` are locally choked on `T`; `A` has 1 first IHAVE
and 10 duplicates, `B` has 5 first IHAVEs and no duplicates. `A` is iterated first. -/
def trackerAB : deliveryTracker :=
  { NewDeliveryTracker with
    duplicates := [("A", [("T", 10)])]
    chokedPeers := [("A", [("T", true)]), ("B", [("T", true)])]
    firstIhaves := [("A", [("T", 1)]), ("B", [("T", 5)])] }

/-- The tracker `trackerAB` with `B` iterated first. -/
def trackerBA : deliveryTracker :=
  { NewDeliveryTracker with
    duplicates := [("A", [("T", 10)])]
    chokedPeers := [("B", [("T", true)]), ("A", [("T", true)])]
    firstIhaves := [("A", [("T", 1)]), ("B", [("T", 5)])] }

/-- A tracker with one duplicate from `P` on `T`, of latency 100, and message `m1`
first delivered at instant 0. -/
def trackerOneDuplicate : deliveryTracker :=
  { NewDeliveryTracker with
    duplicates := [("P", [("T", 1)])]
    duplicateLatency := [("P", [("T", 100)])]
    firstDeliveryTime := [("m1", 0)] }

/-- A tracker with `2^53 + 1` duplicates and `2^53 - 1` first deliveries from `P` on
`T`: the exact duplicate share is `1/2 + 2^-54`. -/
def trackerHalfAbove : deliveryTracker :=
  { NewDeliveryTracker with
    duplicates := [("P", [("T", 9007199254740993)])]
    firstDeliveries := [("P", [("T", 9007199254740991)])] }

/-- A tracker in which `P` is locally choked on `T` with `2^54 - 1` first IHAVEs and
`2^54 + 1` duplicate IHAVEs: the exact first-IHAVE share is `1/2 - 2^-55`. -/
def trackerHalfBelow : deliveryTracker :=
  { NewDeliveryTracker with
    chokedPeers := [("P", [("T", true)])]
    firstIhaves := [("P", [("T", 18014398509481983)])]
    duplicateIhaves := [("P", [("T", 18014398509481985)])] }

/-- A tracker with `2^62` duplicates and `2^62` first deliveries from `P` on `T`: the
`int` sum of the two wraps to `-2^63`. -/
def trackerWrapSum : deliveryTracker :=
  { NewDeliveryTracker with
    duplicates := [("P", [("T", 4611686018427387904)])]
    firstDeliveries := [("P", [("T", 4611686018427387904)])] }

/-- A tracker in which `P` is locally choked on `T` with `2^62` first IHAVEs and
`2^62` duplicate IHAVEs: the `int` sum of the two wraps to `-2^63`. -/
def trackerWrapIhaves : deliveryTracker :=
  { NewDeliveryTracker with
    chokedPeers := [("P", [("T", true)])]
    firstIhaves := [("P", [("T", 4611686018427387904)])]
    duplicateIhaves := [("P", [("T", 4611686018427387904)])] }

/-- A tracker with the largest `int`, `2^63 - 1`, as the duplicate count of `P` on
`T`, and message `m1` first delivered at instant 0. -/
def trackerMaxCount : deliveryTracker :=
  { NewDeliveryTracker with
    duplicates := [("P", [("T", 9223372036854775807)])]
    firstDeliveryTime := [("m1", 0)] }

/-- A tracker with candidates, zero totals and missing entries: `A`, `B` and `C` have
duplicates on `T` (7, 5 and 0), only `A` has first deliveries (3), all three are
locally choked on `T`, `A` and `B` have first IHAVEs (1 and 5) and nobody has
duplicate IHAVEs. -/
def trackerMixed : deliveryTracker :=
  { NewDeliveryTracker with
    duplicates := [("A", [("T", 7)]), ("B", [("T", 5)]), ("C", [("T", 0)])]
    firstDeliveries := [("A", [("T", 3)])]
    chokedPeers := [("A", [("T", true)]), ("B", [("T", true)]), ("C", [("T", true)])]
    firstIhaves := [("A", [("T", 1)]), ("B", [("T", 5)])] }

/-- A new tracker on which messages `m1`, `m2` and `m3` were first delivered at
instant 0. -/
def trackerThreeMessages : deliveryTracker :=
  { NewDeliveryTracker with firstDeliveryTime := [("m1", 0), ("m2", 0), ("m3", 0)] }

/-- A tracker in which `P`, with 7 duplicates on `T`, is already locally choked on
`T`, and `Q`, with 5 duplicates on `T`, is not. -/
def trackerChokedFirst : deliveryTracker :=
  { NewDeliveryTracker with
    duplicates := [("P", [("T", 7)]), ("Q", [("T", 5)])]
    chokedPeers := [("P", [("T", true)])] }

/-! ### The threshold in the words of the claims -/

/-- Whether the pair `(P, T)` exceeds the choke threshold `t`, as the claims word it:
the total of its duplicates and first deliveries is positive and the float64
quotient of the duplicates by the total is greater than `t`. -/
def exceedsChokeThreshold (d : deliveryTracker) (t : F64) (P : PeerID) (T : TopicID) : Bool :=
  decide (0 < DuplicateCount d P T + FirstDeliveryCount d P T) &&
    F64.gt (F64.div (F64.ofInt (DuplicateCount d P T))
      (F64.ofInt (DuplicateCount d P T + FirstDeliveryCount d P T))) t

/-- The peers of the duplicates table whose pair with `T` exceeds the choke
threshold `t`. -/
def thresholdCandidates (d : deliveryTracker) (t : F64) (T : TopicID) : List PeerID :=
  ((GoMap.range d.duplicates).map Prod.fst).filter (fun P => exceedsChokeThreshold d t P T)

/-- Whether, for every peer of the duplicates table, the duplicates and the first
deliveries on `T` are non-negative and their sum is at most the largest `int`. -/
def chokeCountsInRange (d : deliveryTracker) (T : TopicID) : Bool :=
  ((GoMap.range d.duplicates).map Prod.fst).all (fun P =>
    decide (0 ≤ DuplicateCount d P T ∧ 0 ≤ FirstDeliveryCount d P T ∧
      DuplicateCount d P T + FirstDeliveryCount d P T < 2 ^ 63))

/-! ### Method bodies as steps of the tracker -/

/-- A piece of a method body, run on the tracker behind the receiver `d`: it yields a
value or a panic, and the tracker it leaves behind. -/
abbrev Step (α : Type) := deliveryTracker → Except Panic α × deliveryTracker

/-- A piece of code that yields `a` and touches no tracker. -/
def Step.ret {α : Type} (a : α) : Step α := fun d => (.ok a, d)

/-- A statement that panics. -/
def Step.fail {α : Type} (p : Panic) : Step α := fun d => (.error p, d)

/-- An expression that reads the tracker, such as `d.duplicates[p][t]`; a map read
in Go inserts nothing. -/
def Step.read {α : Type} (g : deliveryTracker → α) : Step α := fun d => (.ok (g d), d)

/-- Sequencing: `f` runs on the tracker that `x` leaves behind; a panic ends the run. -/
def Step.andThen {α β : Type} (x : Step α) (f : α → Step β) : Step β := fun d =>
  match x d with
  | (.ok a, d') => f a d'
  | (.error p, d') => (.error p, d')

/-- A `for ... range` loop over `l` whose body updates the locals `b`. -/
def Step.loop {α β : Type} (f : β → α → Step β) : β → List α → Step β
  | b, [] => Step.ret b
  | b, a :: l => Step.andThen (f b a) (fun b' => Step.loop f b' l)

/-- The inner loop of the insertion sort, with a comparator that runs on the tracker. -/
def insertLeftStep {A : Type} (less : A → A → Step Bool) (x : A) : List A → Step (List A)
  | [] => Step.ret [x]
  | y :: rest =>
    Step.andThen (less x y) (fun b =>
      if b then Step.andThen (insertLeftStep less x rest) (fun r => Step.ret (y :: r))
      else Step.ret (x :: y :: rest))

/-- The call `sort.Slice(data, less)`, with a comparator that runs on the tracker. -/
def sortSliceStep {A : Type} (less : A → A → Step Bool) (data : List A) : Step (List A) :=
  Step.andThen (Step.loop (fun rev x => insertLeftStep less x rev) [] data)
    (fun rev => Step.ret rev.reverse)

/-- The second loop of both selectors, with a comparator that runs on the tracker. -/
def sortCapStep (less : TopicID → PeerID → PeerID → Step Bool) (churn : Int)
    (byTopic : GoMap TopicID (List PeerID)) : Step (GoMap TopicID (List PeerID)) :=
  Step.loop (fun acc e =>
    Step.andThen (sortSliceStep (less e.1) e.2) (fun sorted =>
      if (sorted.length : Int) > churn then
        (if churn < 0 then Step.fail Panic.sliceBounds
         else Step.ret (GoMap.set acc e.1 (sorted.take churn.toNat)))
      else Step.ret (GoMap.set acc e.1 sorted))) byTopic (GoMap.range byTopic)

/-- The body of `viableForChoking`, statement by statement, on the tracker behind
`d`: every `d.duplicates[..]` and `d.firstDeliveries[..]` is a read of it. -/
def viableForChokingStep (params : GossipSubParams) : Step (GoMap PeerID (List TopicID)) :=
  Step.andThen (Step.read (fun d => GoMap.range d.duplicates)) (fun entries =>
  Step.andThen (Step.loop (fun acc e =>
      Step.loop (fun acc tv =>
        Step.andThen (Step.read (fun d => at2 d.firstDeliveries e.1 tv.1 0)) (fun f =>
          Step.ret (if chokeTest params.ChokeDuplicatesThreshold f tv.2
            then appendAt acc tv.1 e.1 else acc)))
        acc (GoMap.range e.2)) [] entries) (fun peersToChokeByTopic =>
  Step.andThen (sortCapStep
      (fun t a b => Step.read (fun d =>
        decide (at2 d.duplicates a t 0 > at2 d.duplicates b t 0)))
      params.ChokeChurn peersToChokeByTopic) (fun capped =>
  Step.ret (invert capped))))

/-- The body of `viableForUnchoking`, statement by statement, on the tracker behind
`d`. -/
def viableForUnchokingStep (params : GossipSubParams) : Step (GoMap PeerID (List TopicID)) :=
  Step.andThen (Step.read (fun d => GoMap.range d.chokedPeers)) (fun entries =>
  Step.andThen (Step.loop (fun acc e =>
      Step.loop (fun acc tv =>
        Step.andThen (Step.read (fun d => at2 d.firstIhaves e.1 tv.1 0)) (fun fi =>
        Step.andThen (Step.read (fun d => at2 d.duplicateIhaves e.1 tv.1 0)) (fun di =>
          Step.ret (if unchokeTest params.UnchokeThreshold fi di
            then appendAt acc tv.1 e.1 else acc))))
        acc (GoMap.range e.2)) [] entries) (fun peerMap =>
  Step.andThen (sortCapStep
      (fun t a b => Step.read (fun d =>
        decide (at2 d.firstIhaves a t 0 > at2 d.duplicates b t 0)))
      params.UnchokeChurn peerMap) (fun capped =>
  Step.ret (invert capped))))

/-- The body of `isChokedFromRemotePeer` on the tracker behind `d`. -/
def isChokedFromRemotePeerStep (pid : PeerID) (topic : TopicID) : Step Bool :=
  Step.read (fun d => at2 d.inboundChokedPeers pid topic false)

/-- The body of `isChokedFromLocalPeer` on the tracker behind `d`. -/
def isChokedFromLocalPeerStep (pid : PeerID) (topic : TopicID) : Step Bool :=
  Step.read (fun d => at2 d.chokedPeers pid topic false)

/-! ### Calls -/

/-- A call of one of the tracker's methods, with its arguments. -/
inductive Call
  | addDuplicate (now : Time) (msg : Message) (id : String)
  | addFirstDelivery (now : Time) (msg : Message) (id : String)
  | chokePeers (m : GoMap PeerID (List TopicID))
  | unChokePeers (m : GoMap PeerID (List TopicID))
  | chokedFromPeer (pid : PeerID) (topic : TopicID)
  | unChokedFromPeer (pid : PeerID) (topic : TopicID)
  | viableForChoking (params : GossipSubParams)
  | viableForUnchoking (params : GossipSubParams)
  | isChokedFromRemotePeer (pid : PeerID) (topic : TopicID)
  | isChokedFromLocalPeer (pid : PeerID) (topic : TopicID)

/-- The tracker a call leaves behind. `addDuplicate` panics, if it does, after the
count has been written; `addFirstDelivery` panics, if it does, at its first
statement. For the selectors and the queries it is the tracker their bodies leave. -/
def Call.after : Call → deliveryTracker → deliveryTracker
  | .addDuplicate now msg id, d =>
    match Episub.addDuplicate d now msg id with
    | .ok d' => d'
    | .error _ => Episub.countDuplicate d msg
  | .addFirstDelivery now msg id, d =>
    match Episub.addFirstDelivery d now msg id with
    | .ok d' => d'
    | .error _ => d
  | .chokePeers m, d => Episub.chokePeers d m
  | .unChokePeers m, d => Episub.unChokePeers d m
  | .chokedFromPeer pid topic, d => Episub.chokedFromPeer d pid topic
  | .unChokedFromPeer pid topic, d => Episub.unChokedFromPeer d pid topic
  | .viableForChoking params, d => (Episub.viableForChokingStep params d).2
  | .viableForUnchoking params, d => (Episub.viableForUnchokingStep params d).2
  | .isChokedFromRemotePeer pid topic, d => (Episub.isChokedFromRemotePeerStep pid topic d).2
  | .isChokedFromLocalPeer pid topic, d => (Episub.isChokedFromLocalPeerStep pid topic d).2

/-- The calls `addDuplicate(msg, id)` for a run of duplicates from one peer on one
topic; `calls` lists the instant and the message ID of each call, in order. -/
def addDuplicates (d : deliveryTracker) (msg : Message) (calls : List (Time × String)) :
    Except Panic deliveryTracker :=
  calls.foldlM (fun d c => addDuplicate d c.1 msg c.2) d

/-- The latency `time.Since(d.firstDeliveryTime[id])` that the call `c` computes. -/
def latencyOf (d : deliveryTracker) (c : Time × String) : Duration :=
  since c.1 (GoMap.getD d.firstDeliveryTime c.2 0)

/-! ## Facts about Go maps -/

namespace GoMap

variable {K V : Type} [DecidableEq K]

theorem get?_set_self (m : GoMap K V) (k : K) (v : V) : get? (set m k v) k = some v := by
  induction m with
  | nil => simp [set, get?]
  | cons e rest ih =>
    obtain ⟨k', v'⟩ := e
    by_cases h : k' = k
    · simp [set, get?, h]
    · simp [set, get?, h, ih]

theorem get?_set_ne (m : GoMap K V) (k k' : K) (v : V) (h : k' ≠ k) :
    get? (set m k v) k' = get? m k' := by
  induction m with
  | nil => simp [set, get?, Ne.symm h]
  | cons e rest ih =>
    obtain ⟨k0, v0⟩ := e
    by_cases h0 : k0 = k
    · subst h0; simp [set, get?, Ne.symm h]
    · by_cases h1 : k0 = k'
      · subst h1; simp [set, get?, h0]
      · simp [set, get?, h0, h1, ih]

theorem get?_set (m : GoMap K V) (k k' : K) (v : V) :
    get? (set m k v) k' = if k' = k then some v else get? m k' := by
  by_cases h : k' = k
  · subst h; simp [get?_set_self]
  · simp [h, get?_set_ne m k k' v h]

theorem get?_delete (m : GoMap K V) (k k' : K) :
    get? (delete m k) k' = if k' = k then none else get? m k' := by
  induction m with
  | nil => simp [delete, get?]
  | cons e rest ih =>
    obtain ⟨k0, v0⟩ := e
    simp only [delete] at ih
    by_cases h0 : k0 = k
    · subst h0
      by_cases h1 : k' = k0
      · subst h1; simpa [delete, get?] using ih
      · simpa [delete, get?, h1, Ne.symm h1] using ih
    · by_cases h1 : k' = k
      · subst h1; simpa [delete, get?, h0] using ih
      · by_cases h2 : k0 = k'
        · simp [delete, get?, h0, h1, h2]
        · simpa [delete, get?, h0, h1, h2] using ih

theorem getD_set (m : GoMap K V) (k k' : K) (v z : V) :
    getD (set m k v) k' z = if k' = k then v else getD m k' z := by
  unfold getD
  rw [get?_set]
  split <;> rfl

theorem mem_rangeAux (seen : List K) (m : GoMap K V) (k : K) (v : V) :
    (k, v) ∈ rangeAux seen m ↔ k ∉ seen ∧ get? m k = some v := by
  induction m generalizing seen with
  | nil => simp [rangeAux, get?]
  | cons e rest ih =>
    obtain ⟨k0, v0⟩ := e
    by_cases hs : k0 ∈ seen
    · simp only [rangeAux, hs, if_true, ih, get?]
      constructor
      · rintro ⟨h1, h2⟩
        have : k0 ≠ k := fun h => h1 (h ▸ hs)
        exact ⟨h1, by simp [this, h2]⟩
      · rintro ⟨h1, h2⟩
        have : k0 ≠ k := fun h => h1 (h ▸ hs)
        exact ⟨h1, by simpa [this] using h2⟩
    · simp only [rangeAux, hs, if_false, List.mem_cons, ih, get?, Prod.mk.injEq, not_or]
      by_cases hk : k0 = k
      · subst hk
        simp [hs, eq_comm]
      · simp [hk, Ne.symm hk]

theorem mem_range (m : GoMap K V) (k : K) (v : V) :
    (k, v) ∈ range m ↔ get? m k = some v := by
  simp [range, mem_rangeAux]

theorem nodup_rangeAux (seen : List K) (m : GoMap K V) :
    ((rangeAux seen m).map Prod.fst).Nodup := by
  induction m generalizing seen with
  | nil => simp [rangeAux]
  | cons e rest ih =>
    obtain ⟨k0, v0⟩ := e
    by_cases hs : k0 ∈ seen
    · simpa [rangeAux, hs] using ih seen
    · simp only [rangeAux, hs, if_false, List.map_cons, List.nodup_cons]
      refine ⟨?_, ih _⟩
      intro hmem
      obtain ⟨⟨a, b⟩, hab, rfl⟩ := List.mem_map.1 hmem
      have := (mem_rangeAux (a :: seen) rest a b).1 hab
      simp at this

theorem nodup_range_keys (m : GoMap K V) : ((range m).map Prod.fst).Nodup :=
  nodup_rangeAux [] m

theorem nodup_range (m : GoMap K V) : (range m).Nodup :=
  List.Nodup.of_map _ (nodup_range_keys m)

theorem get?_eq_none_of_not_mem (L : GoMap K V) (k : K) (h : ∀ e ∈ L, e.1 ≠ k) :
    get? L k = none := by
  induction L with
  | nil => rfl
  | cons e rest ih =>
    obtain ⟨k0, v0⟩ := e
    have h0 : k0 ≠ k := h (k0, v0) (List.mem_cons_self _ _)
    simp only [get?, h0, if_false]
    exact ih (fun e he => h e (List.mem_cons_of_mem _ he))

theorem get?_range (m : GoMap K V) (k : K) : get? (range m) k = get? m k := by
  cases hk : get? m k with
  | none =>
    apply get?_eq_none_of_not_mem
    rintro ⟨a, b⟩ he rfl
    have := (mem_range m a b).1 he
    simp [hk] at this
  | some v =>
    have hmem : (k, v) ∈ range m := (mem_range m k v).2 hk
    have hnd := nodup_range_keys m
    generalize range m = L at hmem hnd
    induction L with
    | nil => simp at hmem
    | cons e rest ih =>
      obtain ⟨k0, v0⟩ := e
      simp only [List.map_cons, List.nodup_cons] at hnd
      rcases List.mem_cons.1 hmem with h | h
      · cases h; simp [get?]
      · have hne : k0 ≠ k := by
          rintro rfl
          exact hnd.1 (List.mem_map.2 ⟨(k0, v), h, rfl⟩)
        simp only [get?, hne, if_false]
        exact ih h hnd.2

theorem filter_key_of_nodup (L : GoMap K V) (hL : (L.map Prod.fst).Nodup) (k : K)
    (q : K × V → Bool) :
    L.filter (fun e => decide (e.1 = k) && q e) =
      match get? L k with
      | some v => if q (k, v) then [(k, v)] else []
      | none => [] := by
  induction L with
  | nil => rfl
  | cons e rest ih =>
    obtain ⟨k0, v0⟩ := e
    simp only [List.map_cons, List.nodup_cons] at hL
    by_cases h0 : k0 = k
    · subst h0
      have hrest : rest.filter (fun e => decide (e.1 = k0) && q e) = [] := by
        apply List.filter_eq_nil_iff.2
        intro e he
        have : e.1 ≠ k0 := by
          intro h
          exact hL.1 (List.mem_map.2 ⟨e, he, h⟩)
        simp [this]
      by_cases hq : q (k0, v0) = true
      · simp [List.filter_cons, get?, hq, hrest]
      · simp [List.filter_cons, get?, hq, hrest]
    · have := ih hL.2
      simp only [List.filter_cons, h0, decide_False, Bool.false_and, get?, if_false]
      simpa using this

end GoMap

/-! ## Facts about the loops of the selectors -/

theorem getD_appendAt {A : Type} (m : GoMap String (List A)) (k k' : String) (a : A) :
    GoMap.getD (appendAt m k a) k' [] =
      if k' = k then GoMap.getD m k [] ++ [a] else GoMap.getD m k' [] := by
  simp [appendAt, GoMap.getD_set]

theorem getD_foldl_appendAt {A : Type} (xs : List (String × A))
    (init : GoMap String (List A)) (k : String) :
    GoMap.getD (xs.foldl (fun acc x => appendAt acc x.1 x.2) init) k [] =
      GoMap.getD init k [] ++ (xs.filter (fun x => decide (x.1 = k))).map Prod.snd := by
  induction xs generalizing init with
  | nil => simp
  | cons x rest ih =>
    simp only [List.foldl_cons, ih, getD_appendAt]
    by_cases h : x.1 = k
    · subst h; simp [List.filter_cons]
    · have h' : ¬ k = x.1 := fun e => h e.symm
      simp [List.filter_cons, h, h']

theorem foldl_cond_appendAt {X A : Type} (xs : List X) (c : X → Bool) (mk : X → String × A)
    (init : GoMap String (List A)) :
    xs.foldl (fun acc x => if c x then appendAt acc (mk x).1 (mk x).2 else acc) init =
      ((xs.filter c).map mk).foldl (fun acc y => appendAt acc y.1 y.2) init := by
  induction xs generalizing init with
  | nil => rfl
  | cons x rest ih => by_cases h : c x <;> simp [List.filter_cons, h, ih]

theorem foldl_nested_appendAt {E X A : Type} (l : List E) (g : E → List X)
    (c : E → X → Bool) (mk : E → X → String × A) (init : GoMap String (List A)) :
    l.foldl (fun acc e => (g e).foldl
        (fun acc x => if c e x then appendAt acc (mk e x).1 (mk e x).2 else acc) acc) init =
      (l.flatMap (fun e => ((g e).filter (c e)).map (mk e))).foldl
        (fun acc y => appendAt acc y.1 y.2) init := by
  induction l generalizing init with
  | nil => rfl
  | cons e rest ih =>
    simp only [List.foldl_cons, List.flatMap_cons, List.foldl_append]
    rw [ih, foldl_cond_appendAt]

/-- The first loop of a selector, read per topic: the peers, in iteration order,
whose inner map has an entry for `T` that passes the test. -/
theorem getD_group {V : Type} (m : GoMap String (GoMap String V))
    (c : String → String → V → Bool) (T : String) :
    GoMap.getD ((GoMap.range m).foldl (fun acc e =>
        (GoMap.range e.2).foldl (fun acc tv =>
          if c e.1 tv.1 tv.2 then appendAt acc tv.1 e.1 else acc) acc) []) T [] =
      ((GoMap.range m).filter (fun e =>
        match GoMap.get? e.2 T with
        | some v => c e.1 T v
        | none => false)).map Prod.fst := by
  rw [foldl_nested_appendAt (GoMap.range m) (fun e => GoMap.range e.2)
    (fun e tv => c e.1 tv.1 tv.2) (fun e tv => (tv.1, e.1)) [], getD_foldl_appendAt]
  simp only [GoMap.getD, GoMap.get?, Option.getD_none, List.nil_append]
  generalize GoMap.range m = l
  induction l with
  | nil => rfl
  | cons e rest ih =>
    simp only [List.flatMap_cons, List.filter_append, List.map_append, ih]
    have hin : (List.filter (fun x => decide (x.1 = T))
        (((GoMap.range e.2).filter (fun tv => c e.1 tv.1 tv.2)).map (fun tv => (tv.1, e.1)))).map
          Prod.snd =
        ((GoMap.range e.2).filter (fun tv => decide (tv.1 = T) && c e.1 tv.1 tv.2)).map
          (fun _ => e.1) := by
      rw [List.filter_map, List.filter_filter, List.map_map]
      rfl
    rw [hin, GoMap.filter_key_of_nodup _ (GoMap.nodup_range_keys e.2), GoMap.get?_range]
    cases hg : GoMap.get? e.2 T with
    | none => simp [List.filter_cons, hg]
    | some v =>
      by_cases hc : c e.1 T v = true
      · simp [List.filter_cons, hg, hc]
      · simp [List.filter_cons, hg, hc]

/-! ### `sort.Slice` -/

theorem insertLeft_perm {A : Type} (less : A → A → Bool) (x : A) (l : List A) :
    (insertLeft less x l).Perm (x :: l) := by
  induction l with
  | nil => exact List.Perm.refl _
  | cons y rest ih =>
    by_cases h : less x y = true
    · simp only [insertLeft, h, if_true]
      exact ((List.Perm.cons y ih).trans (List.Perm.swap x y rest))
    · simp only [insertLeft, h]
      exact List.Perm.refl _

theorem foldl_insertLeft_perm {A : Type} (less : A → A → Bool) (l acc : List A) :
    (l.foldl (fun rev x => insertLeft less x rev) acc).Perm (l ++ acc) := by
  induction l generalizing acc with
  | nil => exact List.Perm.refl _
  | cons x rest ih =>
    simp only [List.foldl_cons]
    refine (ih _).trans ?_
    refine (List.Perm.append_left rest (insertLeft_perm less x acc)).trans ?_
    exact List.perm_middle

theorem sortSlice_perm {A : Type} (less : A → A → Bool) (l : List A) :
    (sortSlice less l).Perm l := by
  unfold sortSlice
  refine (List.reverse_perm _).trans ?_
  simpa using foldl_insertLeft_perm less l []

theorem insertLeft_sorted {A : Type} (f : A → Int) (x : A) (l : List A)
    (h : l.Pairwise (fun a b => f a ≤ f b)) :
    (insertLeft (fun a b => decide (f a > f b)) x l).Pairwise (fun a b => f a ≤ f b) := by
  induction l with
  | nil => simp [insertLeft]
  | cons y rest ih =>
    rw [List.pairwise_cons] at h
    by_cases hxy : f x > f y
    · simp only [insertLeft, hxy, decide_True, if_true, List.pairwise_cons]
      refine ⟨?_, ih h.2⟩
      intro z hz
      rcases List.mem_cons.1 ((insertLeft_perm _ x rest).subset hz) with rfl | hz
      · exact le_of_lt hxy
      · exact h.1 z hz
    · simp only [insertLeft, hxy, decide_False, Bool.false_eq_true, if_false,
        List.pairwise_cons]
      refine ⟨?_, h.1, h.2⟩
      intro z hz
      rcases List.mem_cons.1 hz with rfl | hz
      · exact le_of_not_lt hxy
      · exact le_trans (le_of_not_lt hxy) (h.1 z hz)

theorem sortSlice_sorted {A : Type} (f : A → Int) (l : List A) :
    (sortSlice (fun a b => decide (f a > f b)) l).Pairwise (fun a b => f b ≤ f a) := by
  unfold sortSlice
  rw [List.pairwise_reverse]
  have : ∀ acc : List A, acc.Pairwise (fun a b => f a ≤ f b) →
      (l.foldl (fun rev x => insertLeft (fun a b => decide (f a > f b)) x rev) acc).Pairwise
        (fun a b => f a ≤ f b) := by
    induction l with
    | nil => intro acc h; exact h
    | cons x rest ih => intro acc h; exact ih _ (insertLeft_sorted f x acc h)
  exact this [] List.Pairwise.nil

/-! ### Sorting and cutting, inverting -/

theorem capStep_ok (less : TopicID → PeerID → PeerID → Bool) (churn : Int) (h : 0 ≤ churn)
    (acc : GoMap TopicID (List PeerID)) (e : TopicID × List PeerID) :
    capStep less churn acc e =
      .ok (GoMap.set acc e.1 ((sortSlice (less e.1) e.2).take churn.toNat)) := by
  unfold capStep capPeers
  by_cases hl : ((sortSlice (less e.1) e.2).length : Int) > churn
  · simp [hl, slicePrefix, not_lt.2 h]
  · have : (sortSlice (less e.1) e.2).length ≤ churn.toNat := by omega
    simp [hl, List.take_of_length_le this]

theorem capStep_neg (less : TopicID → PeerID → PeerID → Bool) (churn : Int) (h : churn < 0)
    (acc : GoMap TopicID (List PeerID)) (e : TopicID × List PeerID) :
    capStep less churn acc e = .error Panic.sliceBounds := by
  unfold capStep capPeers
  have hl : ((sortSlice (less e.1) e.2).length : Int) > churn := by omega
  simp [hl, slicePrefix, h]

theorem sortCap_fold_ok (less : TopicID → PeerID → PeerID → Bool) (churn : Int)
    (h : 0 ≤ churn) (es : List (TopicID × List PeerID)) (acc : GoMap TopicID (List PeerID)) :
    es.foldlM (capStep less churn) acc = .ok (capFold less churn.toNat es acc) := by
  induction es generalizing acc with
  | nil => rfl
  | cons e rest ih =>
    simp only [List.foldlM_cons, capFold, List.foldl_cons, capStep_ok less churn h]
    exact ih _

theorem sortCap_fold_neg (less : TopicID → PeerID → PeerID → Bool) (churn : Int)
    (h : churn < 0) (es : List (TopicID × List PeerID)) (acc r : GoMap TopicID (List PeerID))
    (hr : es.foldlM (capStep less churn) acc = .ok r) : es = [] := by
  cases es with
  | nil => rfl
  | cons e rest =>
    exfalso
    simp only [List.foldlM_cons, capStep_neg less churn h] at hr
    cases hr

/-- Whenever the second loop returns, it returns `capFold`. -/
theorem sortCap_eq_ok (less : TopicID → PeerID → PeerID → Bool) (churn : Int)
    (m r : GoMap TopicID (List PeerID)) (hr : sortCap less churn m = .ok r) :
    r = capFold less churn.toNat (GoMap.range m) m := by
  by_cases h : 0 ≤ churn
  · have := sortCap_fold_ok less churn h (GoMap.range m) m
    unfold sortCap at hr
    rw [this] at hr
    cases hr
    rfl
  · have hnil := sortCap_fold_neg less churn (not_le.1 h) (GoMap.range m) m r hr
    unfold sortCap at hr
    rw [hnil] at hr ⊢
    cases hr
    rfl

theorem sortCap_ok (less : TopicID → PeerID → PeerID → Bool) (churn : Int) (h : 0 ≤ churn)
    (m : GoMap TopicID (List PeerID)) :
    sortCap less churn m = .ok (capFold less churn.toNat (GoMap.range m) m) :=
  sortCap_fold_ok less churn h (GoMap.range m) m

theorem get?_capFold_other (less : TopicID → PeerID → PeerID → Bool) (k : Nat)
    (es : List (TopicID × List PeerID)) (acc : GoMap TopicID (List PeerID)) (T : TopicID)
    (h : ∀ e ∈ es, e.1 ≠ T) : GoMap.get? (capFold less k es acc) T = GoMap.get? acc T := by
  induction es generalizing acc with
  | nil => rfl
  | cons e rest ih =>
    simp only [capFold, List.foldl_cons]
    have := ih (GoMap.set acc e.1 ((sortSlice (less e.1) e.2).take k))
      (fun e' he' => h e' (List.mem_cons_of_mem _ he'))
    simp only [capFold] at this
    rw [this, GoMap.get?_set_ne]
    exact Ne.symm (h e (List.mem_cons_self _ _))

theorem get?_capFold_mem (less : TopicID → PeerID → PeerID → Bool) (k : Nat)
    (es : List (TopicID × List PeerID)) (hnd : (es.map Prod.fst).Nodup)
    (acc : GoMap TopicID (List PeerID)) (e : TopicID × List PeerID) (he : e ∈ es) :
    GoMap.get? (capFold less k es acc) e.1 = some ((sortSlice (less e.1) e.2).take k) := by
  induction es generalizing acc with
  | nil => simp at he
  | cons e0 rest ih =>
    simp only [List.map_cons, List.nodup_cons] at hnd
    rcases List.mem_cons.1 he with rfl | he
    · have := get?_capFold_other less k rest
        (GoMap.set acc e.1 ((sortSlice (less e.1) e.2).take k)) e.1
        (fun e' he' h' => hnd.1 (List.mem_map.2 ⟨e', he', h'⟩))
      simp only [capFold, List.foldl_cons] at this ⊢
      rw [this, GoMap.get?_set_self]
    · simp only [capFold, List.foldl_cons]
      exact ih hnd.2 _ he

/-- The second loop, read per topic: the candidates of `T`, sorted and cut. -/
theorem getD_capFold (less : TopicID → PeerID → PeerID → Bool) (k : Nat)
    (m : GoMap TopicID (List PeerID)) (T : TopicID) :
    GoMap.getD (capFold less k (GoMap.range m) m) T [] =
      (sortSlice (less T) (GoMap.getD m T [])).take k := by
  unfold GoMap.getD
  cases hg : GoMap.get? m T with
  | none =>
    rw [get?_capFold_other, hg]
    · simp [sortSlice]
    · rintro ⟨a, b⟩ he rfl
      have := (GoMap.mem_range m a b).1 he
      simp [hg] at this
  | some peers =>
    have := get?_capFold_mem less k (GoMap.range m) (GoMap.nodup_range_keys m) m (T, peers)
      ((GoMap.mem_range m T peers).2 hg)
    simp only at this
    rw [this]
    rfl

theorem mem_getD_iff {A : Type} (m : GoMap String (List A)) (k : String) (a : A) :
    a ∈ GoMap.getD m k [] ↔ ∃ l, GoMap.get? m k = some l ∧ a ∈ l := by
  unfold GoMap.getD
  cases GoMap.get? m k <;> simp

/-- The third loop: `T` is listed for `P` exactly when `P` is in the list of `T`. -/
theorem mem_topicsOf_invert (m : GoMap TopicID (List PeerID)) (P : PeerID) (T : TopicID) :
    T ∈ topicsOf (invert m) P ↔ P ∈ GoMap.getD m T [] := by
  have hflat : invert m = ((GoMap.range m).flatMap
      (fun e => e.2.map (fun pid => (pid, e.1)))).foldl (fun acc y => appendAt acc y.1 y.2) [] := by
    unfold invert
    generalize ([] : GoMap PeerID (List TopicID)) = init
    generalize GoMap.range m = l
    induction l generalizing init with
    | nil => rfl
    | cons e rest ih =>
      simp only [List.foldl_cons, List.flatMap_cons, List.foldl_append, List.foldl_map]
      exact ih _
  unfold topicsOf
  rw [hflat, getD_foldl_appendAt, mem_getD_iff]
  simp only [GoMap.getD, GoMap.get?, Option.getD_none, List.nil_append, List.mem_map,
    List.mem_filter, List.mem_flatMap, decide_eq_true_eq]
  constructor
  · rintro ⟨⟨p, t⟩, ⟨⟨⟨t', peers⟩, he, hm⟩, hp⟩, ht⟩
    obtain ⟨pid, hpid, heq⟩ := hm
    simp only [Prod.mk.injEq] at heq
    simp only at hp ht
    refine ⟨peers, ?_, ?_⟩
    · have := (GoMap.mem_range m t' peers).1 he
      rw [← ht, ← heq.2]; exact this
    · rw [← hp, ← heq.1]; exact hpid
  · rintro ⟨peers, hg, hP⟩
    exact ⟨(P, T), ⟨⟨(T, peers), (GoMap.mem_range m T peers).2 hg, P, hP, rfl⟩, rfl⟩, rfl⟩

/-! ### Candidates -/

theorem hasEntry_range {V : Type} (m : GoMap PeerID (GoMap TopicID V))
    (e : PeerID × GoMap TopicID V) (he : e ∈ GoMap.range m) (T : TopicID) (z : V)
    (c : V → Bool) :
    (match GoMap.get? e.2 T with
      | some v => c v
      | none => false) = (hasEntry m e.1 T && c (at2 m e.1 T z)) := by
  have hg : GoMap.get? m e.1 = some e.2 := (GoMap.mem_range m e.1 e.2).1 he
  simp only [hasEntry, at2, GoMap.getD, hg, Option.getD_some]
  cases GoMap.get? e.2 T <;> simp

/-- The first loop, read per topic, in terms of the tracker's statistics. -/
theorem getD_group_eq {V : Type} (m : GoMap PeerID (GoMap TopicID V))
    (c : PeerID → TopicID → V → Bool) (T : TopicID) (z : V) :
    GoMap.getD ((GoMap.range m).foldl (fun acc e =>
        (GoMap.range e.2).foldl (fun acc tv =>
          if c e.1 tv.1 tv.2 then appendAt acc tv.1 e.1 else acc) acc) []) T [] =
      ((GoMap.range m).map Prod.fst).filter
        (fun P => hasEntry m P T && c P T (at2 m P T z)) := by
  rw [getD_group, List.filter_map]
  congr 1
  apply List.filter_congr
  intro e he
  exact hasEntry_range m e he T z (c e.1 T)

theorem chokeCandidatesByTopic_getD (d : deliveryTracker) (params : GossipSubParams)
    (T : TopicID) :
    GoMap.getD (chokeCandidatesByTopic d params) T [] = chokeCandidates d params T :=
  getD_group_eq d.duplicates
    (fun p t v => chokeTest params.ChokeDuplicatesThreshold (at2 d.firstDeliveries p t 0) v) T 0

theorem unchokeCandidatesByTopic_getD (d : deliveryTracker) (params : GossipSubParams)
    (T : TopicID) :
    GoMap.getD (unchokeCandidatesByTopic d params) T [] = unchokeCandidates d params T :=
  getD_group_eq d.chokedPeers
    (fun p t _ => unchokeTest params.UnchokeThreshold (at2 d.firstIhaves p t 0)
      (at2 d.duplicateIhaves p t 0)) T false

theorem nodup_chokeCandidates (d : deliveryTracker) (params : GossipSubParams) (T : TopicID) :
    (chokeCandidates d params T).Nodup :=
  (GoMap.nodup_range_keys d.duplicates).filter _

theorem nodup_unchokeCandidates (d : deliveryTracker) (params : GossipSubParams)
    (T : TopicID) : (unchokeCandidates d params T).Nodup :=
  (GoMap.nodup_range_keys d.chokedPeers).filter _

theorem hasEntry_mem_keys {V : Type} (m : GoMap PeerID (GoMap TopicID V)) (P : PeerID)
    (T : TopicID) (h : hasEntry m P T = true) : P ∈ (GoMap.range m).map Prod.fst := by
  unfold hasEntry GoMap.getD at h
  cases hg : GoMap.get? m P with
  | none => simp [hg, GoMap.get?] at h
  | some inner => exact List.mem_map.2 ⟨(P, inner), (GoMap.mem_range m P inner).2 hg, rfl⟩

theorem mem_chokeCandidates (d : deliveryTracker) (params : GossipSubParams) (P : PeerID)
    (T : TopicID) :
    P ∈ chokeCandidates d params T ↔
      hasEntry d.duplicates P T = true ∧
        chokeTest params.ChokeDuplicatesThreshold (FirstDeliveryCount d P T)
          (DuplicateCount d P T) = true := by
  unfold chokeCandidates
  simp only [List.mem_filter, Bool.and_eq_true]
  exact ⟨fun h => h.2, fun h => ⟨hasEntry_mem_keys _ _ _ h.1, h⟩⟩

theorem mem_unchokeCandidates (d : deliveryTracker) (params : GossipSubParams) (P : PeerID)
    (T : TopicID) :
    P ∈ unchokeCandidates d params T ↔
      hasEntry d.chokedPeers P T = true ∧
        unchokeTest params.UnchokeThreshold (FirstIhaveCount d P T)
          (DuplicateIhaveCount d P T) = true := by
  unfold unchokeCandidates
  simp only [List.mem_filter, Bool.and_eq_true]
  exact ⟨fun h => h.2, fun h => ⟨hasEntry_mem_keys _ _ _ h.1, h⟩⟩

/-! ### What the selectors return -/

/-- Whenever `viableForChoking` returns, `T` is listed for `P` exactly when `P` is
among the first `ChokeChurn` candidates of `T` after sorting. -/
theorem viableForChoking_ok_iff (d : deliveryTracker) (params : GossipSubParams)
    (r : GoMap PeerID (List TopicID)) (hr : viableForChoking d params = .ok r)
    (P : PeerID) (T : TopicID) :
    T ∈ topicsOf r P ↔
      P ∈ (sortSlice (fun a b => decide (at2 d.duplicates a T 0 > at2 d.duplicates b T 0))
        (chokeCandidates d params T)).take params.ChokeChurn.toNat := by
  unfold viableForChoking at hr
  cases hs : sortCap (fun t a b => decide (at2 d.duplicates a t 0 > at2 d.duplicates b t 0))
      params.ChokeChurn (chokeCandidatesByTopic d params) with
  | error p => rw [hs] at hr; cases hr
  | ok capped =>
    rw [hs] at hr
    cases hr
    have := sortCap_eq_ok _ _ _ _ hs
    simp only [bind_pure_comp, map_pure] at *
    rw [mem_topicsOf_invert, this, getD_capFold, chokeCandidatesByTopic_getD]

theorem viableForChoking_total (d : deliveryTracker) (params : GossipSubParams)
    (hk : 0 ≤ params.ChokeChurn) : ∃ r, viableForChoking d params = .ok r := by
  unfold viableForChoking
  rw [sortCap_ok _ _ hk]
  exact ⟨_, rfl⟩

/-- Whenever `viableForUnchoking` returns, `T` is listed for `P` exactly when `P` is
among the first `UnchokeChurn` candidates of `T` after sorting. -/
theorem viableForUnchoking_ok_iff (d : deliveryTracker) (params : GossipSubParams)
    (r : GoMap PeerID (List TopicID)) (hr : viableForUnchoking d params = .ok r)
    (P : PeerID) (T : TopicID) :
    T ∈ topicsOf r P ↔
      P ∈ (sortSlice (fun a b => decide (at2 d.firstIhaves a T 0 > at2 d.duplicates b T 0))
        (unchokeCandidates d params T)).take params.UnchokeChurn.toNat := by
  unfold viableForUnchoking at hr
  cases hs : sortCap (fun t a b => decide (at2 d.firstIhaves a t 0 > at2 d.duplicates b t 0))
      params.UnchokeChurn (unchokeCandidatesByTopic d params) with
  | error p => rw [hs] at hr; cases hr
  | ok capped =>
    rw [hs] at hr
    cases hr
    have := sortCap_eq_ok _ _ _ _ hs
    simp only [bind_pure_comp, map_pure] at *
    rw [mem_topicsOf_invert, this, getD_capFold, unchokeCandidatesByTopic_getD]

theorem viableForUnchoking_total (d : deliveryTracker) (params : GossipSubParams)
    (hk : 0 ≤ params.UnchokeChurn) : ∃ r, viableForUnchoking d params = .ok r := by
  unfold viableForUnchoking
  rw [sortCap_ok _ _ hk]
  exact ⟨_, rfl⟩

/-! ### The threshold tests -/

theorem F64.div_zero_left (b : F64) :
    F64.div (F64.fin false 0 0) b = F64.nan ∨ ∃ s, F64.div (F64.fin false 0 0) b = F64.fin s 0 0 := by
  cases b with
  | nan => left; rfl
  | inf s => right; exact ⟨_, rfl⟩
  | fin s m e =>
    by_cases hm : m = 0
    · left; simp [F64.div, hm]
    · right; exact ⟨xor false s, by simp [F64.div, hm]⟩

theorem F64.lt_nan_right (a : F64) : F64.lt a F64.nan = false := by
  cases a <;> rfl

theorem F64.le_nan_right (a : F64) : F64.le a F64.nan = false := by
  cases a <;> rfl

theorem F64.lt_zero_asymm (t : F64) (s : Bool) (h : F64.lt (F64.fin false 0 0) t = true) :
    F64.lt t (F64.fin s 0 0) = false := by
  cases t with
  | nan => simp [F64.lt] at h
  | inf s' =>
    simp only [F64.lt, Bool.not_eq_true'] at h
    simp [F64.lt, h]
  | fin s' m e =>
    simp only [F64.lt, F64.scaled, decide_eq_true_eq, decide_eq_false_iff_not, not_lt] at h ⊢
    simp only [Nat.cast_zero, mul_zero, zero_mul] at h ⊢
    rw [min_comm] at h
    exact le_of_lt h

theorem wrap64_zero : wrap64 0 = 0 := by decide

theorem chokeTest_zero_zero (t : F64) : chokeTest t 0 0 = false := by
  simp [chokeTest, wrap64_zero, F64.ofInt, F64.div, F64.gt, F64.lt_nan_right]

theorem unchokeTest_zero_zero (u : F64) : unchokeTest u 0 0 = false := by
  simp [unchokeTest, wrap64_zero, F64.ofInt, F64.div, F64.le_nan_right]

/-- A pair that passes the choke test does not have both counters at 0. -/
theorem chokeTest_not_both_zero (t : F64) (f v : Int) (h : chokeTest t f v = true) :
    ¬ (v = 0 ∧ f = 0) := by
  rintro ⟨rfl, rfl⟩
  rw [chokeTest_zero_zero] at h
  cases h

/-- A pair that passes the unchoke test does not have both counters at 0. -/
theorem unchokeTest_not_both_zero (u : F64) (fi di : Int) (h : unchokeTest u fi di = true) :
    ¬ (fi = 0 ∧ di = 0) := by
  rintro ⟨rfl, rfl⟩
  rw [unchokeTest_zero_zero] at h
  cases h

theorem chokeTest_total_pos (t : F64) (f v : Int) (hv : 0 ≤ v) (hf : 0 ≤ f)
    (h : chokeTest t f v = true) : 0 < v + f := by
  have := chokeTest_not_both_zero t f v h
  by_contra hn
  exact this ⟨by omega, by omega⟩

theorem unchokeTest_total_pos (u : F64) (fi di : Int) (h1 : 0 ≤ fi) (h2 : 0 ≤ di)
    (h : unchokeTest u fi di = true) : 0 < fi + di := by
  have := unchokeTest_not_both_zero u fi di h
  by_contra hn
  exact this ⟨by omega, by omega⟩

/-- A pair without duplicates has duplicate share 0 or NaN, which exceeds no
positive threshold. -/
theorem chokeTest_no_dup (t : F64) (f : Int) (ht : F64.lt (F64.ofNat 0) t = true) :
    chokeTest t f 0 = false := by
  have hz : F64.ofNat 0 = F64.fin false 0 0 := rfl
  have hz' : F64.ofInt 0 = F64.fin false 0 0 := rfl
  rw [hz] at ht
  unfold chokeTest
  simp only [hz', F64.gt]
  rcases F64.div_zero_left (F64.ofInt (wrap64 (f + 0))) with h | ⟨s, h⟩
  · rw [h]; exact F64.lt_nan_right t
  · rw [h]; exact F64.lt_zero_asymm t s ht

theorem wrap64_of_range (x : Int) (h1 : -(2 ^ 63) ≤ x) (h2 : x < 2 ^ 63) : wrap64 x = x := by
  unfold wrap64
  omega

theorem at2_of_not_hasEntry {V : Type} (m : GoMap PeerID (GoMap TopicID V)) (P : PeerID)
    (T : TopicID) (z : V) (h : hasEntry m P T = false) : at2 m P T z = z := by
  unfold hasEntry at h
  unfold at2
  generalize GoMap.getD m P [] = inner at *
  unfold GoMap.getD
  cases hg : GoMap.get? inner T with
  | none => rfl
  | some v => simp [hg] at h

theorem take_sortSlice_of_le {A : Type} (less : A → A → Bool) (l : List A) (k : Nat)
    (h : l.length ≤ k) (a : A) : a ∈ (sortSlice less l).take k ↔ a ∈ l := by
  rw [List.take_of_length_le (by rw [(sortSlice_perm less l).length_eq]; exact h)]
  exact (sortSlice_perm less l).mem_iff

/-! ### Peers returned for a topic -/

theorem mem_returnedPeers (r : GoMap PeerID (List TopicID)) (P : PeerID) (T : TopicID) :
    P ∈ returnedPeers r T ↔ T ∈ topicsOf r P := by
  unfold returnedPeers
  simp only [List.mem_filter, decide_eq_true_eq]
  refine ⟨fun h => h.2, fun h => ⟨?_, h⟩⟩
  obtain ⟨l, hl, _⟩ := (mem_getD_iff r P T).1 h
  exact List.mem_map.2 ⟨(P, l), (GoMap.mem_range r P l).2 hl, rfl⟩

theorem nodup_returnedPeers (r : GoMap PeerID (List TopicID)) (T : TopicID) :
    (returnedPeers r T).Nodup :=
  (GoMap.nodup_range_keys r).filter _

/-- Cutting a list sorted in descending order of `f`: what is kept is at least as
large as what is dropped. -/
theorem take_ge_rest {A : Type} (f : A → Int) (S : List A) (k : Nat)
    (hS : S.Pairwise (fun a b => f b ≤ f a)) (p q : A) (hp : p ∈ S.take k) (hq : q ∈ S)
    (hq' : q ∉ S.take k) : f q ≤ f p := by
  have hsplit : S.take k ++ S.drop k = S := List.take_append_drop k S
  rw [← hsplit] at hS hq
  have hqd : q ∈ S.drop k := by
    rcases List.mem_append.1 hq with h | h
    · exact absurd h hq'
    · exact h
  exact (List.pairwise_append.1 hS).2.2 p hp q hqd

/-- The peers returned for `T` are as many as the first `k` sorted candidates. -/
theorem length_returnedPeers (r : GoMap PeerID (List TopicID)) (T : TopicID)
    (S : List PeerID) (k : Nat) (hS : S.Nodup)
    (h : ∀ P, T ∈ topicsOf r P ↔ P ∈ S.take k) :
    (returnedPeers r T).length = min k S.length := by
  have hperm : (returnedPeers r T).Perm (S.take k) :=
    (List.perm_ext_iff_of_nodup (nodup_returnedPeers r T)
      (hS.sublist (List.take_sublist k S))).2
      (fun P => (mem_returnedPeers r P T).trans (h P))
  rw [hperm.length_eq, List.length_take]

/-! ### The state mutators -/

theorem GoMap.set_eq_self {K V : Type} [DecidableEq K] (m : GoMap K V) (k : K) (v : V)
    (h : GoMap.get? m k = some v) : GoMap.set m k v = m := by
  induction m with
  | nil => simp [GoMap.get?] at h
  | cons e rest ih =>
    obtain ⟨k0, v0⟩ := e
    by_cases h0 : k0 = k
    · subst h0
      simp only [GoMap.get?, if_true, Option.some.injEq] at h
      simp [GoMap.set, h]
    · simp only [GoMap.get?, h0, if_false] at h
      simp [GoMap.set, h0, ih h]

theorem getD_markTopics (peerMap : GoMap TopicID Bool) (topics : List TopicID) (t : TopicID) :
    GoMap.getD (markTopics peerMap topics) t false =
      (GoMap.getD peerMap t false || decide (t ∈ topics)) := by
  induction topics generalizing peerMap with
  | nil => simp [markTopics]
  | cons t0 rest ih =>
    simp only [markTopics, List.foldl_cons] at ih ⊢
    rw [ih]
    by_cases h : GoMap.getD peerMap t0 false = true
    · by_cases ht : t = t0
      · subst ht; simp [h]
      · simp [h, ht]
    · by_cases ht : t = t0
      · subst ht; simp [h, GoMap.getD_set]
      · simp [h, ht, GoMap.getD_set]

theorem markTopics_eq_self (peerMap : GoMap TopicID Bool) (topics : List TopicID)
    (h : ∀ t ∈ topics, GoMap.getD peerMap t false = true) :
    markTopics peerMap topics = peerMap := by
  induction topics with
  | nil => rfl
  | cons t0 rest ih =>
    have h0 := h t0 (List.mem_cons_self _ _)
    simp only [markTopics, List.foldl_cons, h0, Bool.not_true, Bool.false_eq_true, if_false]
    exact ih (fun t ht => h t (List.mem_cons_of_mem _ ht))

/-- The method `chokePeers` as a fold that touches the locally choked table only. -/
theorem chokePeers_eq (d : deliveryTracker) (m : GoMap PeerID (List TopicID)) :
    chokePeers d m = { d with chokedPeers := (GoMap.range m).foldl (fun cp e =>
      GoMap.set cp e.1 (markTopics ((GoMap.get? cp e.1).getD []) e.2)) d.chokedPeers } := by
  unfold chokePeers
  generalize GoMap.range m = es
  induction es generalizing d with
  | nil => rfl
  | cons e rest ih =>
    simp only [List.foldl_cons]
    rw [ih]
    rfl

theorem at2_chokeFold (es : List (PeerID × List TopicID))
    (cp : GoMap PeerID (GoMap TopicID Bool)) (P : PeerID) (T : TopicID) :
    at2 (es.foldl (fun cp e =>
        GoMap.set cp e.1 (markTopics ((GoMap.get? cp e.1).getD []) e.2)) cp) P T false =
      (at2 cp P T false || es.any (fun e => decide (e.1 = P) && decide (T ∈ e.2))) := by
  induction es generalizing cp with
  | nil => simp
  | cons e rest ih =>
    simp only [List.foldl_cons, List.any_cons]
    rw [ih]
    have hstep : at2 (GoMap.set cp e.1 (markTopics ((GoMap.get? cp e.1).getD []) e.2)) P T false
        = (at2 cp P T false || (decide (e.1 = P) && decide (T ∈ e.2))) := by
      unfold at2
      rw [GoMap.getD_set]
      by_cases hP : P = e.1
      · subst hP
        simp only [if_true, getD_markTopics, decide_True, Bool.true_and]
        rfl
      · have hP' : ¬ e.1 = P := fun h => hP h.symm
        simp [hP, hP']
    rw [hstep, Bool.or_assoc]

theorem any_range_iff (m : GoMap PeerID (List TopicID)) (P : PeerID) (T : TopicID) :
    (GoMap.range m).any (fun e => decide (e.1 = P) && decide (T ∈ e.2)) = true ↔
      T ∈ GoMap.getD m P [] := by
  rw [List.any_eq_true, mem_getD_iff]
  constructor
  · rintro ⟨⟨p, ts⟩, he, h⟩
    simp only [Bool.and_eq_true, decide_eq_true_eq] at h
    obtain ⟨rfl, hT⟩ := h
    exact ⟨ts, (GoMap.mem_range m p ts).1 he, hT⟩
  · rintro ⟨ts, hg, hT⟩
    exact ⟨(P, ts), (GoMap.mem_range m P ts).2 hg, by simp [hT]⟩

theorem isSome_chokeFold (es : List (PeerID × List TopicID))
    (cp : GoMap PeerID (GoMap TopicID Bool)) (P : PeerID)
    (h : (GoMap.get? cp P).isSome = true ∨ ∃ e ∈ es, e.1 = P) :
    (GoMap.get? (es.foldl (fun cp e =>
        GoMap.set cp e.1 (markTopics ((GoMap.get? cp e.1).getD []) e.2)) cp) P).isSome = true := by
  induction es generalizing cp with
  | nil =>
    rcases h with h | ⟨e, he, _⟩
    · exact h
    · simp at he
  | cons e rest ih =>
    simp only [List.foldl_cons]
    apply ih
    by_cases hP : P = e.1
    · left; subst hP; simp [GoMap.get?_set_self]
    · rcases h with h | ⟨e', he', hP'⟩
      · left; rw [GoMap.get?_set_ne _ _ _ _ hP]; exact h
      · rcases List.mem_cons.1 he' with rfl | he'
        · exact absurd hP'.symm hP
        · right; exact ⟨e', he', hP'⟩

theorem isChoked_chokePeers (d : deliveryTracker) (m : GoMap PeerID (List TopicID))
    (P : PeerID) (T : TopicID) :
    isChokedFromLocalPeer (chokePeers d m) P T = true ↔
      isChokedFromLocalPeer d P T = true ∨ T ∈ GoMap.getD m P [] := by
  unfold isChokedFromLocalPeer
  rw [chokePeers_eq]
  simp only [at2_chokeFold, Bool.or_eq_true, any_range_iff]

theorem at2_delete2 {V : Type} (m : GoMap PeerID (GoMap TopicID V)) (p P : PeerID)
    (t T : TopicID) (z : V) :
    at2 (delete2 m p t) P T z = if P = p ∧ T = t then z else at2 m P T z := by
  unfold delete2 at2
  cases hg : GoMap.get? m p with
  | none =>
    by_cases hP : P = p
    · subst hP
      by_cases hT : T = t
      · simp [hT, GoMap.getD, hg, GoMap.get?]
      · simp [hT]
    · simp [hP]
  | some inner =>
    simp only [GoMap.getD, GoMap.get?_set]
    by_cases hP : P = p
    · subst hP
      by_cases hT : T = t
      · simp [hT, GoMap.get?_delete]
      · simp [hT, GoMap.get?_delete, hg]
    · simp [hP]

theorem at2_deleteAll {V : Type} (pairs : List (PeerID × TopicID))
    (m : GoMap PeerID (GoMap TopicID V)) (P : PeerID) (T : TopicID) (z : V) :
    at2 (deleteAll m pairs) P T z = if (P, T) ∈ pairs then z else at2 m P T z := by
  induction pairs generalizing m with
  | nil => simp [deleteAll]
  | cons pt rest ih =>
    simp only [deleteAll, List.foldl_cons] at ih ⊢
    rw [ih, at2_delete2]
    obtain ⟨p, t⟩ := pt
    by_cases hin : (P, T) ∈ rest
    · simp [hin]
    · by_cases hpt : P = p ∧ T = t
      · simp [hpt]
      · have : ¬ ((P, T) = (p, t)) := by simpa using hpt
        simp [hin, hpt, this]

/-- The method `unChokePeers` deletes the pairs of the mapping from three tables and
leaves the other five as they are. -/
theorem unChokePeers_eq (d : deliveryTracker) (m : GoMap PeerID (List TopicID)) :
    unChokePeers d m = { d with
      chokedPeers := deleteAll d.chokedPeers (pairsOf m)
      firstIhaves := deleteAll d.firstIhaves (pairsOf m)
      duplicateIhaves := deleteAll d.duplicateIhaves (pairsOf m) } := by
  unfold unChokePeers pairsOf
  generalize GoMap.range m = es
  induction es generalizing d with
  | nil => rfl
  | cons e rest ih =>
    simp only [List.foldl_cons, List.flatMap_cons]
    rw [ih]
    have hin : ∀ (ts : List TopicID) (d0 : deliveryTracker),
        ts.foldl (fun d t =>
          { d with chokedPeers := delete2 d.chokedPeers e.1 t
                   firstIhaves := delete2 d.firstIhaves e.1 t
                   duplicateIhaves := delete2 d.duplicateIhaves e.1 t }) d0 =
        { d0 with
          chokedPeers := deleteAll d0.chokedPeers (ts.map (fun t => (e.1, t)))
          firstIhaves := deleteAll d0.firstIhaves (ts.map (fun t => (e.1, t)))
          duplicateIhaves := deleteAll d0.duplicateIhaves (ts.map (fun t => (e.1, t))) } := by
      intro ts
      induction ts with
      | nil => intro d0; rfl
      | cons t rest' ih' => intro d0; simp only [List.foldl_cons, List.map_cons]; rw [ih']; rfl
    rw [hin]
    simp only [deleteAll, List.foldl_append]

theorem mem_pairsOf (m : GoMap PeerID (List TopicID)) (P : PeerID) (T : TopicID) :
    (P, T) ∈ pairsOf m ↔ T ∈ GoMap.getD m P [] := by
  unfold pairsOf
  rw [mem_getD_iff]
  simp only [List.mem_flatMap, List.mem_map, Prod.mk.injEq]
  constructor
  · rintro ⟨⟨p, ts⟩, he, t, ht, rfl, rfl⟩
    exact ⟨ts, (GoMap.mem_range m p ts).1 he, ht⟩
  · rintro ⟨ts, hg, hT⟩
    exact ⟨(P, ts), (GoMap.mem_range m P ts).2 hg, T, hT, rfl, rfl⟩

theorem at2_set_set {V : Type} (m : GoMap PeerID (GoMap TopicID V)) (P Q : PeerID)
    (T U : TopicID) (v z : V) :
    at2 (GoMap.set m P (GoMap.set ((GoMap.get? m P).getD []) T v)) Q U z =
      if Q = P ∧ U = T then v else at2 m Q U z := by
  unfold at2
  rw [GoMap.getD_set]
  by_cases hQ : Q = P
  · subst hQ
    simp only [if_true, true_and, GoMap.getD_set]
    rfl
  · simp [hQ]

theorem tdiv_range (a b : Int) (hb : 0 < b) (h1 : -(2 ^ 63) ≤ a) (h2 : a < 2 ^ 63) :
    -(2 ^ 63) ≤ a.tdiv b ∧ a.tdiv b < 2 ^ 63 := by
  rcases le_or_lt 0 a with ha | ha
  · rw [Int.tdiv_eq_ediv ha (le_of_lt hb)]
    have := Int.ediv_nonneg ha (le_of_lt hb)
    have := Int.ediv_le_self b ha
    constructor <;> omega
  · have hna : 0 ≤ -a := by omega
    have e : a.tdiv b = -((-a).tdiv b) := by rw [Int.neg_tdiv, neg_neg]
    rw [e, Int.tdiv_eq_ediv hna (le_of_lt hb)]
    have := Int.ediv_nonneg hna (le_of_lt hb)
    have := Int.ediv_le_self b hna
    constructor <;> omega

theorem since_of_range (now t : Int) (h1 : -(2 ^ 63) ≤ now - t) (h2 : now - t < 2 ^ 63) :
    since now t = now - t := by
  unfold since
  have e1 : ¬ (now - t > 2 ^ 63 - 1) := by omega
  have e2 : ¬ (now - t < -(2 ^ 63)) := by omega
  rw [if_neg e1, if_neg e2]

/-! ### The locally choked table -/

theorem getD_true_isSome (pm : GoMap TopicID Bool) (t : TopicID)
    (h : GoMap.getD pm t false = true) : (GoMap.get? pm t).isSome = true := by
  unfold GoMap.getD at h
  cases hg : GoMap.get? pm t with
  | none => simp [hg] at h
  | some b => rfl

theorem isSome_markTopics (peerMap : GoMap TopicID Bool) (topics : List TopicID)
    (t : TopicID) :
    (GoMap.get? (markTopics peerMap topics) t).isSome =
      ((GoMap.get? peerMap t).isSome || decide (t ∈ topics)) := by
  induction topics generalizing peerMap with
  | nil => simp [markTopics]
  | cons t0 rest ih =>
    simp only [markTopics, List.foldl_cons] at ih ⊢
    rw [ih]
    by_cases h : GoMap.getD peerMap t0 false = true
    · by_cases ht : t = t0
      · subst ht; simp [h, getD_true_isSome _ _ h]
      · simp [h, ht]
    · by_cases ht : t = t0
      · subst ht; simp [h, GoMap.get?_set]
      · simp [h, ht, GoMap.get?_set]

theorem hasEntry_chokeFold (es : List (PeerID × List TopicID))
    (cp : GoMap PeerID (GoMap TopicID Bool)) (P : PeerID) (T : TopicID) :
    hasEntry (es.foldl (fun cp e =>
        GoMap.set cp e.1 (markTopics ((GoMap.get? cp e.1).getD []) e.2)) cp) P T =
      (hasEntry cp P T || es.any (fun e => decide (e.1 = P) && decide (T ∈ e.2))) := by
  induction es generalizing cp with
  | nil => simp
  | cons e rest ih =>
    simp only [List.foldl_cons, List.any_cons]
    rw [ih]
    have hstep : hasEntry (GoMap.set cp e.1 (markTopics ((GoMap.get? cp e.1).getD []) e.2)) P T
        = (hasEntry cp P T || (decide (e.1 = P) && decide (T ∈ e.2))) := by
      unfold hasEntry
      rw [GoMap.getD_set]
      by_cases hP : P = e.1
      · subst hP
        simp only [if_true, isSome_markTopics, decide_True, Bool.true_and]
        rfl
      · have hP' : ¬ e.1 = P := fun h => hP h.symm
        simp [hP, hP']
    rw [hstep, Bool.or_assoc]

theorem hasEntry_delete2 {V : Type} (m : GoMap PeerID (GoMap TopicID V)) (p P : PeerID)
    (t T : TopicID) :
    hasEntry (delete2 m p t) P T = if P = p ∧ T = t then false else hasEntry m P T := by
  unfold delete2 hasEntry
  cases hg : GoMap.get? m p with
  | none =>
    by_cases hP : P = p
    · subst hP
      by_cases hT : T = t
      · simp [hT, GoMap.getD, hg, GoMap.get?]
      · simp [hT]
    · simp [hP]
  | some inner =>
    simp only [GoMap.getD, GoMap.get?_set]
    by_cases hP : P = p
    · subst hP
      by_cases hT : T = t
      · simp [hT, GoMap.get?_delete]
      · simp [hT, GoMap.get?_delete, hg]
    · simp [hP]

theorem hasEntry_deleteAll {V : Type} (pairs : List (PeerID × TopicID))
    (m : GoMap PeerID (GoMap TopicID V)) (P : PeerID) (T : TopicID) :
    hasEntry (deleteAll m pairs) P T = if (P, T) ∈ pairs then false else hasEntry m P T := by
  induction pairs generalizing m with
  | nil => simp [deleteAll]
  | cons pt rest ih =>
    simp only [deleteAll, List.foldl_cons] at ih ⊢
    rw [ih, hasEntry_delete2]
    obtain ⟨p, t⟩ := pt
    by_cases hin : (P, T) ∈ rest
    · simp [hin]
    · by_cases hpt : P = p ∧ T = t
      · simp [hpt]
      · have : ¬ ((P, T) = (p, t)) := by simpa using hpt
        simp [hin, hpt, this]

/-- In a table built by `chokePeers` and `unChokePeers` every entry holds `true`. -/
theorem ChokedBuilt.all_true (cp : GoMap PeerID (GoMap TopicID Bool)) (h : ChokedBuilt cp)
    (P : PeerID) (T : TopicID) (he : hasEntry cp P T = true) : at2 cp P T false = true := by
  induction h generalizing P T with
  | new => simp [hasEntry, NewDeliveryTracker, GoMap.getD, GoMap.get?] at he
  | choke d m _ ih =>
    rw [chokePeers_eq] at he ⊢
    simp only [hasEntry_chokeFold, Bool.or_eq_true] at he
    simp only [at2_chokeFold, Bool.or_eq_true]
    rcases he with he | he
    · exact Or.inl (ih P T he)
    · exact Or.inr he
  | unchoke d m _ ih =>
    rw [unChokePeers_eq] at he ⊢
    simp only [hasEntry_deleteAll] at he
    simp only [at2_deleteAll]
    by_cases hin : (P, T) ∈ pairsOf m
    · simp [hin] at he
    · simp only [hin, if_false] at he ⊢
      exact ih P T he

theorem hasEntry_of_at2 (cp : GoMap PeerID (GoMap TopicID Bool)) (P : PeerID) (T : TopicID)
    (h : at2 cp P T false = true) : hasEntry cp P T = true :=
  getD_true_isSome _ _ h


/-! ## The bodies of the selectors and the queries leave the tracker as it was -/

/-- A loop whose body, run on `d`, yields `g b a` and leaves `d`, yields the fold of
`g` and leaves `d`. -/
theorem Step.loop_total {α β : Type} (f : β → α → Step β) (g : β → α → β)
    (d : deliveryTracker) (l : List α) (h : ∀ b a, f b a d = (.ok (g b a), d)) :
    ∀ b, Step.loop f b l d = (.ok (l.foldl g b), d) := by
  induction l with
  | nil => intro b; rfl
  | cons a rest ih =>
    intro b
    simp only [Step.loop, Step.andThen, h b a, List.foldl_cons]
    exact ih (g b a)

/-- A loop whose body, run on `d`, yields `g b a` or its panic and leaves `d`. -/
theorem Step.loop_except {α β : Type} (f : β → α → Step β) (g : β → α → Except Panic β)
    (d : deliveryTracker) (l : List α) (h : ∀ b a, f b a d = (g b a, d)) :
    ∀ b, Step.loop f b l d = (l.foldlM g b, d) := by
  induction l with
  | nil => intro b; rfl
  | cons a rest ih =>
    intro b
    simp only [Step.loop, Step.andThen, h b a, List.foldlM_cons]
    cases hg : g b a with
    | error p => rfl
    | ok b' => exact ih b'

theorem insertLeftStep_eq {A : Type} (less : A → A → Step Bool) (lf : A → A → Bool)
    (d : deliveryTracker) (h : ∀ a b, less a b d = (.ok (lf a b), d)) (x : A) (l : List A) :
    insertLeftStep less x l d = (.ok (insertLeft lf x l), d) := by
  induction l with
  | nil => rfl
  | cons y rest ih =>
    simp only [insertLeftStep, Step.andThen, h x y, insertLeft]
    cases lf x y with
    | true => simp only [if_true, Step.andThen, ih, Step.ret]
    | false => rfl

theorem sortSliceStep_eq {A : Type} (less : A → A → Step Bool) (lf : A → A → Bool)
    (d : deliveryTracker) (h : ∀ a b, less a b d = (.ok (lf a b), d)) (data : List A) :
    sortSliceStep less data d = (.ok (sortSlice lf data), d) := by
  unfold sortSliceStep sortSlice
  simp only [Step.andThen]
  rw [Step.loop_total (fun rev x => insertLeftStep less x rev) (fun rev x => insertLeft lf x rev)
    d data (fun b a => insertLeftStep_eq less lf d h a b) []]
  rfl

theorem sortCapStep_eq (less : TopicID → PeerID → PeerID → Step Bool)
    (lf : TopicID → PeerID → PeerID → Bool) (d : deliveryTracker)
    (h : ∀ t a b, less t a b d = (.ok (lf t a b), d)) (churn : Int)
    (byTopic : GoMap TopicID (List PeerID)) :
    sortCapStep less churn byTopic d = (sortCap lf churn byTopic, d) := by
  unfold sortCapStep sortCap
  apply Step.loop_except
  intro acc e
  simp only [Step.andThen, sortSliceStep_eq (less e.1) (lf e.1) d (h e.1) e.2, capStep, capPeers,
    slicePrefix]
  by_cases h1 : ((sortSlice (lf e.1) e.2).length : Int) > churn
  · by_cases h2 : churn < 0
    · simp only [h1, h2, if_true]; rfl
    · simp only [h1, h2, if_true, if_false]; rfl
  · simp only [h1, if_false]; rfl

/-- The first loop of `viableForChoking`, run on `d`. -/
theorem chokeLoopStep_eq (d : deliveryTracker) (params : GossipSubParams) :
    Step.loop (fun acc (e : PeerID × GoMap TopicID Int) =>
      Step.loop (fun acc (tv : TopicID × Int) =>
        Step.andThen (Step.read (fun d => at2 d.firstDeliveries e.1 tv.1 0)) (fun f =>
          Step.ret (if chokeTest params.ChokeDuplicatesThreshold f tv.2
            then appendAt acc tv.1 e.1 else acc)))
        acc (GoMap.range e.2)) [] (GoMap.range d.duplicates) d =
      (.ok (chokeCandidatesByTopic d params), d) := by
  unfold chokeCandidatesByTopic
  refine Step.loop_total _ _ d _ ?_ []
  intro b a
  refine Step.loop_total _ _ d _ ?_ b
  intro b' a'
  rfl

/-- The first loop of `viableForUnchoking`, run on `d`. -/
theorem unchokeLoopStep_eq (d : deliveryTracker) (params : GossipSubParams) :
    Step.loop (fun acc (e : PeerID × GoMap TopicID Bool) =>
      Step.loop (fun acc (tv : TopicID × Bool) =>
        Step.andThen (Step.read (fun d => at2 d.firstIhaves e.1 tv.1 0)) (fun fi =>
        Step.andThen (Step.read (fun d => at2 d.duplicateIhaves e.1 tv.1 0)) (fun di =>
          Step.ret (if unchokeTest params.UnchokeThreshold fi di
            then appendAt acc tv.1 e.1 else acc))))
        acc (GoMap.range e.2)) [] (GoMap.range d.chokedPeers) d =
      (.ok (unchokeCandidatesByTopic d params), d) := by
  unfold unchokeCandidatesByTopic
  refine Step.loop_total _ _ d _ ?_ []
  intro b a
  refine Step.loop_total _ _ d _ ?_ b
  intro b' a'
  rfl

/-- The body of `viableForChoking`, run on `d`, yields what `viableForChoking` yields
and leaves `d` as it was. -/
theorem viableForChokingStep_eq (d : deliveryTracker) (params : GossipSubParams) :
    viableForChokingStep params d = (viableForChoking d params, d) := by
  unfold viableForChokingStep viableForChoking
  simp only [Step.andThen, Step.read]
  rw [chokeLoopStep_eq]
  simp only []
  rw [sortCapStep_eq
    (fun t a b => Step.read (fun d => decide (at2 d.duplicates a t 0 > at2 d.duplicates b t 0)))
    (fun t a b => decide (at2 d.duplicates a t 0 > at2 d.duplicates b t 0)) d
    (fun _ _ _ => rfl)]
  cases sortCap (fun t a b => decide (at2 d.duplicates a t 0 > at2 d.duplicates b t 0))
    params.ChokeChurn (chokeCandidatesByTopic d params) with
  | error p => rfl
  | ok capped => rfl

/-- The body of `viableForUnchoking`, run on `d`, yields what `viableForUnchoking`
yields and leaves `d` as it was. -/
theorem viableForUnchokingStep_eq (d : deliveryTracker) (params : GossipSubParams) :
    viableForUnchokingStep params d = (viableForUnchoking d params, d) := by
  unfold viableForUnchokingStep viableForUnchoking
  simp only [Step.andThen, Step.read]
  rw [unchokeLoopStep_eq]
  simp only []
  rw [sortCapStep_eq
    (fun t a b => Step.read (fun d => decide (at2 d.firstIhaves a t 0 > at2 d.duplicates b t 0)))
    (fun t a b => decide (at2 d.firstIhaves a t 0 > at2 d.duplicates b t 0)) d
    (fun _ _ _ => rfl)]
  cases sortCap (fun t a b => decide (at2 d.firstIhaves a t 0 > at2 d.duplicates b t 0))
    params.UnchokeChurn (unchokeCandidatesByTopic d params) with
  | error p => rfl
  | ok capped => rfl

/-! ## The threshold tests on counts in the `int` range -/

theorem chokeTest_of_range (t : F64) (f v : Int) (hv : 0 ≤ v) (hf : 0 ≤ f)
    (hs : v + f < 2 ^ 63) :
    chokeTest t f v = F64.gt (F64.div (F64.ofInt v) (F64.ofInt (v + f))) t := by
  unfold chokeTest
  rw [add_comm f v, wrap64_of_range (v + f) (by omega) hs]

theorem unchokeTest_of_range (u : F64) (fi di : Int) (h1 : 0 ≤ fi) (h2 : 0 ≤ di)
    (hs : fi + di < 2 ^ 63) :
    unchokeTest u fi di = F64.le u (F64.div (F64.ofInt fi) (F64.ofInt (fi + di))) := by
  unfold unchokeTest
  rw [wrap64_of_range (fi + di) (by omega) hs]

/-- A pair that exceeds a positive choke threshold has a duplicate count other than 0. -/
theorem exceeds_dup_ne_zero (d : deliveryTracker) (t : F64) (P : PeerID) (T : TopicID)
    (ht : F64.lt (F64.ofNat 0) t = true) (h : exceedsChokeThreshold d t P T = true) :
    DuplicateCount d P T ≠ 0 := by
  intro h0
  unfold exceedsChokeThreshold at h
  rw [h0] at h
  have hz : F64.ofNat 0 = F64.fin false 0 0 := rfl
  have hz' : F64.ofInt 0 = F64.fin false 0 0 := rfl
  rw [hz] at ht
  simp only [Bool.and_eq_true, hz', F64.gt] at h
  rcases F64.div_zero_left (F64.ofInt (0 + FirstDeliveryCount d P T)) with h1 | ⟨s, h1⟩
  · rw [h1, F64.lt_nan_right] at h
    exact Bool.noConfusion h.2
  · rw [h1, F64.lt_zero_asymm t s ht] at h
    exact Bool.noConfusion h.2

/-- On counts in the `int` range and a positive threshold, the pairs the first loop
of `viableForChoking` picks are the pairs that exceed the threshold. -/
theorem candidate_iff_exceeds (d : deliveryTracker) (t : F64) (P : PeerID) (T : TopicID)
    (ht : F64.lt (F64.ofNat 0) t = true) (hD : 0 ≤ DuplicateCount d P T)
    (hF : 0 ≤ FirstDeliveryCount d P T)
    (hs : DuplicateCount d P T + FirstDeliveryCount d P T < 2 ^ 63) :
    (hasEntry d.duplicates P T = true ∧
        chokeTest t (FirstDeliveryCount d P T) (DuplicateCount d P T) = true) ↔
      exceedsChokeThreshold d t P T = true := by
  have hct := chokeTest_of_range t _ _ hD hF hs
  constructor
  · rintro ⟨_, hc⟩
    have hpos := chokeTest_total_pos _ _ _ hD hF hc
    unfold exceedsChokeThreshold
    rw [hct] at hc
    simp [hpos, hc]
  · intro he
    have hne := exceeds_dup_ne_zero d t P T ht he
    unfold exceedsChokeThreshold at he
    simp only [Bool.and_eq_true, decide_eq_true_eq] at he
    refine ⟨?_, by rw [hct]; exact he.2⟩
    by_contra hn
    exact hne (at2_of_not_hasEntry d.duplicates P T 0 (by simpa using hn))

theorem chokeCountsInRange_mem (d : deliveryTracker) (T : TopicID)
    (h : chokeCountsInRange d T = true) (P : PeerID)
    (hP : P ∈ (GoMap.range d.duplicates).map Prod.fst) :
    0 ≤ DuplicateCount d P T ∧ 0 ≤ FirstDeliveryCount d P T ∧
      DuplicateCount d P T + FirstDeliveryCount d P T < 2 ^ 63 := by
  unfold chokeCountsInRange at h
  rw [List.all_eq_true] at h
  simpa using h P hP

/-- On counts in the `int` range and a positive threshold, the candidates of the
code are the peers whose pair with `T` exceeds the threshold. -/
theorem chokeCandidates_eq_threshold (d : deliveryTracker) (params : GossipSubParams)
    (T : TopicID) (ht : F64.lt (F64.ofNat 0) params.ChokeDuplicatesThreshold = true)
    (hr : chokeCountsInRange d T = true) :
    chokeCandidates d params T = thresholdCandidates d params.ChokeDuplicatesThreshold T := by
  unfold chokeCandidates thresholdCandidates
  apply List.filter_congr
  intro P hP
  obtain ⟨hD, hF, hs⟩ := chokeCountsInRange_mem d T hr P hP
  have := candidate_iff_exceeds d params.ChokeDuplicatesThreshold P T ht hD hF hs
  rw [Bool.eq_iff_iff, Bool.and_eq_true]
  exact this

/-- A peer without an entry in the duplicates table has duplicate count 0. -/
theorem DuplicateCount_of_not_key (d : deliveryTracker) (P : PeerID) (T : TopicID)
    (h : P ∉ (GoMap.range d.duplicates).map Prod.fst) : DuplicateCount d P T = 0 := by
  apply at2_of_not_hasEntry
  by_contra hn
  exact h (hasEntry_mem_keys _ _ _ (by simpa using hn))

/-- With a positive threshold, the threshold candidates of `T` are all the peers
whose pair with `T` exceeds the threshold. -/
theorem mem_thresholdCandidates (d : deliveryTracker) (t : F64) (P : PeerID) (T : TopicID)
    (ht : F64.lt (F64.ofNat 0) t = true) :
    P ∈ thresholdCandidates d t T ↔ exceedsChokeThreshold d t P T = true := by
  unfold thresholdCandidates
  rw [List.mem_filter]
  constructor
  · exact fun h => h.2
  · intro h
    refine ⟨?_, h⟩
    by_contra hn
    exact exceeds_dup_ne_zero d t P T ht h (DuplicateCount_of_not_key d P T hn)

/-! ## The count and the average after `addDuplicate` -/

theorem at2_countDuplicate (d : deliveryTracker) (msg : Message) (Q : PeerID) (U : TopicID) :
    at2 (countDuplicate d msg).duplicates Q U 0 =
      if Q = msg.ReceivedFrom ∧ U = msg.Topic
      then wrap64 (DuplicateCount d msg.ReceivedFrom msg.Topic + 1) else DuplicateCount d Q U := by
  simp only [countDuplicate, DuplicateCount]
  rw [at2_set_set]
  rfl

theorem addDuplicate_error (d : deliveryTracker) (now : Time) (msg : Message) (id : String)
    (h : wrap64 (DuplicateCount d msg.ReceivedFrom msg.Topic + 1) = 0) :
    addDuplicate d now msg id = .error Panic.divideByZero := by
  have hc := at2_countDuplicate d msg msg.ReceivedFrom msg.Topic
  simp only [and_self, if_true] at hc
  unfold addDuplicate
  simp only [hc, h, if_true]

theorem addDuplicate_ok (d : deliveryTracker) (now : Time) (msg : Message) (id : String)
    (h : wrap64 (DuplicateCount d msg.ReceivedFrom msg.Topic + 1) ≠ 0) :
    addDuplicate d now msg id = .ok { countDuplicate d msg with
      duplicateLatency := GoMap.set d.duplicateLatency msg.ReceivedFrom
        (GoMap.set ((GoMap.get? d.duplicateLatency msg.ReceivedFrom).getD []) msg.Topic
          (Duration.div
            (Duration.add
              (Duration.mul (DuplicateLatencyAvg d msg.ReceivedFrom msg.Topic)
                (DuplicateCount d msg.ReceivedFrom msg.Topic))
              (latencyOf d (now, id)))
            (wrap64 (DuplicateCount d msg.ReceivedFrom msg.Topic + 1)))) } := by
  have hc := at2_countDuplicate d msg msg.ReceivedFrom msg.Topic
  simp only [and_self, if_true] at hc
  unfold addDuplicate
  simp only [hc, h, if_false]
  rfl

theorem addDuplicate_returns (d : deliveryTracker) (now : Time) (msg : Message) (id : String)
    (h : wrap64 (DuplicateCount d msg.ReceivedFrom msg.Topic + 1) ≠ 0) :
    ∃ d', addDuplicate d now msg id = .ok d' :=
  ⟨_, addDuplicate_ok d now msg id h⟩

/-- What a call of `addDuplicate` that returns leaves in the tracker. -/
theorem addDuplicate_result (d d' : deliveryTracker) (now : Time) (msg : Message)
    (id : String) (h : addDuplicate d now msg id = .ok d') (Q : PeerID) (U : TopicID) :
    DuplicateCount d' Q U =
        (if Q = msg.ReceivedFrom ∧ U = msg.Topic
          then wrap64 (DuplicateCount d msg.ReceivedFrom msg.Topic + 1)
          else DuplicateCount d Q U) ∧
      DuplicateLatencyAvg d' Q U =
        (if Q = msg.ReceivedFrom ∧ U = msg.Topic
          then Duration.div
            (Duration.add
              (Duration.mul (DuplicateLatencyAvg d msg.ReceivedFrom msg.Topic)
                (DuplicateCount d msg.ReceivedFrom msg.Topic))
              (latencyOf d (now, id)))
            (wrap64 (DuplicateCount d msg.ReceivedFrom msg.Topic + 1))
          else DuplicateLatencyAvg d Q U) ∧
      d'.firstDeliveries = d.firstDeliveries ∧ d'.firstDeliveryTime = d.firstDeliveryTime ∧
      d'.chokedPeers = d.chokedPeers ∧ d'.inboundChokedPeers = d.inboundChokedPeers ∧
      d'.firstIhaves = d.firstIhaves ∧ d'.duplicateIhaves = d.duplicateIhaves := by
  by_cases hz : wrap64 (DuplicateCount d msg.ReceivedFrom msg.Topic + 1) = 0
  · rw [addDuplicate_error d now msg id hz] at h
    cases h
  · rw [addDuplicate_ok d now msg id hz] at h
    cases h
    refine ⟨at2_countDuplicate d msg Q U, ?_, rfl, rfl, rfl, rfl, rfl, rfl⟩
    simp only [DuplicateLatencyAvg]
    rw [at2_set_set]

theorem FirstDeliveryCount_addFirstDelivery (d d' : deliveryTracker) (now : Time)
    (msg : Message) (id : String) (h : addFirstDelivery d now msg id = .ok d') (Q : PeerID)
    (U : TopicID) :
    FirstDeliveryCount d' Q U =
      (if Q = msg.ReceivedFrom ∧ U = msg.Topic
        then wrap64 (FirstDeliveryCount d msg.ReceivedFrom msg.Topic + 1)
        else FirstDeliveryCount d Q U) ∧
      d'.duplicates = d.duplicates ∧ d'.firstIhaves = d.firstIhaves ∧
      d'.duplicateIhaves = d.duplicateIhaves := by
  unfold addFirstDelivery at h
  cases hg : GoMap.get? d.firstDeliveries msg.ReceivedFrom with
  | none => simp [hg] at h
  | some inner =>
    simp only [hg, Except.ok.injEq] at h
    subst h
    refine ⟨?_, rfl, rfl, rfl⟩
    have hin : inner = (GoMap.get? d.firstDeliveries msg.ReceivedFrom).getD [] := by simp [hg]
    simp only [FirstDeliveryCount]
    rw [hin, at2_set_set]
    rfl

/-- An `int` below the largest one does not go down when it is incremented. -/
theorem le_wrap64_succ (c : Int) (h : c < 2 ^ 63 - 1) : c ≤ wrap64 (c + 1) := by
  unfold wrap64
  omega

/-! ## The peers `viableForChoking` returns for a topic -/

/-- On counts in the `int` range, with a positive threshold and a churn `k ≥ 0`,
`viableForChoking` returns `T` for `min k n` of the `n` peers exceeding the
threshold, and no peer left out has more duplicates on `T` than a peer returned. -/
theorem viableForChoking_topk (d : deliveryTracker) (params : GossipSubParams)
    (T : TopicID) (hk : 0 ≤ params.ChokeChurn)
    (ht : F64.lt (F64.ofNat 0) params.ChokeDuplicatesThreshold = true)
    (hr : chokeCountsInRange d T = true) :
    ∃ r, viableForChoking d params = .ok r ∧
      ((thresholdCandidates d params.ChokeDuplicatesThreshold T).Nodup ∧
        ∀ P, P ∈ thresholdCandidates d params.ChokeDuplicatesThreshold T ↔
          exceedsChokeThreshold d params.ChokeDuplicatesThreshold P T = true) ∧
      (returnedPeers r T).length =
        min params.ChokeChurn.toNat
          (thresholdCandidates d params.ChokeDuplicatesThreshold T).length ∧
      (∀ p ∈ returnedPeers r T,
        exceedsChokeThreshold d params.ChokeDuplicatesThreshold p T = true) ∧
      (∀ p ∈ returnedPeers r T, ∀ q,
        exceedsChokeThreshold d params.ChokeDuplicatesThreshold q T = true →
        q ∉ returnedPeers r T → DuplicateCount d q T ≤ DuplicateCount d p T) := by
  obtain ⟨r, hres⟩ := viableForChoking_total d params hk
  have heq := chokeCandidates_eq_threshold d params T ht hr
  have hmem := fun P => mem_thresholdCandidates d params.ChokeDuplicatesThreshold P T ht
  have hperm := sortSlice_perm
    (fun a b => decide (at2 d.duplicates a T 0 > at2 d.duplicates b T 0))
    (chokeCandidates d params T)
  have hiff := viableForChoking_ok_iff d params r hres
  refine ⟨r, hres, ⟨?_, hmem⟩, ?_, ?_, ?_⟩
  · rw [← heq]
    exact nodup_chokeCandidates d params T
  · rw [length_returnedPeers r T _ params.ChokeChurn.toNat
      (hperm.nodup_iff.2 (nodup_chokeCandidates d params T)) (fun P => hiff P T),
      hperm.length_eq, heq]
  · intro p hp
    have := (hiff p T).1 ((mem_returnedPeers r p T).1 hp)
    have h2 := hperm.mem_iff.1 (List.mem_of_mem_take this)
    rw [heq] at h2
    exact (hmem p).1 h2
  · intro p hp q hq hq'
    have hp' := (hiff p T).1 ((mem_returnedPeers r p T).1 hp)
    have hq'' : q ∉ (sortSlice
        (fun a b => decide (at2 d.duplicates a T 0 > at2 d.duplicates b T 0))
        (chokeCandidates d params T)).take params.ChokeChurn.toNat :=
      fun h => hq' ((mem_returnedPeers r q T).2 ((hiff q T).2 h))
    have hqc : q ∈ chokeCandidates d params T := by
      rw [heq]
      exact (hmem q).2 hq
    exact take_ge_rest (fun a => at2 d.duplicates a T 0) _ _
      (sortSlice_sorted (fun a => at2 d.duplicates a T 0) _) p q hp' (hperm.mem_iff.2 hqc) hq''

/-! ## The claims -/

/-- C1 (as amended): for a choke threshold `t` with `0 < t < 1`, a `ChokeChurn` of at
least the number of peers, and a pair `(P, T)` whose `DuplicateCount` and
`FirstDeliveryCount` are non-negative with a sum of at most the largest `int`,
`viableForChoking` returns, and topic `T` is in its list for peer `P` if and only if
`DuplicateCount + FirstDeliveryCount > 0` and the float64 quotient of `DuplicateCount`
by the total, rounded to nearest, is greater than `t`. -/
theorem viableForChoking_mem_iff (d : deliveryTracker) (params : GossipSubParams)
    (P : PeerID) (T : TopicID)
    (ht : F64.lt (F64.ofNat 0) params.ChokeDuplicatesThreshold = true ∧
      F64.lt params.ChokeDuplicatesThreshold (F64.ofNat 1) = true)
    (hk : ((GoMap.range d.duplicates).length : Int) ≤ params.ChokeChurn)
    (hD : 0 ≤ DuplicateCount d P T) (hF : 0 ≤ FirstDeliveryCount d P T)
    (hs : DuplicateCount d P T + FirstDeliveryCount d P T < 2 ^ 63) :
    ∃ r, viableForChoking d params = .ok r ∧
      (T ∈ topicsOf r P ↔
        0 < DuplicateCount d P T + FirstDeliveryCount d P T ∧
          F64.gt (F64.div (F64.ofInt (DuplicateCount d P T))
            (F64.ofInt (DuplicateCount d P T + FirstDeliveryCount d P T)))
            params.ChokeDuplicatesThreshold = true) := by
  have hk0 : 0 ≤ params.ChokeChurn := le_trans (Int.ofNat_nonneg _) hk
  obtain ⟨r, hr⟩ := viableForChoking_total d params hk0
  refine ⟨r, hr, ?_⟩
  have hlen : (chokeCandidates d params T).length ≤ params.ChokeChurn.toNat := by
    have h1 : (chokeCandidates d params T).length ≤ (GoMap.range d.duplicates).length := by
      unfold chokeCandidates
      exact le_trans (List.length_filter_le _ _) (by simp)
    omega
  rw [viableForChoking_ok_iff d params r hr, take_sortSlice_of_le _ _ _ hlen,
    mem_chokeCandidates, candidate_iff_exceeds d _ P T ht.1 hD hF hs]
  unfold exceedsChokeThreshold
  simp only [Bool.and_eq_true, decide_eq_true_eq]

/-- C1, witness: with 7 duplicates, 3 first deliveries and the threshold written
`0.69`, the pair is selected. -/
theorem viableForChoking_mem_iff_witness :
    (F64.lt (F64.ofNat 0) (F64.ofFrac 69 100) = true ∧
      F64.lt (F64.ofFrac 69 100) (F64.ofNat 1) = true) ∧
    ((GoMap.range trackerSevenThree.duplicates).length : Int) ≤ 1 ∧
    0 ≤ DuplicateCount trackerSevenThree "P" "T" ∧
    0 ≤ FirstDeliveryCount trackerSevenThree "P" "T" ∧
    DuplicateCount trackerSevenThree "P" "T" + FirstDeliveryCount trackerSevenThree "P" "T" <
      2 ^ 63 ∧
    viableForChoking trackerSevenThree ⟨F64.ofFrac 69 100, 1, F64.ofFrac 1 2, 1⟩ =
      .ok [("P", ["T"])] ∧
    ∃ r, viableForChoking trackerSevenThree
        ⟨F64.ofFrac 69 100, 1, F64.ofFrac 1 2, 1⟩ = .ok r ∧
      ("T" ∈ topicsOf r "P" ↔
        0 < DuplicateCount trackerSevenThree "P" "T" +
            FirstDeliveryCount trackerSevenThree "P" "T" ∧
          F64.gt (F64.div (F64.ofInt (DuplicateCount trackerSevenThree "P" "T"))
            (F64.ofInt (DuplicateCount trackerSevenThree "P" "T" +
              FirstDeliveryCount trackerSevenThree "P" "T")))
            (F64.ofFrac 69 100) = true) :=
  ⟨by decide, by decide, by decide, by decide, by decide, by decide,
    viableForChoking_mem_iff trackerSevenThree ⟨F64.ofFrac 69 100, 1, F64.ofFrac 1 2, 1⟩
      "P" "T" (by decide) (by decide) (by decide) (by decide) (by decide)⟩

/-- C1, counterexample, at three inputs. With 7 duplicates, 3 first deliveries and the
threshold written `0.7`, which as a float64 is a little below 7/10, the exact ratio is
greater than the threshold and yet the pair is not selected: the float64 quotient 7/10
rounds to the threshold itself. With threshold 1/2 (a float64) and `2^53 + 1`
duplicates out of `2^54` messages, the exact ratio is above 1/2 and the pair is not
selected: `float64(2^53 + 1)` rounds to `2^53`. With `2^62` duplicates, `2^62` first
deliveries and the threshold written `0.4`, the ratio is 1/2 and the pair is not
selected: the `int` total wraps to `-2^63` and the quotient is negative. -/
theorem viableForChoking_exact_ratio_counterexample :
    ((0 < F64.toRat (F64.ofFrac 7 10) ∧ F64.toRat (F64.ofFrac 7 10) < 1) ∧
      ((GoMap.range trackerSevenThree.duplicates).length : Int) ≤ 1 ∧
      viableForChoking trackerSevenThree ⟨F64.ofFrac 7 10, 1, F64.ofFrac 1 2, 1⟩ = .ok [] ∧
      ¬ ("T" ∈ topicsOf ([] : GoMap PeerID (List TopicID)) "P" ↔
          0 < DuplicateCount trackerSevenThree "P" "T" +
              FirstDeliveryCount trackerSevenThree "P" "T" ∧
            ((DuplicateCount trackerSevenThree "P" "T" : ℚ) /
              ((DuplicateCount trackerSevenThree "P" "T" : ℚ) +
                (FirstDeliveryCount trackerSevenThree "P" "T" : ℚ)) >
              F64.toRat (F64.ofFrac 7 10)))) ∧
    ((F64.toRat (F64.ofFrac 1 2) = 1 / 2) ∧
      ((GoMap.range trackerHalfAbove.duplicates).length : Int) ≤ 1 ∧
      viableForChoking trackerHalfAbove ⟨F64.ofFrac 1 2, 1, F64.ofFrac 1 2, 1⟩ = .ok [] ∧
      ¬ ("T" ∈ topicsOf ([] : GoMap PeerID (List TopicID)) "P" ↔
          0 < DuplicateCount trackerHalfAbove "P" "T" +
              FirstDeliveryCount trackerHalfAbove "P" "T" ∧
            ((DuplicateCount trackerHalfAbove "P" "T" : ℚ) /
              ((DuplicateCount trackerHalfAbove "P" "T" : ℚ) +
                (FirstDeliveryCount trackerHalfAbove "P" "T" : ℚ)) >
              F64.toRat (F64.ofFrac 1 2)))) ∧
    ((0 < F64.toRat (F64.ofFrac 2 5) ∧ F64.toRat (F64.ofFrac 2 5) < 1) ∧
      ((GoMap.range trackerWrapSum.duplicates).length : Int) ≤ 1 ∧
      viableForChoking trackerWrapSum ⟨F64.ofFrac 2 5, 1, F64.ofFrac 1 2, 1⟩ = .ok [] ∧
      ¬ ("T" ∈ topicsOf ([] : GoMap PeerID (List TopicID)) "P" ↔
          0 < DuplicateCount trackerWrapSum "P" "T" +
              FirstDeliveryCount trackerWrapSum "P" "T" ∧
            ((DuplicateCount trackerWrapSum "P" "T" : ℚ) /
              ((DuplicateCount trackerWrapSum "P" "T" : ℚ) +
                (FirstDeliveryCount trackerWrapSum "P" "T" : ℚ)) >
              F64.toRat (F64.ofFrac 2 5)))) := by
  have ht : F64.ofFrac 7 10 = F64.fin false 6305039478318694 (-53) := by decide
  have ht2 : F64.ofFrac 1 2 = F64.fin false 4503599627370496 (-53) := by decide
  have ht3 : F64.ofFrac 2 5 = F64.fin false 7205759403792794 (-54) := by decide
  have hD : DuplicateCount trackerSevenThree "P" "T" = 7 := by decide
  have hF : FirstDeliveryCount trackerSevenThree "P" "T" = 3 := by decide
  have hD2 : DuplicateCount trackerHalfAbove "P" "T" = 9007199254740993 := by decide
  have hF2 : FirstDeliveryCount trackerHalfAbove "P" "T" = 9007199254740991 := by decide
  have hD3 : DuplicateCount trackerWrapSum "P" "T" = 4611686018427387904 := by decide
  have hF3 : FirstDeliveryCount trackerWrapSum "P" "T" = 4611686018427387904 := by decide
  have hnot : ¬ ("T" ∈ topicsOf ([] : GoMap PeerID (List TopicID)) "P") := by decide
  refine ⟨⟨?_, by decide, by decide, ?_⟩, ⟨?_, by decide, by decide, ?_⟩,
    ⟨?_, by decide, by decide, ?_⟩⟩
  · rw [ht]
    constructor <;> norm_num [F64.toRat]
  · rw [ht, hD, hF]
    intro h
    apply hnot
    apply h.2
    constructor
    · decide
    · norm_num [F64.toRat]
  · rw [ht2]
    norm_num [F64.toRat]
  · rw [ht2, hD2, hF2]
    intro h
    apply hnot
    apply h.2
    constructor
    · decide
    · norm_num [F64.toRat]
  · rw [ht3]
    constructor <;> norm_num [F64.toRat]
  · rw [ht3, hD3, hF3]
    intro h
    apply hnot
    apply h.2
    constructor
    · decide
    · norm_num [F64.toRat]

/-- C2 (as amended): when, for every peer of the duplicates table, the duplicates and
first deliveries on `T` are non-negative with a sum of at most the largest `int`, the
choke threshold `t` is positive and `ChokeChurn` is `k ≥ 0`: the peers whose pair with
`T` exceeds the threshold (positive total, float64 quotient of the duplicates by the
total greater than `t`) form a list without repetitions of some length `n`, and
`viableForChoking` returns `T` for exactly `min k n` peers, each of them one of those
`n`, and every returned peer has a `DuplicateCount` on `T` at least that of every
peer exceeding the threshold that is not returned. -/
theorem viableForChoking_churn (d : deliveryTracker) (params : GossipSubParams)
    (T : TopicID) (hk : 0 ≤ params.ChokeChurn)
    (ht : F64.lt (F64.ofNat 0) params.ChokeDuplicatesThreshold = true)
    (hr : chokeCountsInRange d T = true) :
    ∃ r, viableForChoking d params = .ok r ∧
      ((thresholdCandidates d params.ChokeDuplicatesThreshold T).Nodup ∧
        ∀ P, P ∈ thresholdCandidates d params.ChokeDuplicatesThreshold T ↔
          exceedsChokeThreshold d params.ChokeDuplicatesThreshold P T = true) ∧
      (returnedPeers r T).length =
        min params.ChokeChurn.toNat
          (thresholdCandidates d params.ChokeDuplicatesThreshold T).length ∧
      (∀ p ∈ returnedPeers r T,
        exceedsChokeThreshold d params.ChokeDuplicatesThreshold p T = true) ∧
      (∀ p ∈ returnedPeers r T, ∀ q,
        exceedsChokeThreshold d params.ChokeDuplicatesThreshold q T = true →
        q ∉ returnedPeers r T → DuplicateCount d q T ≤ DuplicateCount d p T) :=
  viableForChoking_topk d params T hk ht hr

/-- C2, witness: five peers exceeding the threshold, with distinct counts, and
`ChokeChurn = 2`; the two peers with 12 and 9 duplicates are the ones returned. -/
theorem viableForChoking_churn_witness :
    ((0 : Int) ≤ 2 ∧ F64.lt (F64.ofNat 0) (F64.ofFrac 1 2) = true ∧
      chokeCountsInRange trackerFivePeers "T" = true ∧
      thresholdCandidates trackerFivePeers (F64.ofFrac 1 2) "T" = ["A", "B", "C", "D", "E"] ∧
      viableForChoking trackerFivePeers ⟨F64.ofFrac 1 2, 2, F64.ofFrac 1 2, 2⟩ =
        .ok [("D", ["T"]), ("B", ["T"])]) ∧
    ∃ r, viableForChoking trackerFivePeers ⟨F64.ofFrac 1 2, 2, F64.ofFrac 1 2, 2⟩ = .ok r ∧
      ((thresholdCandidates trackerFivePeers (F64.ofFrac 1 2) "T").Nodup ∧
        ∀ P, P ∈ thresholdCandidates trackerFivePeers (F64.ofFrac 1 2) "T" ↔
          exceedsChokeThreshold trackerFivePeers (F64.ofFrac 1 2) P "T" = true) ∧
      (returnedPeers r "T").length =
        min (2 : Int).toNat (thresholdCandidates trackerFivePeers (F64.ofFrac 1 2) "T").length ∧
      (∀ p ∈ returnedPeers r "T",
        exceedsChokeThreshold trackerFivePeers (F64.ofFrac 1 2) p "T" = true) ∧
      (∀ p ∈ returnedPeers r "T", ∀ q,
        exceedsChokeThreshold trackerFivePeers (F64.ofFrac 1 2) q "T" = true →
        q ∉ returnedPeers r "T" →
          DuplicateCount trackerFivePeers q "T" ≤ DuplicateCount trackerFivePeers p "T") :=
  ⟨⟨by decide, by decide, by decide, by decide, by decide⟩,
    viableForChoking_churn trackerFivePeers ⟨F64.ofFrac 1 2, 2, F64.ofFrac 1 2, 2⟩ "T"
      (by decide) (by decide) (by decide)⟩

/-- C2, counterexample: one pair, with `2^62` duplicates and `2^62` first deliveries,
the threshold written `0.4` and `ChokeChurn = 1`. The pair exceeds the threshold, by
the exact ratio 1/2 and by the float64 quotient of the counts alike, so `n = 1` and
`min k n = 1`; the call returns `T` for no peer, because the `int` total it divides
by has wrapped to `-2^63`. -/
theorem viableForChoking_churn_counterexample :
    (0 : Int) ≤ 1 ∧
    (0 < DuplicateCount trackerWrapSum "P" "T" + FirstDeliveryCount trackerWrapSum "P" "T" ∧
      (DuplicateCount trackerWrapSum "P" "T" : ℚ) /
        ((DuplicateCount trackerWrapSum "P" "T" : ℚ) +
          (FirstDeliveryCount trackerWrapSum "P" "T" : ℚ)) > F64.toRat (F64.ofFrac 2 5)) ∧
    thresholdCandidates trackerWrapSum (F64.ofFrac 2 5) "T" = ["P"] ∧
    viableForChoking trackerWrapSum ⟨F64.ofFrac 2 5, 1, F64.ofFrac 1 2, 1⟩ = .ok [] ∧
    (returnedPeers ([] : GoMap PeerID (List TopicID)) "T").length ≠
      min (1 : Int).toNat (thresholdCandidates trackerWrapSum (F64.ofFrac 2 5) "T").length := by
  have ht3 : F64.ofFrac 2 5 = F64.fin false 7205759403792794 (-54) := by decide
  have hD3 : DuplicateCount trackerWrapSum "P" "T" = 4611686018427387904 := by decide
  have hF3 : FirstDeliveryCount trackerWrapSum "P" "T" = 4611686018427387904 := by decide
  refine ⟨by decide, ⟨by decide, ?_⟩, by decide, by decide, by decide⟩
  rw [ht3, hD3, hF3]
  norm_num [F64.toRat]

/-- C6: after `chokePeers(m)`, `isChokedFromLocalPeer(P,T)` is true if and only if it
was true before the call or `T` is in the list of `m` for `P`. -/
theorem chokePeers_isChoked_iff (d : deliveryTracker) (m : GoMap PeerID (List TopicID))
    (P : PeerID) (T : TopicID) :
    isChokedFromLocalPeer (chokePeers d m) P T = true ↔
      isChokedFromLocalPeer d P T = true ∨ T ∈ GoMap.getD m P [] := by
  exact isChoked_chokePeers d m P T

/-- C7: `chokePeers` is idempotent: a second call with the same mapping leaves the
whole tracker, every table of it, as the first call left it. -/
theorem chokePeers_idempotent (d : deliveryTracker) (m : GoMap PeerID (List TopicID)) :
    chokePeers (chokePeers d m) m = chokePeers d m := by
  rw [chokePeers_eq (chokePeers d m) m]
  have hfix : ∀ es : List (PeerID × List TopicID),
      (∀ e ∈ es, e ∈ GoMap.range m) →
      es.foldl (fun cp e =>
        GoMap.set cp e.1 (markTopics ((GoMap.get? cp e.1).getD []) e.2))
        (chokePeers d m).chokedPeers = (chokePeers d m).chokedPeers := by
    intro es
    induction es with
    | nil => intro _; rfl
    | cons e rest ih =>
      intro hes
      have he : e ∈ GoMap.range m := hes e (List.mem_cons_self _ _)
      simp only [List.foldl_cons]
      have hsome : (GoMap.get? (chokePeers d m).chokedPeers e.1).isSome = true := by
        rw [chokePeers_eq]
        exact isSome_chokeFold _ _ _ (Or.inr ⟨e, he, rfl⟩)
      obtain ⟨inner, hinner⟩ := Option.isSome_iff_exists.1 hsome
      have hall : ∀ t ∈ e.2, GoMap.getD inner t false = true := by
        intro t ht
        have h1 : isChokedFromLocalPeer (chokePeers d m) e.1 t = true :=
          (isChoked_chokePeers d m e.1 t).2
            (Or.inr ((mem_getD_iff m e.1 t).2 ⟨e.2, (GoMap.mem_range m e.1 e.2).1 he, ht⟩))
        simpa [isChokedFromLocalPeer, at2, GoMap.getD, hinner] using h1
      rw [hinner, Option.getD_some, markTopics_eq_self inner e.2 hall,
        GoMap.set_eq_self _ _ _ hinner]
      exact ih (fun e' he' => hes e' (List.mem_cons_of_mem _ he'))
  rw [hfix (GoMap.range m) (fun e he => he)]

/-- C8: after `unChokePeers(m)`, every pair `(P,T)` with `T` in the list of `m` for
`P` has `FirstIhaveCount = 0`, `DuplicateIhaveCount = 0` and is not locally choked,
whatever entries the three tables held for `P`. -/
theorem unChokePeers_resets (d : deliveryTracker) (m : GoMap PeerID (List TopicID))
    (P : PeerID) (T : TopicID) (h : T ∈ GoMap.getD m P []) :
    FirstIhaveCount (unChokePeers d m) P T = 0 ∧
      DuplicateIhaveCount (unChokePeers d m) P T = 0 ∧
      isChokedFromLocalPeer (unChokePeers d m) P T = false := by
  have hmem := (mem_pairsOf m P T).2 h
  rw [unChokePeers_eq]
  simp [FirstIhaveCount, DuplicateIhaveCount, isChokedFromLocalPeer, at2_deleteAll, hmem]

/-- C8, witness: a peer with entries in the choked and first-IHAVE tables and none
in the duplicate-IHAVE table is unchoked on `T`. -/
theorem unChokePeers_resets_witness :
    "T" ∈ GoMap.getD ([("P", ["T"])] : GoMap PeerID (List TopicID)) "P" [] ∧
    FirstIhaveCount (unChokePeers { NewDeliveryTracker with
        chokedPeers := [("P", [("T", true), ("U", true)])]
        firstIhaves := [("P", [("T", 4)])] } [("P", ["T"])]) "P" "T" = 0 ∧
      DuplicateIhaveCount (unChokePeers { NewDeliveryTracker with
        chokedPeers := [("P", [("T", true), ("U", true)])]
        firstIhaves := [("P", [("T", 4)])] } [("P", ["T"])]) "P" "T" = 0 ∧
      isChokedFromLocalPeer (unChokePeers { NewDeliveryTracker with
        chokedPeers := [("P", [("T", true), ("U", true)])]
        firstIhaves := [("P", [("T", 4)])] } [("P", ["T"])]) "P" "T" = false :=
  ⟨by decide, unChokePeers_resets _ _ "P" "T" (by decide)⟩

/-- C9 (the code departs from the claim): on a newly constructed tracker
`addFirstDelivery` does not complete for any message: the increment writes into the
nil inner map of the peer and panics. -/
theorem addFirstDelivery_new_panics (now : Time) (msg : Message) (id : String) :
    addFirstDelivery NewDeliveryTracker now msg id = .error Panic.nilMapWrite :=
  rfl

/-- C10 (as amended): for a duplicate of a message whose first delivery is recorded at
`ts`, from a pair whose `DuplicateCount` `c` is non-negative and below the largest
`int`, `addDuplicate` returns, raises `DuplicateCount(P,T)` from `c` to `c + 1` and
sets `DuplicateLatencyAvg(P,T)` to `(oldAvg * c + l) / (c + 1)` in `time.Duration`
arithmetic, with `l = time.Since(ts)`; while the product, the sum and `now - ts` stay
in the `int64` range this is the truncated integer quotient
`(oldAvg * c + (now - ts)) / (c + 1)`; no other pair's count or average changes. -/
theorem addDuplicate_running_mean (d : deliveryTracker) (now : Time) (msg : Message)
    (id : String) (ts : Time) (h : FirstDeliveryTimestamp d id = some ts)
    (hc0 : 0 ≤ DuplicateCount d msg.ReceivedFrom msg.Topic)
    (hc1 : DuplicateCount d msg.ReceivedFrom msg.Topic < 2 ^ 63 - 1) :
    ∃ d', addDuplicate d now msg id = .ok d' ∧
      DuplicateCount d' msg.ReceivedFrom msg.Topic =
        DuplicateCount d msg.ReceivedFrom msg.Topic + 1 ∧
      DuplicateLatencyAvg d' msg.ReceivedFrom msg.Topic =
        Duration.div
          (Duration.add
            (Duration.mul (DuplicateLatencyAvg d msg.ReceivedFrom msg.Topic)
              (DuplicateCount d msg.ReceivedFrom msg.Topic))
            (since now ts))
          (DuplicateCount d msg.ReceivedFrom msg.Topic + 1) ∧
      (-(2 ^ 63) ≤ now - ts → now - ts < 2 ^ 63 →
        -(2 ^ 63) ≤ DuplicateLatencyAvg d msg.ReceivedFrom msg.Topic *
          DuplicateCount d msg.ReceivedFrom msg.Topic →
        DuplicateLatencyAvg d msg.ReceivedFrom msg.Topic *
          DuplicateCount d msg.ReceivedFrom msg.Topic < 2 ^ 63 →
        -(2 ^ 63) ≤ DuplicateLatencyAvg d msg.ReceivedFrom msg.Topic *
          DuplicateCount d msg.ReceivedFrom msg.Topic + (now - ts) →
        DuplicateLatencyAvg d msg.ReceivedFrom msg.Topic *
          DuplicateCount d msg.ReceivedFrom msg.Topic + (now - ts) < 2 ^ 63 →
        DuplicateLatencyAvg d' msg.ReceivedFrom msg.Topic =
          Int.tdiv (DuplicateLatencyAvg d msg.ReceivedFrom msg.Topic *
              DuplicateCount d msg.ReceivedFrom msg.Topic + (now - ts))
            (DuplicateCount d msg.ReceivedFrom msg.Topic + 1)) ∧
      (∀ (Q : PeerID) (U : TopicID), (Q, U) ≠ (msg.ReceivedFrom, msg.Topic) →
        DuplicateCount d' Q U = DuplicateCount d Q U ∧
          DuplicateLatencyAvg d' Q U = DuplicateLatencyAvg d Q U) := by
  have hw : wrap64 (DuplicateCount d msg.ReceivedFrom msg.Topic + 1) =
      DuplicateCount d msg.ReceivedFrom msg.Topic + 1 :=
    wrap64_of_range _ (by omega) (by omega)
  have hne : wrap64 (DuplicateCount d msg.ReceivedFrom msg.Topic + 1) ≠ 0 := by
    rw [hw]; omega
  have hl : latencyOf d (now, id) = since now ts := by
    unfold FirstDeliveryTimestamp at h
    simp [latencyOf, GoMap.getD, h]
  obtain ⟨d', hd'⟩ := addDuplicate_returns d now msg id hne
  refine ⟨d', hd', ?_⟩
  have hres := addDuplicate_result d d' now msg id hd'
  have hself := hres msg.ReceivedFrom msg.Topic
  simp only [and_self, if_true, hw, hl] at hself
  refine ⟨hself.1, hself.2.1, ?_, ?_⟩
  · intro h1 h2 h3 h4 h5 h6
    rw [hself.2.1]
    simp only [Duration.div, Duration.add, Duration.mul]
    rw [wrap64_of_range _ h3 h4, since_of_range _ _ h1 h2, wrap64_of_range _ h5 h6]
    have hb : (0 : Int) < DuplicateCount d msg.ReceivedFrom msg.Topic + 1 := by omega
    have hr := tdiv_range _ _ hb h5 h6
    rw [wrap64_of_range _ hr.1 hr.2]
  · intro Q U hne'
    have hne'' : ¬ (Q = msg.ReceivedFrom ∧ U = msg.Topic) := by
      rintro ⟨rfl, rfl⟩
      exact hne' rfl
    have hQ := hres Q U
    simp only [hne'', if_false] at hQ
    exact ⟨hQ.1, hQ.2.1⟩

/-- C10, witness: one earlier duplicate of latency 100 and a second one arriving 300
after the first delivery give count 2 and average 200. -/
theorem addDuplicate_running_mean_witness :
    (FirstDeliveryTimestamp trackerOneDuplicate "m1" = some 0 ∧
      0 ≤ DuplicateCount trackerOneDuplicate "P" "T" ∧
      DuplicateCount trackerOneDuplicate "P" "T" < 2 ^ 63 - 1 ∧
      Except.map (fun d' => (DuplicateCount d' "P" "T", DuplicateLatencyAvg d' "P" "T"))
        (addDuplicate trackerOneDuplicate 300 ⟨"P", "T"⟩ "m1") = .ok (2, 200)) ∧
    ∃ d', addDuplicate trackerOneDuplicate 300 ⟨"P", "T"⟩ "m1" = .ok d' ∧
      DuplicateCount d' "P" "T" = DuplicateCount trackerOneDuplicate "P" "T" + 1 :=
  ⟨⟨by decide, by decide, by decide, by decide⟩,
    (addDuplicate_running_mean trackerOneDuplicate 300 ⟨"P", "T"⟩ "m1" 0 (by decide)
      (by decide) (by decide)).imp (fun _ hd => ⟨hd.1, hd.2.1⟩)⟩

/-- C10, counterexample: the pair has the largest `int`, `2^63 - 1`, as its duplicate
count and the message has a recorded first-delivery time. The call returns and the
count of the pair is then the smallest `int`, `-2^63`, not `c + 1`. -/
theorem addDuplicate_running_mean_counterexample :
    FirstDeliveryTimestamp trackerMaxCount "m1" = some 0 ∧
    DuplicateCount trackerMaxCount "P" "T" = 9223372036854775807 ∧
    Except.map (fun d' => DuplicateCount d' "P" "T")
      (addDuplicate trackerMaxCount 5 ⟨"P", "T"⟩ "m1") = .ok (-9223372036854775808) ∧
    Except.map (fun d' => DuplicateCount d' "P" "T")
      (addDuplicate trackerMaxCount 5 ⟨"P", "T"⟩ "m1") ≠
        .ok (DuplicateCount trackerMaxCount "P" "T" + 1) := by
  decide

/-- C5: whatever the thresholds and churn values, a pair that `viableForChoking`
returns does not have `DuplicateCount` and `FirstDeliveryCount` both 0, so that with
non-negative counts `DuplicateCount + FirstDeliveryCount > 0`; a pair that
`viableForUnchoking` returns does not have `FirstIhaveCount` and `DuplicateIhaveCount`
both 0, so that with non-negative counts `FirstIhaveCount + DuplicateIhaveCount > 0`;
and the ratio 0/0 passes neither threshold test. -/
theorem selectors_exclude_zero_total (d : deliveryTracker) (params : GossipSubParams)
    (P : PeerID) (T : TopicID) :
    (∀ r, viableForChoking d params = .ok r → T ∈ topicsOf r P →
        ¬ (DuplicateCount d P T = 0 ∧ FirstDeliveryCount d P T = 0) ∧
        (0 ≤ DuplicateCount d P T → 0 ≤ FirstDeliveryCount d P T →
          0 < DuplicateCount d P T + FirstDeliveryCount d P T)) ∧
      (∀ r, viableForUnchoking d params = .ok r → T ∈ topicsOf r P →
        ¬ (FirstIhaveCount d P T = 0 ∧ DuplicateIhaveCount d P T = 0) ∧
        (0 ≤ FirstIhaveCount d P T → 0 ≤ DuplicateIhaveCount d P T →
          0 < FirstIhaveCount d P T + DuplicateIhaveCount d P T)) ∧
      chokeTest params.ChokeDuplicatesThreshold 0 0 = false ∧
      unchokeTest params.UnchokeThreshold 0 0 = false := by
  refine ⟨?_, ?_, chokeTest_zero_zero _, unchokeTest_zero_zero _⟩
  · intro r hr hT
    have h1 := (viableForChoking_ok_iff d params r hr P T).1 hT
    have h2 := (sortSlice_perm _ _).mem_iff.1 (List.mem_of_mem_take h1)
    have h3 := ((mem_chokeCandidates d params P T).1 h2).2
    exact ⟨chokeTest_not_both_zero _ _ _ h3,
      fun hD hF => chokeTest_total_pos _ _ _ hD hF h3⟩
  · intro r hr hT
    have h1 := (viableForUnchoking_ok_iff d params r hr P T).1 hT
    have h2 := (sortSlice_perm _ _).mem_iff.1 (List.mem_of_mem_take h1)
    have h3 := ((mem_unchokeCandidates d params P T).1 h2).2
    exact ⟨unchokeTest_not_both_zero _ _ _ h3,
      fun h4 h5 => unchokeTest_total_pos _ _ _ h4 h5 h3⟩

/-- C5, witness: a tracker on which both selectors return the pair `(P, T)`. -/
theorem selectors_exclude_zero_total_witness :
    (viableForChoking trackerOneNine ⟨F64.ofFrac 1 2, 1, F64.ofFrac 1 10, 1⟩ =
        .ok [("P", ["T"])] ∧
      "T" ∈ topicsOf [("P", ["T"])] "P" ∧
      0 < DuplicateCount trackerOneNine "P" "T" + FirstDeliveryCount trackerOneNine "P" "T") ∧
    (viableForUnchoking trackerOneNine ⟨F64.ofFrac 1 2, 1, F64.ofFrac 1 10, 1⟩ =
        .ok [("P", ["T"])] ∧
      "T" ∈ topicsOf [("P", ["T"])] "P" ∧
      0 < FirstIhaveCount trackerOneNine "P" "T" + DuplicateIhaveCount trackerOneNine "P" "T") :=
  ⟨⟨by decide, by decide,
      ((selectors_exclude_zero_total trackerOneNine ⟨F64.ofFrac 1 2, 1, F64.ofFrac 1 10, 1⟩
        "P" "T").1 [("P", ["T"])] (by decide) (by decide)).2 (by decide) (by decide)⟩,
    ⟨by decide, by decide,
      ((selectors_exclude_zero_total trackerOneNine ⟨F64.ofFrac 1 2, 1, F64.ofFrac 1 10, 1⟩
        "P" "T").2.1 [("P", ["T"])] (by decide) (by decide)).2 (by decide) (by decide)⟩⟩

/-- C3 (as amended): when the locally choked table was built by `chokePeers` and
`unChokePeers`, `UnchokeChurn` is at least the number of peers in it, and the
`FirstIhaveCount` and `DuplicateIhaveCount` of the pair `(P, T)` are non-negative with
a sum of at most the largest `int`, `viableForUnchoking` returns, and topic `T` is in
its list for peer `P` if and only if `isChokedFromLocalPeer(P,T)` is true,
`FirstIhaveCount + DuplicateIhaveCount > 0` and the unchoke threshold is at most the
float64 quotient of `FirstIhaveCount` by the total, rounded to nearest. This holds for
every threshold value. -/
theorem viableForUnchoking_mem_iff (d : deliveryTracker) (params : GossipSubParams)
    (P : PeerID) (T : TopicID) (hb : ChokedBuilt d.chokedPeers)
    (hk : ((GoMap.range d.chokedPeers).length : Int) ≤ params.UnchokeChurn)
    (h1 : 0 ≤ FirstIhaveCount d P T) (h2 : 0 ≤ DuplicateIhaveCount d P T)
    (hs : FirstIhaveCount d P T + DuplicateIhaveCount d P T < 2 ^ 63) :
    ∃ r, viableForUnchoking d params = .ok r ∧
      (T ∈ topicsOf r P ↔
        isChokedFromLocalPeer d P T = true ∧
          0 < FirstIhaveCount d P T + DuplicateIhaveCount d P T ∧
          F64.le params.UnchokeThreshold
            (F64.div (F64.ofInt (FirstIhaveCount d P T))
              (F64.ofInt (FirstIhaveCount d P T + DuplicateIhaveCount d P T))) = true) := by
  have hk0 : 0 ≤ params.UnchokeChurn := le_trans (Int.ofNat_nonneg _) hk
  obtain ⟨r, hr⟩ := viableForUnchoking_total d params hk0
  refine ⟨r, hr, ?_⟩
  have hlen : (unchokeCandidates d params T).length ≤ params.UnchokeChurn.toNat := by
    have h1 : (unchokeCandidates d params T).length ≤ (GoMap.range d.chokedPeers).length := by
      unfold unchokeCandidates
      exact le_trans (List.length_filter_le _ _) (by simp)
    omega
  have hut := unchokeTest_of_range params.UnchokeThreshold _ _ h1 h2 hs
  rw [viableForUnchoking_ok_iff d params r hr, take_sortSlice_of_le _ _ _ hlen,
    mem_unchokeCandidates]
  constructor
  · rintro ⟨he, hc⟩
    exact ⟨ChokedBuilt.all_true _ hb P T he, unchokeTest_total_pos _ _ _ h1 h2 hc,
      by rw [← hut]; exact hc⟩
  · rintro ⟨hc, _, ht⟩
    exact ⟨hasEntry_of_at2 _ P T hc, by rw [hut]; exact ht⟩

/-- C3, witness: a pair choked by `chokePeers`, with 1 first IHAVE out of 10 and the
threshold written `0.1`, is returned. -/
theorem viableForUnchoking_mem_iff_witness :
    (ChokedBuilt trackerOneNine.chokedPeers ∧
      ((GoMap.range trackerOneNine.chokedPeers).length : Int) ≤ 1 ∧
      0 ≤ FirstIhaveCount trackerOneNine "P" "T" ∧
      0 ≤ DuplicateIhaveCount trackerOneNine "P" "T" ∧
      FirstIhaveCount trackerOneNine "P" "T" + DuplicateIhaveCount trackerOneNine "P" "T" <
        2 ^ 63 ∧
      viableForUnchoking trackerOneNine ⟨F64.ofFrac 1 2, 1, F64.ofFrac 1 10, 1⟩ =
        .ok [("P", ["T"])]) ∧
    ∃ r, viableForUnchoking trackerOneNine ⟨F64.ofFrac 1 2, 1, F64.ofFrac 1 10, 1⟩ = .ok r ∧
      ("T" ∈ topicsOf r "P" ↔
        isChokedFromLocalPeer trackerOneNine "P" "T" = true ∧
          0 < FirstIhaveCount trackerOneNine "P" "T" + DuplicateIhaveCount trackerOneNine "P" "T" ∧
          F64.le (F64.ofFrac 1 10)
            (F64.div (F64.ofInt (FirstIhaveCount trackerOneNine "P" "T"))
              (F64.ofInt (FirstIhaveCount trackerOneNine "P" "T" +
                DuplicateIhaveCount trackerOneNine "P" "T"))) = true) :=
  ⟨⟨ChokedBuilt.choke NewDeliveryTracker [("P", ["T"])] ChokedBuilt.new, by decide, by decide,
      by decide, by decide, by decide⟩,
    viableForUnchoking_mem_iff trackerOneNine ⟨F64.ofFrac 1 2, 1, F64.ofFrac 1 10, 1⟩ "P" "T"
      (ChokedBuilt.choke NewDeliveryTracker [("P", ["T"])] ChokedBuilt.new) (by decide)
      (by decide) (by decide) (by decide)⟩

/-- C3, counterexample, at three inputs. The threshold written `0.1` is, as a
float64, a little above 1/10; a choked pair with 1 first IHAVE and 9 duplicate IHAVEs
has exact ratio 1/10 below it and yet is returned: the float64 quotient 1/10 rounds to
the threshold itself. With threshold 1/2 (a float64) and `2^54 - 1` first IHAVEs out
of `2^55`, the exact ratio is below 1/2 and the pair is returned: `float64(2^54 - 1)`
rounds to `2^54`. With `2^62` first IHAVEs, `2^62` duplicate IHAVEs and threshold 1/2,
the ratio equals the threshold and the choked pair is not returned: the `int` total
wraps to `-2^63` and the quotient is negative. -/
theorem viableForUnchoking_exact_ratio_counterexample :
    ((0 < F64.toRat (F64.ofFrac 1 10) ∧ F64.toRat (F64.ofFrac 1 10) ≤ 1) ∧
      ChokedBuilt trackerOneNine.chokedPeers ∧
      ((GoMap.range trackerOneNine.chokedPeers).length : Int) ≤ 1 ∧
      viableForUnchoking trackerOneNine ⟨F64.ofFrac 1 2, 1, F64.ofFrac 1 10, 1⟩ =
        .ok [("P", ["T"])] ∧
      ¬ ("T" ∈ topicsOf [("P", ["T"])] "P" ↔
          isChokedFromLocalPeer trackerOneNine "P" "T" = true ∧
            0 < FirstIhaveCount trackerOneNine "P" "T" +
                DuplicateIhaveCount trackerOneNine "P" "T" ∧
            ((FirstIhaveCount trackerOneNine "P" "T" : ℚ) /
              ((FirstIhaveCount trackerOneNine "P" "T" : ℚ) +
                (DuplicateIhaveCount trackerOneNine "P" "T" : ℚ)) ≥
              F64.toRat (F64.ofFrac 1 10)))) ∧
    ((F64.toRat (F64.ofFrac 1 2) = 1 / 2) ∧
      ChokedBuilt trackerHalfBelow.chokedPeers ∧
      ((GoMap.range trackerHalfBelow.chokedPeers).length : Int) ≤ 1 ∧
      viableForUnchoking trackerHalfBelow ⟨F64.ofFrac 1 2, 1, F64.ofFrac 1 2, 1⟩ =
        .ok [("P", ["T"])] ∧
      ¬ ("T" ∈ topicsOf [("P", ["T"])] "P" ↔
          isChokedFromLocalPeer trackerHalfBelow "P" "T" = true ∧
            0 < FirstIhaveCount trackerHalfBelow "P" "T" +
                DuplicateIhaveCount trackerHalfBelow "P" "T" ∧
            ((FirstIhaveCount trackerHalfBelow "P" "T" : ℚ) /
              ((FirstIhaveCount trackerHalfBelow "P" "T" : ℚ) +
                (DuplicateIhaveCount trackerHalfBelow "P" "T" : ℚ)) ≥
              F64.toRat (F64.ofFrac 1 2)))) ∧
    ((F64.toRat (F64.ofFrac 1 2) = 1 / 2) ∧
      ChokedBuilt trackerWrapIhaves.chokedPeers ∧
      ((GoMap.range trackerWrapIhaves.chokedPeers).length : Int) ≤ 1 ∧
      viableForUnchoking trackerWrapIhaves ⟨F64.ofFrac 1 2, 1, F64.ofFrac 1 2, 1⟩ = .ok [] ∧
      ¬ ("T" ∈ topicsOf ([] : GoMap PeerID (List TopicID)) "P" ↔
          isChokedFromLocalPeer trackerWrapIhaves "P" "T" = true ∧
            0 < FirstIhaveCount trackerWrapIhaves "P" "T" +
                DuplicateIhaveCount trackerWrapIhaves "P" "T" ∧
            ((FirstIhaveCount trackerWrapIhaves "P" "T" : ℚ) /
              ((FirstIhaveCount trackerWrapIhaves "P" "T" : ℚ) +
                (DuplicateIhaveCount trackerWrapIhaves "P" "T" : ℚ)) ≥
              F64.toRat (F64.ofFrac 1 2)))) := by
  have hu : F64.ofFrac 1 10 = F64.fin false 7205759403792794 (-56) := by decide
  have hu2 : F64.ofFrac 1 2 = F64.fin false 4503599627370496 (-53) := by decide
  have hF : FirstIhaveCount trackerOneNine "P" "T" = 1 := by decide
  have hD : DuplicateIhaveCount trackerOneNine "P" "T" = 9 := by decide
  have hF2 : FirstIhaveCount trackerHalfBelow "P" "T" = 18014398509481983 := by decide
  have hD2 : DuplicateIhaveCount trackerHalfBelow "P" "T" = 18014398509481985 := by decide
  have hF3 : FirstIhaveCount trackerWrapIhaves "P" "T" = 4611686018427387904 := by decide
  have hD3 : DuplicateIhaveCount trackerWrapIhaves "P" "T" = 4611686018427387904 := by decide
  have hC3 : isChokedFromLocalPeer trackerWrapIhaves "P" "T" = true := by decide
  have hmem : "T" ∈ topicsOf [("P", ["T"])] "P" := by decide
  have hnot : ¬ ("T" ∈ topicsOf ([] : GoMap PeerID (List TopicID)) "P") := by decide
  refine ⟨⟨?_, ChokedBuilt.choke NewDeliveryTracker [("P", ["T"])] ChokedBuilt.new,
    by decide, by decide, ?_⟩,
    ⟨?_, ChokedBuilt.choke NewDeliveryTracker [("P", ["T"])] ChokedBuilt.new,
    by decide, by decide, ?_⟩,
    ⟨?_, ChokedBuilt.choke NewDeliveryTracker [("P", ["T"])] ChokedBuilt.new,
    by decide, by decide, ?_⟩⟩
  · rw [hu]
    constructor <;> norm_num [F64.toRat]
  · rw [hu, hF, hD]
    intro h
    have h3 := (h.1 hmem).2.2
    norm_num [F64.toRat] at h3
  · rw [hu2]
    norm_num [F64.toRat]
  · rw [hu2, hF2, hD2]
    intro h
    have h3 := (h.1 hmem).2.2
    norm_num [F64.toRat] at h3
  · rw [hu2]
    norm_num [F64.toRat]
  · rw [hu2, hF3, hD3, hC3]
    intro h
    apply hnot
    apply h.2
    refine ⟨rfl, by decide, ?_⟩
    norm_num [F64.toRat]

/-- C4 (the code departs from the claim): with `UnchokeChurn = 1` and two unchoke
candidates of `T`, `A` with 1 first IHAVE and `B` with 5, the comparator, which reads
the duplicates table for its right element, leaves `A` in front in either iteration
order, so `A` is returned and `B`, with the higher `FirstIhaveCount`, is not. -/
theorem viableForUnchoking_mixed_comparator :
    viableForUnchoking trackerAB ⟨F64.ofFrac 1 2, 1, F64.ofFrac 1 2, 1⟩ = .ok [("A", ["T"])] ∧
    viableForUnchoking trackerBA ⟨F64.ofFrac 1 2, 1, F64.ofFrac 1 2, 1⟩ = .ok [("A", ["T"])] ∧
    "B" ∈ unchokeCandidates trackerAB ⟨F64.ofFrac 1 2, 1, F64.ofFrac 1 2, 1⟩ "T" ∧
    "B" ∈ unchokeCandidates trackerBA ⟨F64.ofFrac 1 2, 1, F64.ofFrac 1 2, 1⟩ "T" ∧
    FirstIhaveCount trackerAB "A" "T" < FirstIhaveCount trackerAB "B" "T" ∧
    FirstIhaveCount trackerBA "A" "T" < FirstIhaveCount trackerBA "B" "T" := by
  decide

/-! ## Frame facts of the mutators -/

theorem chokePeers_frame (d : deliveryTracker) (m : GoMap PeerID (List TopicID)) :
    (chokePeers d m).duplicates = d.duplicates ∧
      (chokePeers d m).duplicateLatency = d.duplicateLatency ∧
      (chokePeers d m).firstDeliveries = d.firstDeliveries ∧
      (chokePeers d m).firstDeliveryTime = d.firstDeliveryTime ∧
      (chokePeers d m).inboundChokedPeers = d.inboundChokedPeers ∧
      (chokePeers d m).firstIhaves = d.firstIhaves ∧
      (chokePeers d m).duplicateIhaves = d.duplicateIhaves := by
  rw [chokePeers_eq]
  exact ⟨rfl, rfl, rfl, rfl, rfl, rfl, rfl⟩

theorem unChokePeers_frame (d : deliveryTracker) (m : GoMap PeerID (List TopicID)) :
    (unChokePeers d m).duplicates = d.duplicates ∧
      (unChokePeers d m).duplicateLatency = d.duplicateLatency ∧
      (unChokePeers d m).firstDeliveries = d.firstDeliveries ∧
      (unChokePeers d m).firstDeliveryTime = d.firstDeliveryTime ∧
      (unChokePeers d m).inboundChokedPeers = d.inboundChokedPeers := by
  rw [unChokePeers_eq]
  exact ⟨rfl, rfl, rfl, rfl, rfl⟩

theorem isRemote_chokedFromPeer (d : deliveryTracker) (P Q : PeerID) (T U : TopicID) :
    isChokedFromRemotePeer (chokedFromPeer d P T) Q U =
      if Q = P ∧ U = T then true else isChokedFromRemotePeer d Q U := by
  simp only [isChokedFromRemotePeer, chokedFromPeer]
  rw [at2_set_set]

theorem isRemote_unChokedFromPeer (d : deliveryTracker) (P Q : PeerID) (T U : TopicID) :
    isChokedFromRemotePeer (unChokedFromPeer d P T) Q U =
      if Q = P ∧ U = T then false else isChokedFromRemotePeer d Q U := by
  simp only [isChokedFromRemotePeer, unChokedFromPeer]
  rw [at2_delete2]

/-- C13: the local and the remote choke flags are independent: `chokedFromPeer` and
`unChokedFromPeer` leave `isChokedFromLocalPeer` of every pair unchanged, and
`chokePeers` and `unChokePeers` leave `isChokedFromRemotePeer` of every pair
unchanged. -/
theorem local_remote_independent (d : deliveryTracker) (P Q : PeerID) (T U : TopicID)
    (m : GoMap PeerID (List TopicID)) :
    isChokedFromLocalPeer (chokedFromPeer d P T) Q U = isChokedFromLocalPeer d Q U ∧
      isChokedFromLocalPeer (unChokedFromPeer d P T) Q U = isChokedFromLocalPeer d Q U ∧
      isChokedFromRemotePeer (chokePeers d m) Q U = isChokedFromRemotePeer d Q U ∧
      isChokedFromRemotePeer (unChokePeers d m) Q U = isChokedFromRemotePeer d Q U := by
  refine ⟨rfl, rfl, ?_, ?_⟩
  · unfold isChokedFromRemotePeer
    rw [(chokePeers_frame d m).2.2.2.2.1]
  · unfold isChokedFromRemotePeer
    rw [(unChokePeers_frame d m).2.2.2.2]

/-- C14: `isChokedFromRemotePeer(P,T)` is true after `chokedFromPeer(P,T)` and false
after `unChokedFromPeer(P,T)`, whatever entries the tracker held for `P`; it is false
for every pair on a new tracker; and neither call changes it for a pair other than
`(P,T)`. -/
theorem remote_choke_flag (d : deliveryTracker) (P Q : PeerID) (T U : TopicID) :
    isChokedFromRemotePeer (chokedFromPeer d P T) P T = true ∧
      isChokedFromRemotePeer (unChokedFromPeer d P T) P T = false ∧
      isChokedFromRemotePeer NewDeliveryTracker Q U = false ∧
      ((Q, U) ≠ (P, T) →
        isChokedFromRemotePeer (chokedFromPeer d P T) Q U = isChokedFromRemotePeer d Q U ∧
          isChokedFromRemotePeer (unChokedFromPeer d P T) Q U =
            isChokedFromRemotePeer d Q U) := by
  refine ⟨?_, ?_, rfl, ?_⟩
  · rw [isRemote_chokedFromPeer]; simp
  · rw [isRemote_unChokedFromPeer]; simp
  · intro hne
    have hne' : ¬ (Q = P ∧ U = T) := by
      rintro ⟨rfl, rfl⟩
      exact hne rfl
    rw [isRemote_chokedFromPeer, isRemote_unChokedFromPeer]
    simp [hne']

/-- C14, witness: choking by `P` on `T` does not touch the flag of `Q` on `T`, which
was set before. -/
theorem remote_choke_flag_witness :
    (("Q", "T") : PeerID × TopicID) ≠ ("P", "T") ∧
      isChokedFromRemotePeer
        (chokedFromPeer (chokedFromPeer NewDeliveryTracker "Q" "T") "P" "T") "Q" "T" =
        isChokedFromRemotePeer (chokedFromPeer NewDeliveryTracker "Q" "T") "Q" "T" ∧
      isChokedFromRemotePeer
        (unChokedFromPeer (chokedFromPeer NewDeliveryTracker "Q" "T") "P" "T") "Q" "T" =
        isChokedFromRemotePeer (chokedFromPeer NewDeliveryTracker "Q" "T") "Q" "T" :=
  ⟨by decide,
    (remote_choke_flag (chokedFromPeer NewDeliveryTracker "Q" "T") "P" "Q" "T" "T").2.2.2
      (by decide)⟩

/-- C16: with `ChokeChurn ≥ 0` the call `viableForChoking` returns a mapping, and with
`UnchokeChurn ≥ 0` the call `viableForUnchoking` returns a mapping, in every tracker
state: no lookup, division or slice expression in them panics. -/
theorem selectors_complete (d : deliveryTracker) (params : GossipSubParams)
    (hc : 0 ≤ params.ChokeChurn) (hu : 0 ≤ params.UnchokeChurn) :
    (∃ r, viableForChoking d params = .ok r) ∧ (∃ r, viableForUnchoking d params = .ok r) :=
  ⟨viableForChoking_total d params hc, viableForUnchoking_total d params hu⟩

/-- C16, witness: on a tracker with two candidates for each selector, a pair with
zero totals and peers missing from the first-delivery and duplicate-IHAVE tables, both
selectors return with churn 1, cutting two candidates to one; with churn -1 the slice
expression of either selector panics on the same tracker. -/
theorem selectors_complete_witness :
    ((0 : Int) ≤ 1 ∧
      (DuplicateCount trackerMixed "C" "T" + FirstDeliveryCount trackerMixed "C" "T" = 0 ∧
        FirstIhaveCount trackerMixed "C" "T" + DuplicateIhaveCount trackerMixed "C" "T" = 0 ∧
        GoMap.get? trackerMixed.firstDeliveries "B" = none ∧
        GoMap.get? trackerMixed.duplicateIhaves "A" = none) ∧
      (chokeCandidates trackerMixed ⟨F64.ofFrac 1 2, 1, F64.ofFrac 1 2, 1⟩ "T" = ["A", "B"] ∧
        unchokeCandidates trackerMixed ⟨F64.ofFrac 1 2, 1, F64.ofFrac 1 2, 1⟩ "T" =
          ["A", "B"]) ∧
      (viableForChoking trackerMixed ⟨F64.ofFrac 1 2, 1, F64.ofFrac 1 2, 1⟩ =
          .ok [("A", ["T"])] ∧
        viableForUnchoking trackerMixed ⟨F64.ofFrac 1 2, 1, F64.ofFrac 1 2, 1⟩ =
          .ok [("A", ["T"])]) ∧
      (viableForChoking trackerMixed ⟨F64.ofFrac 1 2, -1, F64.ofFrac 1 2, -1⟩ =
          .error Panic.sliceBounds ∧
        viableForUnchoking trackerMixed ⟨F64.ofFrac 1 2, -1, F64.ofFrac 1 2, -1⟩ =
          .error Panic.sliceBounds)) ∧
    ((∃ r, viableForChoking trackerMixed ⟨F64.ofFrac 1 2, 1, F64.ofFrac 1 2, 1⟩ = .ok r) ∧
      (∃ r, viableForUnchoking trackerMixed ⟨F64.ofFrac 1 2, 1, F64.ofFrac 1 2, 1⟩ = .ok r)) :=
  ⟨⟨by decide, by decide, by decide, by decide, by decide⟩,
    selectors_complete trackerMixed ⟨F64.ofFrac 1 2, 1, F64.ofFrac 1 2, 1⟩ (by decide)
      (by decide)⟩

/-- C19: `unChokePeers(m)` leaves `isChokedFromLocalPeer`, `FirstIhaveCount` and
`DuplicateIhaveCount` unchanged for every pair `(Q,U)` with `U` not in the list of `m`
for `Q`, and leaves the duplicates, first-delivery, latency and timestamp tables and
the remote choke table unchanged altogether, so `DuplicateCount`,
`FirstDeliveryCount`, `DuplicateLatencyAvg`, every timestamp and every remote flag
are those of before for every pair. -/
theorem unChokePeers_frame_pairs (d : deliveryTracker) (m : GoMap PeerID (List TopicID))
    (Q : PeerID) (U : TopicID) (h : U ∉ GoMap.getD m Q []) :
    (isChokedFromLocalPeer (unChokePeers d m) Q U = isChokedFromLocalPeer d Q U ∧
      FirstIhaveCount (unChokePeers d m) Q U = FirstIhaveCount d Q U ∧
      DuplicateIhaveCount (unChokePeers d m) Q U = DuplicateIhaveCount d Q U) ∧
    (∀ (P : PeerID) (T : TopicID) (id : String),
      DuplicateCount (unChokePeers d m) P T = DuplicateCount d P T ∧
        FirstDeliveryCount (unChokePeers d m) P T = FirstDeliveryCount d P T ∧
        DuplicateLatencyAvg (unChokePeers d m) P T = DuplicateLatencyAvg d P T ∧
        FirstDeliveryTimestamp (unChokePeers d m) id = FirstDeliveryTimestamp d id ∧
        isChokedFromRemotePeer (unChokePeers d m) P T = isChokedFromRemotePeer d P T) := by
  have hmem : (Q, U) ∉ pairsOf m := fun hin => h ((mem_pairsOf m Q U).1 hin)
  constructor
  · rw [unChokePeers_eq]
    simp [isChokedFromLocalPeer, FirstIhaveCount, DuplicateIhaveCount, at2_deleteAll, hmem]
  · intro P T id
    obtain ⟨h1, h2, h3, h4, h5⟩ := unChokePeers_frame d m
    simp only [DuplicateCount, FirstDeliveryCount, DuplicateLatencyAvg, FirstDeliveryTimestamp,
      isChokedFromRemotePeer, h1, h2, h3, h4, h5, and_self]

/-- C19, witness: unchoking `P` on `T` leaves `P` choked on `U` and the duplicate
count of the unchoked pair as it was. -/
theorem unChokePeers_frame_pairs_witness :
    "U" ∉ GoMap.getD ([("P", ["T"])] : GoMap PeerID (List TopicID)) "P" [] ∧
      isChokedFromLocalPeer
        (unChokePeers (chokePeers trackerOneNine [("P", ["U"])]) [("P", ["T"])]) "P" "U" =
        true ∧
      DuplicateCount
        (unChokePeers (chokePeers trackerOneNine [("P", ["U"])]) [("P", ["T"])]) "P" "T" =
        DuplicateCount (chokePeers trackerOneNine [("P", ["U"])]) "P" "T" :=
  ⟨by decide, by decide,
    ((unChokePeers_frame_pairs (chokePeers trackerOneNine [("P", ["U"])]) [("P", ["T"])]
      "P" "U" (by decide)).2 "P" "T" "m1").1⟩

/-! ## Counters across calls -/

/-- C15 (as amended): every call other than `unChokePeers` leaves each of
`DuplicateCount`, `FirstDeliveryCount`, `FirstIhaveCount` and `DuplicateIhaveCount`
of a pair at least as large as it was, provided the `DuplicateCount` and the
`FirstDeliveryCount` of the pair are below the largest `int`. -/
theorem counters_monotone (c : Call) (d : deliveryTracker) (P : PeerID) (T : TopicID)
    (h : ∀ m, c ≠ Call.unChokePeers m)
    (hD : DuplicateCount d P T < 2 ^ 63 - 1) (hF : FirstDeliveryCount d P T < 2 ^ 63 - 1) :
    DuplicateCount d P T ≤ DuplicateCount (c.after d) P T ∧
      FirstDeliveryCount d P T ≤ FirstDeliveryCount (c.after d) P T ∧
      FirstIhaveCount d P T ≤ FirstIhaveCount (c.after d) P T ∧
      DuplicateIhaveCount d P T ≤ DuplicateIhaveCount (c.after d) P T := by
  cases c with
  | addDuplicate now msg id =>
    simp only [Call.after]
    cases hr : addDuplicate d now msg id with
    | error e =>
      refine ⟨?_, le_refl _, le_refl _, le_refl _⟩
      show DuplicateCount d P T ≤ at2 (countDuplicate d msg).duplicates P T 0
      rw [at2_countDuplicate]
      split
      · rename_i hpt
        rw [← hpt.1, ← hpt.2]
        exact le_wrap64_succ _ hD
      · exact le_refl _
    | ok d' =>
      obtain ⟨h1, _, h3, _, _, _, h7, h8⟩ := addDuplicate_result d d' now msg id hr P T
      simp only [FirstDeliveryCount, FirstIhaveCount, DuplicateIhaveCount, h3, h7, h8, le_refl,
        and_true]
      rw [h1]
      split
      · rename_i hpt
        rw [← hpt.1, ← hpt.2]
        exact le_wrap64_succ _ hD
      · exact le_refl _
  | addFirstDelivery now msg id =>
    simp only [Call.after]
    cases hr : addFirstDelivery d now msg id with
    | error e => exact ⟨le_refl _, le_refl _, le_refl _, le_refl _⟩
    | ok d' =>
      obtain ⟨h1, h2, h3, h4⟩ := FirstDeliveryCount_addFirstDelivery d d' now msg id hr P T
      simp only [DuplicateCount, FirstIhaveCount, DuplicateIhaveCount, h2, h3, h4, le_refl,
        true_and, and_true]
      rw [h1]
      split
      · rename_i hpt
        rw [← hpt.1, ← hpt.2]
        exact le_wrap64_succ _ hF
      · exact le_refl _
  | chokePeers m =>
    obtain ⟨h1, _, h3, _, _, h6, h7⟩ := chokePeers_frame d m
    simp only [Call.after, DuplicateCount, FirstDeliveryCount, FirstIhaveCount,
      DuplicateIhaveCount, h1, h3, h6, h7, le_refl, and_self]
  | unChokePeers m => exact absurd rfl (h m)
  | chokedFromPeer pid topic => exact ⟨le_refl _, le_refl _, le_refl _, le_refl _⟩
  | unChokedFromPeer pid topic => exact ⟨le_refl _, le_refl _, le_refl _, le_refl _⟩
  | viableForChoking params =>
    simp only [Call.after, viableForChokingStep_eq, le_refl, and_self]
  | viableForUnchoking params =>
    simp only [Call.after, viableForUnchokingStep_eq, le_refl, and_self]
  | isChokedFromRemotePeer pid topic => exact ⟨le_refl _, le_refl _, le_refl _, le_refl _⟩
  | isChokedFromLocalPeer pid topic => exact ⟨le_refl _, le_refl _, le_refl _, le_refl _⟩

/-- C15, witness: a duplicate from `P` on `T` raises the duplicate count of the pair
from 7 to 8 and lowers no counter. -/
theorem counters_monotone_witness :
    ((∀ m, Call.addDuplicate 5 ⟨"P", "T"⟩ "m1" ≠ Call.unChokePeers m) ∧
      DuplicateCount trackerOneNine "P" "T" < 2 ^ 63 - 1 ∧
      FirstDeliveryCount trackerOneNine "P" "T" < 2 ^ 63 - 1 ∧
      DuplicateCount ((Call.addDuplicate 5 ⟨"P", "T"⟩ "m1").after trackerOneNine) "P" "T" = 8) ∧
    (DuplicateCount trackerOneNine "P" "T" ≤
        DuplicateCount ((Call.addDuplicate 5 ⟨"P", "T"⟩ "m1").after trackerOneNine) "P" "T" ∧
      FirstDeliveryCount trackerOneNine "P" "T" ≤
        FirstDeliveryCount ((Call.addDuplicate 5 ⟨"P", "T"⟩ "m1").after trackerOneNine)
          "P" "T" ∧
      FirstIhaveCount trackerOneNine "P" "T" ≤
        FirstIhaveCount ((Call.addDuplicate 5 ⟨"P", "T"⟩ "m1").after trackerOneNine) "P" "T" ∧
      DuplicateIhaveCount trackerOneNine "P" "T" ≤
        DuplicateIhaveCount ((Call.addDuplicate 5 ⟨"P", "T"⟩ "m1").after trackerOneNine)
          "P" "T") :=
  ⟨⟨fun _ h => Call.noConfusion h, by decide, by decide, by decide⟩,
    counters_monotone (Call.addDuplicate 5 ⟨"P", "T"⟩ "m1") trackerOneNine "P" "T"
      (fun _ h => Call.noConfusion h) (by decide) (by decide)⟩

/-- C15, counterexample: the pair has the largest `int`, `2^63 - 1`, as its duplicate
count; after one more `addDuplicate` the count is the smallest `int`, `-2^63`, which is
less than before. -/
theorem counters_monotone_counterexample :
    (∀ m, Call.addDuplicate 5 ⟨"P", "T"⟩ "m1" ≠ Call.unChokePeers m) ∧
    DuplicateCount trackerMaxCount "P" "T" = 9223372036854775807 ∧
    addDuplicate trackerMaxCount 5 ⟨"P", "T"⟩ "m1" =
      .ok ((Call.addDuplicate 5 ⟨"P", "T"⟩ "m1").after trackerMaxCount) ∧
    DuplicateCount ((Call.addDuplicate 5 ⟨"P", "T"⟩ "m1").after trackerMaxCount) "P" "T" =
      -9223372036854775808 ∧
    ¬ (DuplicateCount trackerMaxCount "P" "T" ≤
      DuplicateCount ((Call.addDuplicate 5 ⟨"P", "T"⟩ "m1").after trackerMaxCount) "P" "T") :=
  ⟨fun _ h => Call.noConfusion h, by decide, by decide, by decide, by decide⟩

/-- C20: run statement by statement on the tracker behind the receiver, the bodies of
`viableForChoking`, `viableForUnchoking`, `isChokedFromLocalPeer` and
`isChokedFromRemotePeer` yield the results of these methods and leave the tracker,
and so every counter, latency average, timestamp and choke flag in it, exactly as it
was, also when a selector panics. -/
theorem selectors_and_queries_pure (d : deliveryTracker) (params : GossipSubParams)
    (pid : PeerID) (topic : TopicID) :
    (viableForChokingStep params d = (viableForChoking d params, d) ∧
      viableForUnchokingStep params d = (viableForUnchoking d params, d) ∧
      isChokedFromLocalPeerStep pid topic d = (.ok (isChokedFromLocalPeer d pid topic), d) ∧
      isChokedFromRemotePeerStep pid topic d =
        (.ok (isChokedFromRemotePeer d pid topic), d)) ∧
    ((Call.viableForChoking params).after d = d ∧
      (Call.viableForUnchoking params).after d = d ∧
      (Call.isChokedFromLocalPeer pid topic).after d = d ∧
      (Call.isChokedFromRemotePeer pid topic).after d = d) := by
  refine ⟨⟨viableForChokingStep_eq d params, viableForUnchokingStep_eq d params, rfl, rfl⟩,
    ?_, ?_, rfl, rfl⟩
  · simp only [Call.after, viableForChokingStep_eq]
  · simp only [Call.after, viableForUnchokingStep_eq]

/-! ## Churn of the selectors -/

/-- C17 (as amended): `viableForChoking` selects among the pairs exceeding the choke
threshold whether or not they are already locally choked. With counts of `T` in the
`int` range, a positive threshold and `ChokeChurn` `k ≥ 0`: it returns `T` for
`min k n` peers, `n` counting every peer exceeding the threshold on `T`, choked or
not; a peer exceeding the threshold with strictly more duplicates on `T` than every
other such peer is returned for every `k ≥ 1`, also when it is already choked; the
returned peers not yet choked and the returned peers already choked number `min k n`
together, so every already choked pair returned takes one of the `k` slots; and after
`chokePeers` on the result a pair is locally choked if and only if it was before or
is in the result, so merging an already choked pair changes no flag. -/
theorem viableForChoking_counts_choked (d : deliveryTracker) (params : GossipSubParams)
    (T : TopicID) (hk : 0 ≤ params.ChokeChurn)
    (ht : F64.lt (F64.ofNat 0) params.ChokeDuplicatesThreshold = true)
    (hr : chokeCountsInRange d T = true) :
    ∃ r, viableForChoking d params = .ok r ∧
      (returnedPeers r T).length =
        min params.ChokeChurn.toNat
          (thresholdCandidates d params.ChokeDuplicatesThreshold T).length ∧
      (∀ P, exceedsChokeThreshold d params.ChokeDuplicatesThreshold P T = true →
        (∀ q, exceedsChokeThreshold d params.ChokeDuplicatesThreshold q T = true → q ≠ P →
          DuplicateCount d q T < DuplicateCount d P T) →
        0 < params.ChokeChurn → T ∈ topicsOf r P) ∧
      ((returnedPeers r T).filter (fun P => !isChokedFromLocalPeer d P T)).length +
          ((returnedPeers r T).filter (fun P => isChokedFromLocalPeer d P T)).length =
        min params.ChokeChurn.toNat
          (thresholdCandidates d params.ChokeDuplicatesThreshold T).length ∧
      (∀ P U, isChokedFromLocalPeer (chokePeers d r) P U = true ↔
        isChokedFromLocalPeer d P U = true ∨ U ∈ topicsOf r P) := by
  obtain ⟨r, hres, ⟨_, hmem⟩, hlen, hsub, htop⟩ := viableForChoking_topk d params T hk ht hr
  refine ⟨r, hres, hlen, ?_, ?_, fun P U => isChoked_chokePeers d r P U⟩
  · intro P hP hmax hk1
    by_contra hnot
    have hPn : P ∉ returnedPeers r T := fun hin => hnot ((mem_returnedPeers r P T).1 hin)
    have hn : 0 < (thresholdCandidates d params.ChokeDuplicatesThreshold T).length :=
      List.length_pos_of_mem ((hmem P).2 hP)
    have hpos : 0 < (returnedPeers r T).length := by
      rw [hlen]
      exact lt_min (by omega) hn
    obtain ⟨p, hp⟩ := List.exists_mem_of_length_pos hpos
    have hge := htop p hp P hP hPn
    have hne : p ≠ P := fun e => hPn (e ▸ hp)
    have hlt := hmax p (hsub p hp) hne
    omega
  · have hp := @List.length_eq_length_filter_add _ (returnedPeers r T)
      (fun P => isChokedFromLocalPeer d P T)
    rw [← hlen, hp, add_comm]

/-- C17, witness: `P`, already choked on `T` with 7 duplicates, and `Q`, not choked
with 5, both exceed the threshold `0.5`; with `ChokeChurn = 1` the one slot goes to
`P`. -/
theorem viableForChoking_counts_choked_witness :
    ((0 : Int) ≤ 1 ∧ F64.lt (F64.ofNat 0) (F64.ofFrac 1 2) = true ∧
      chokeCountsInRange trackerChokedFirst "T" = true ∧
      thresholdCandidates trackerChokedFirst (F64.ofFrac 1 2) "T" = ["P", "Q"] ∧
      isChokedFromLocalPeer trackerChokedFirst "P" "T" = true ∧
      viableForChoking trackerChokedFirst ⟨F64.ofFrac 1 2, 1, F64.ofFrac 1 2, 1⟩ =
        .ok [("P", ["T"])]) ∧
    ∃ r, viableForChoking trackerChokedFirst ⟨F64.ofFrac 1 2, 1, F64.ofFrac 1 2, 1⟩ = .ok r ∧
      (returnedPeers r "T").length =
        min (1 : Int).toNat (thresholdCandidates trackerChokedFirst (F64.ofFrac 1 2) "T").length ∧
      (∀ P, exceedsChokeThreshold trackerChokedFirst (F64.ofFrac 1 2) P "T" = true →
        (∀ q, exceedsChokeThreshold trackerChokedFirst (F64.ofFrac 1 2) q "T" = true → q ≠ P →
          DuplicateCount trackerChokedFirst q "T" < DuplicateCount trackerChokedFirst P "T") →
        (0 : Int) < 1 → "T" ∈ topicsOf r P) ∧
      ((returnedPeers r "T").filter
            (fun P => !isChokedFromLocalPeer trackerChokedFirst P "T")).length +
          ((returnedPeers r "T").filter
            (fun P => isChokedFromLocalPeer trackerChokedFirst P "T")).length =
        min (1 : Int).toNat (thresholdCandidates trackerChokedFirst (F64.ofFrac 1 2) "T").length ∧
      (∀ P U, isChokedFromLocalPeer (chokePeers trackerChokedFirst r) P U = true ↔
        isChokedFromLocalPeer trackerChokedFirst P U = true ∨ U ∈ topicsOf r P) :=
  ⟨⟨by decide, by decide, by decide, by decide, by decide, by decide⟩,
    viableForChoking_counts_choked trackerChokedFirst ⟨F64.ofFrac 1 2, 1, F64.ofFrac 1 2, 1⟩
      "T" (by decide) (by decide) (by decide)⟩

/-- C17, counterexample: `P` is already locally choked on `T` and `Q` is not; both
exceed the threshold `0.5` and `ChokeChurn = 1`. The call returns `P` for `T`, a pair
that is already choked, and the one slot of `T` is not left for `Q`. -/
theorem viableForChoking_returns_choked_counterexample :
    viableForChoking trackerChokedFirst ⟨F64.ofFrac 1 2, 1, F64.ofFrac 1 2, 1⟩ =
      .ok [("P", ["T"])] ∧
    "T" ∈ topicsOf [("P", ["T"])] "P" ∧
    isChokedFromLocalPeer trackerChokedFirst "P" "T" = true ∧
    exceedsChokeThreshold trackerChokedFirst (F64.ofFrac 1 2) "Q" "T" = true ∧
    isChokedFromLocalPeer trackerChokedFirst "Q" "T" = false ∧
    "T" ∉ topicsOf [("P", ["T"])] "Q" := by
  decide

/-! ### Each topic at most once per peer -/

theorem invert_eq_flat (m : GoMap TopicID (List PeerID)) :
    invert m = ((GoMap.range m).flatMap
      (fun e => e.2.map (fun pid => (pid, e.1)))).foldl (fun acc y => appendAt acc y.1 y.2) [] := by
  unfold invert
  generalize ([] : GoMap PeerID (List TopicID)) = init
  generalize GoMap.range m = l
  induction l generalizing init with
  | nil => rfl
  | cons e rest ih =>
    simp only [List.foldl_cons, List.flatMap_cons, List.foldl_append, List.foldl_map]
    exact ih _

theorem topicsOf_invert_eq (m : GoMap TopicID (List PeerID)) (P : PeerID) :
    topicsOf (invert m) P = (GoMap.range m).flatMap
      (fun e => (e.2.filter (fun pid => decide (pid = P))).map (fun _ => e.1)) := by
  unfold topicsOf
  rw [invert_eq_flat, getD_foldl_appendAt]
  simp only [GoMap.getD, GoMap.get?, Option.getD_none, List.nil_append]
  generalize GoMap.range m = l
  induction l with
  | nil => rfl
  | cons e rest ih =>
    simp only [List.flatMap_cons, List.filter_append, List.map_append, ih]
    congr 1
    rw [List.filter_map, List.map_map]
    rfl

theorem piece_sublist (peers : List PeerID) (hnd : peers.Nodup) (P : PeerID) (t : TopicID) :
    ((peers.filter (fun pid => decide (pid = P))).map (fun _ => t)).Sublist [t] := by
  have hf : (peers.filter (fun pid => decide (pid = P))).Nodup := hnd.filter _
  have hall : ∀ x ∈ peers.filter (fun pid => decide (pid = P)), x = P := by
    intro x hx
    simpa using (List.mem_filter.1 hx).2
  generalize peers.filter (fun pid => decide (pid = P)) = l at hf hall
  match l, hf, hall with
  | [], _, _ => simp
  | [x], _, _ => simp
  | x :: y :: rest, hf, hall =>
    exfalso
    have hx := hall x (by simp)
    have hy := hall y (by simp)
    rw [List.nodup_cons] at hf
    exact hf.1 (by rw [hx, ← hy]; simp)

/-- When every topic's list is free of repetitions, so is every peer's list in
the inverted map. -/
theorem nodup_topicsOf_invert (m : GoMap TopicID (List PeerID))
    (h : ∀ e ∈ GoMap.range m, e.2.Nodup) (P : PeerID) : (topicsOf (invert m) P).Nodup := by
  rw [topicsOf_invert_eq]
  have hsub : ∀ l : List (TopicID × List PeerID), (∀ e ∈ l, e.2.Nodup) →
      (l.flatMap (fun e => (e.2.filter (fun pid => decide (pid = P))).map (fun _ => e.1))).Sublist
        (l.map Prod.fst) := by
    intro l
    induction l with
    | nil => intro _; simp
    | cons e rest ih =>
      intro hl
      simp only [List.flatMap_cons, List.map_cons]
      have h1 := piece_sublist e.2 (hl e (List.mem_cons_self _ _)) P e.1
      have h2 := ih (fun e' he' => hl e' (List.mem_cons_of_mem _ he'))
      exact List.Sublist.append h1 h2
  exact (GoMap.nodup_range_keys m).sublist (hsub _ h)

theorem nodup_capFold_entries (less : TopicID → PeerID → PeerID → Bool) (k : Nat)
    (m : GoMap TopicID (List PeerID)) (h : ∀ T, (GoMap.getD m T []).Nodup) :
    ∀ e ∈ GoMap.range (capFold less k (GoMap.range m) m), e.2.Nodup := by
  rintro ⟨T, peers⟩ he
  have hg := (GoMap.mem_range _ T peers).1 he
  have hD := getD_capFold less k m T
  simp only [GoMap.getD, hg, Option.getD_some] at hD
  show peers.Nodup
  rw [hD]
  exact ((sortSlice_perm (less T) _).nodup_iff.2 (by simpa [GoMap.getD] using h T)).sublist
    (List.take_sublist _ _)

/-- Whenever `viableForUnchoking` returns, no peer's list repeats a topic. -/
theorem viableForUnchoking_nodup (d : deliveryTracker) (params : GossipSubParams)
    (r : GoMap PeerID (List TopicID)) (hr : viableForUnchoking d params = .ok r) (P : PeerID) :
    (topicsOf r P).Nodup := by
  unfold viableForUnchoking at hr
  cases hs : sortCap (fun t a b => decide (at2 d.firstIhaves a t 0 > at2 d.duplicates b t 0))
      params.UnchokeChurn (unchokeCandidatesByTopic d params) with
  | error p => rw [hs] at hr; cases hr
  | ok capped =>
    rw [hs] at hr
    cases hr
    have := sortCap_eq_ok _ _ _ _ hs
    subst this
    apply nodup_topicsOf_invert
    apply nodup_capFold_entries
    intro T
    rw [unchokeCandidatesByTopic_getD]
    exact nodup_unchokeCandidates d params T

/-- C18: for every `UnchokeChurn` `k ≥ 0` and topic `T`, `viableForUnchoking` returns
`T` for at most `k` distinct peers and lists `T` at most once for each peer, so that
`unChokePeers` applied to its result clears the local choke of at most `k` pairs on
`T`. -/
theorem viableForUnchoking_churn_bound (d : deliveryTracker) (params : GossipSubParams)
    (T : TopicID) (hk : 0 ≤ params.UnchokeChurn) :
    ∃ r, viableForUnchoking d params = .ok r ∧
      (∀ l : List PeerID, l.Nodup → (∀ P ∈ l, T ∈ topicsOf r P) →
        l.length ≤ params.UnchokeChurn.toNat) ∧
      (∀ P, (topicsOf r P).count T ≤ 1) ∧
      (∀ l : List PeerID, l.Nodup →
        (∀ P ∈ l, isChokedFromLocalPeer d P T = true ∧
          isChokedFromLocalPeer (unChokePeers d r) P T = false) →
        l.length ≤ params.UnchokeChurn.toNat) := by
  obtain ⟨r, hr⟩ := viableForUnchoking_total d params hk
  have hiff := viableForUnchoking_ok_iff d params r hr
  have hbound : ∀ l : List PeerID, l.Nodup → (∀ P ∈ l, T ∈ topicsOf r P) →
      l.length ≤ params.UnchokeChurn.toNat := by
    intro l hl hall
    have hsub : l ⊆ (sortSlice
        (fun a b => decide (at2 d.firstIhaves a T 0 > at2 d.duplicates b T 0))
        (unchokeCandidates d params T)).take params.UnchokeChurn.toNat :=
      fun P hP => (hiff P T).1 (hall P hP)
    have := (List.Nodup.subperm hl hsub).length_le
    rw [List.length_take] at this
    omega
  refine ⟨r, hr, hbound, ?_, ?_⟩
  · intro P
    exact List.nodup_iff_count_le_one.1 (viableForUnchoking_nodup d params r hr P) T
  · intro l hl hall
    apply hbound l hl
    intro P hP
    obtain ⟨h1, h2⟩ := hall P hP
    by_contra hnot
    have hmem : (P, T) ∉ pairsOf r := fun hin => hnot ((mem_pairsOf r P T).1 hin)
    rw [unChokePeers_eq] at h2
    simp only [isChokedFromLocalPeer, at2_deleteAll, hmem, if_false] at h2 h1
    rw [h1] at h2
    cases h2

/-- C18, witness: two choked candidates and `UnchokeChurn = 1`: one peer is
returned for `T`. -/
theorem viableForUnchoking_churn_bound_witness :
    ((0 : Int) ≤ 1 ∧
      viableForUnchoking trackerAB ⟨F64.ofFrac 1 2, 1, F64.ofFrac 1 2, 1⟩ =
        .ok [("A", ["T"])]) ∧
    ∃ r, viableForUnchoking trackerAB ⟨F64.ofFrac 1 2, 1, F64.ofFrac 1 2, 1⟩ = .ok r ∧
      (∀ l : List PeerID, l.Nodup → (∀ P ∈ l, "T" ∈ topicsOf r P) →
        l.length ≤ (1 : Int).toNat) ∧
      (∀ P, (topicsOf r P).count "T" ≤ 1) ∧
      (∀ l : List PeerID, l.Nodup →
        (∀ P ∈ l, isChokedFromLocalPeer trackerAB P "T" = true ∧
          isChokedFromLocalPeer (unChokePeers trackerAB r) P "T" = false) →
        l.length ≤ (1 : Int).toNat) :=
  ⟨⟨by decide, by decide⟩,
    viableForUnchoking_churn_bound trackerAB ⟨F64.ofFrac 1 2, 1, F64.ofFrac 1 2, 1⟩ "T"
      (by decide)⟩

/-! ## The running mean over a run of duplicates -/

/-- One update of the running mean, with non-negative latencies and sums inside the
`int64` range: `k * avg` stays at most the sum `S` of the latencies, and falls short
of it by at most `k (k - 1) / 2`. -/
theorem mean_step (a k l S : Int) (hk0 : 0 ≤ k) (h0 : 0 ≤ a * k) (h1 : a * k ≤ S)
    (h2 : 2 * S ≤ 2 * (a * k) + k * (k - 1)) (hl : 0 ≤ l) (hS : S + l < 2 ^ 63) :
    Duration.div (Duration.add (Duration.mul a k) l) (k + 1) = (a * k + l) / (k + 1) ∧
      0 ≤ (a * k + l) / (k + 1) * (k + 1) ∧
      (a * k + l) / (k + 1) * (k + 1) ≤ S + l ∧
      2 * (S + l) ≤ 2 * ((a * k + l) / (k + 1) * (k + 1)) + (k + 1) * ((k + 1) - 1) := by
  have hk : (0 : Int) < k + 1 := by omega
  have ht0 : 0 ≤ a * k + l := by omega
  have hq0 : 0 ≤ (a * k + l) / (k + 1) := Int.ediv_nonneg ht0 (le_of_lt hk)
  have hqle : (a * k + l) / (k + 1) ≤ a * k + l := Int.ediv_le_self _ ht0
  have hdm := Int.ediv_add_emod (a * k + l) (k + 1)
  have hr0 := Int.emod_nonneg (a * k + l) (ne_of_gt hk)
  have hr1 := Int.emod_lt_of_pos (a * k + l) hk
  have hprod : (a * k + l) / (k + 1) * (k + 1) = (k + 1) * ((a * k + l) / (k + 1)) :=
    mul_comm _ _
  have hsq : (k + 1) * ((k + 1) - 1) = k * (k - 1) + 2 * k := by ring
  refine ⟨?_, ?_, ?_, ?_⟩
  · unfold Duration.div Duration.add Duration.mul
    rw [wrap64_of_range (a * k) (by omega) (by omega),
      wrap64_of_range (a * k + l) (by omega) (by omega),
      Int.tdiv_eq_ediv ht0 (le_of_lt hk)]
    exact wrap64_of_range _ (by omega) (by omega)
  · exact mul_nonneg hq0 (le_of_lt hk)
  · rw [hprod]; omega
  · rw [hprod, hsq]; omega

/-- For one or two values, the bounds of the running mean leave only the truncated
quotient of the sum. -/
theorem mean_of_bounds (n a s : Int) (hn : n = 1 ∨ n = 2) (hs : 0 ≤ s) (h1 : n * a ≤ s)
    (h2 : 2 * s ≤ 2 * (n * a) + n * (n - 1)) : a = Int.tdiv s n := by
  rcases hn with rfl | rfl
  · rw [Int.tdiv_eq_ediv hs (by norm_num)]
    omega
  · rw [Int.tdiv_eq_ediv hs (by norm_num)]
    omega

theorem addDuplicates_cons_ok (d d' : deliveryTracker) (msg : Message) (c : Time × String)
    (calls : List (Time × String)) (h : addDuplicate d c.1 msg c.2 = .ok d') :
    addDuplicates d msg (c :: calls) = addDuplicates d' msg calls := by
  unfold addDuplicates
  rw [List.foldlM_cons, h]
  rfl

/-- One call of a run: with the count `k` non-negative and below the largest `int`,
the call returns, the count is `k + 1` and the average is the quotient of the running
sum by `k + 1`. -/
theorem addDuplicate_step (d : deliveryTracker) (msg : Message) (c : Time × String)
    (S : Int) (hk0 : 0 ≤ DuplicateCount d msg.ReceivedFrom msg.Topic)
    (hk1 : DuplicateCount d msg.ReceivedFrom msg.Topic + 1 < 2 ^ 63)
    (h0 : 0 ≤ DuplicateLatencyAvg d msg.ReceivedFrom msg.Topic *
      DuplicateCount d msg.ReceivedFrom msg.Topic)
    (h1 : DuplicateLatencyAvg d msg.ReceivedFrom msg.Topic *
      DuplicateCount d msg.ReceivedFrom msg.Topic ≤ S)
    (h2 : 2 * S ≤ 2 * (DuplicateLatencyAvg d msg.ReceivedFrom msg.Topic *
        DuplicateCount d msg.ReceivedFrom msg.Topic) +
      DuplicateCount d msg.ReceivedFrom msg.Topic *
        (DuplicateCount d msg.ReceivedFrom msg.Topic - 1))
    (hl : (0 : Int) ≤ latencyOf d c) (hS : S + latencyOf d c < 2 ^ 63) :
    ∃ d', addDuplicate d c.1 msg c.2 = .ok d' ∧
      DuplicateCount d' msg.ReceivedFrom msg.Topic =
        DuplicateCount d msg.ReceivedFrom msg.Topic + 1 ∧
      DuplicateLatencyAvg d' msg.ReceivedFrom msg.Topic =
        (DuplicateLatencyAvg d msg.ReceivedFrom msg.Topic *
          DuplicateCount d msg.ReceivedFrom msg.Topic + latencyOf d c) /
          (DuplicateCount d msg.ReceivedFrom msg.Topic + 1) ∧
      (∀ c', latencyOf d' c' = latencyOf d c') := by
  have hw : wrap64 (DuplicateCount d msg.ReceivedFrom msg.Topic + 1) =
      DuplicateCount d msg.ReceivedFrom msg.Topic + 1 :=
    wrap64_of_range _ (by omega) hk1
  have hne : wrap64 (DuplicateCount d msg.ReceivedFrom msg.Topic + 1) ≠ 0 := by
    rw [hw]; omega
  obtain ⟨d', hd'⟩ := addDuplicate_returns d c.1 msg c.2 hne
  have hres := addDuplicate_result d d' c.1 msg c.2 hd' msg.ReceivedFrom msg.Topic
  simp only [and_self, if_true, hw] at hres
  refine ⟨d', hd', hres.1, ?_, ?_⟩
  · rw [hres.2.1]
    exact (mean_step _ _ (latencyOf d c) S hk0 h0 h1 h2 hl hS).1
  · intro c'
    unfold latencyOf
    rw [hres.2.2.2.1]

/-- The invariant of the running mean along a run of duplicates of one pair. -/
theorem addDuplicates_inv (msg : Message) (calls : List (Time × String)) :
    ∀ (d : deliveryTracker) (S : Int),
      0 ≤ DuplicateCount d msg.ReceivedFrom msg.Topic →
      DuplicateCount d msg.ReceivedFrom msg.Topic + calls.length < 2 ^ 63 →
      0 ≤ DuplicateLatencyAvg d msg.ReceivedFrom msg.Topic *
        DuplicateCount d msg.ReceivedFrom msg.Topic →
      DuplicateLatencyAvg d msg.ReceivedFrom msg.Topic *
        DuplicateCount d msg.ReceivedFrom msg.Topic ≤ S →
      2 * S ≤ 2 * (DuplicateLatencyAvg d msg.ReceivedFrom msg.Topic *
          DuplicateCount d msg.ReceivedFrom msg.Topic) +
        DuplicateCount d msg.ReceivedFrom msg.Topic *
          (DuplicateCount d msg.ReceivedFrom msg.Topic - 1) →
      (∀ c ∈ calls, 0 ≤ latencyOf d c) →
      S + (calls.map (latencyOf d)).sum < 2 ^ 63 →
      ∃ d', addDuplicates d msg calls = .ok d' ∧
        DuplicateCount d' msg.ReceivedFrom msg.Topic =
          DuplicateCount d msg.ReceivedFrom msg.Topic + calls.length ∧
        DuplicateLatencyAvg d' msg.ReceivedFrom msg.Topic *
            DuplicateCount d' msg.ReceivedFrom msg.Topic ≤
          S + (calls.map (latencyOf d)).sum ∧
        2 * (S + (calls.map (latencyOf d)).sum) ≤
          2 * (DuplicateLatencyAvg d' msg.ReceivedFrom msg.Topic *
            DuplicateCount d' msg.ReceivedFrom msg.Topic) +
          DuplicateCount d' msg.ReceivedFrom msg.Topic *
            (DuplicateCount d' msg.ReceivedFrom msg.Topic - 1) := by
  induction calls with
  | nil =>
    intro d S _ _ _ h1 h2 _ _
    refine ⟨d, rfl, ?_, ?_, ?_⟩
    · simp
    · simpa using h1
    · simpa using h2
  | cons c rest ih =>
    intro d S hk0 hk1 h0 h1 h2 hl hS
    have hlc : (0 : Int) ≤ latencyOf d c := hl c (List.mem_cons_self _ _)
    have hrest : ∀ c' ∈ rest, 0 ≤ latencyOf d c' :=
      fun c' hc' => hl c' (List.mem_cons_of_mem _ hc')
    have hsum0 : (0 : Int) ≤ (rest.map (latencyOf d)).sum :=
      List.sum_nonneg (fun x hx => by
        obtain ⟨c', hc', rfl⟩ := List.mem_map.1 hx
        exact hrest c' hc')
    simp only [List.map_cons, List.sum_cons] at hS
    simp only [List.length_cons, Nat.cast_add, Nat.cast_one] at hk1
    have hlen0 : (0 : Int) ≤ (rest.length : Int) := Int.ofNat_nonneg _
    obtain ⟨d1, hd1, hcount, havg, hlat⟩ :=
      addDuplicate_step d msg c S hk0 (by omega) h0 h1 h2 hlc (by omega)
    have hstep := mean_step _ _ (latencyOf d c) S hk0 h0 h1 h2 hlc (by omega)
    have hmap : rest.map (latencyOf d1) = rest.map (latencyOf d) :=
      List.map_congr_left (fun c' _ => hlat c')
    obtain ⟨d', hd', hc', ha', hb'⟩ := ih d1 (S + latencyOf d c)
      (by rw [hcount]; omega)
      (by rw [hcount]; omega)
      (by rw [havg, hcount]; exact hstep.2.1)
      (by rw [havg, hcount]; exact hstep.2.2.1)
      (by rw [havg, hcount]; exact hstep.2.2.2)
      (by intro c' hc'; rw [hlat]; exact hrest c' hc')
      (by rw [hmap]; omega)
    rw [hmap] at ha' hb'
    refine ⟨d', by rw [addDuplicates_cons_ok d d1 msg c rest hd1]; exact hd', ?_, ?_, ?_⟩
    · rw [hc', hcount]
      simp only [List.length_cons, Nat.cast_add, Nat.cast_one]
      omega
    · simp only [List.map_cons, List.sum_cons]
      rw [← add_assoc]
      exact ha'
    · simp only [List.map_cons, List.sum_cons]
      rw [← add_assoc]
      exact hb'

/-- C11 (as amended): after `n` duplicates from `P` on `T`, with `n` below `2^63`,
starting from a tracker that has counted none for the pair, with non-negative
latencies whose sum fits `int64`: the calls return, `DuplicateCount(P,T)` is `n`;
`n * DuplicateLatencyAvg(P,T)` is at most the sum of the latencies and falls short of
it by at most `n (n - 1) / 2`; and for `n = 1` and `n = 2` the average is the simple
mean `(l1 + ... + ln) / n`. -/
theorem addDuplicates_mean (d : deliveryTracker) (msg : Message)
    (calls : List (Time × String))
    (h0 : DuplicateCount d msg.ReceivedFrom msg.Topic = 0)
    (hl : ∀ c ∈ calls, 0 ≤ latencyOf d c)
    (hs : (calls.map (latencyOf d)).sum < 2 ^ 63)
    (hn : (calls.length : Int) < 2 ^ 63) :
    ∃ d', addDuplicates d msg calls = .ok d' ∧
      DuplicateCount d' msg.ReceivedFrom msg.Topic = calls.length ∧
      (calls.length : Int) * DuplicateLatencyAvg d' msg.ReceivedFrom msg.Topic ≤
        (calls.map (latencyOf d)).sum ∧
      2 * (calls.map (latencyOf d)).sum ≤
        2 * ((calls.length : Int) * DuplicateLatencyAvg d' msg.ReceivedFrom msg.Topic) +
          (calls.length : Int) * ((calls.length : Int) - 1) ∧
      (1 ≤ calls.length → calls.length ≤ 2 →
        DuplicateLatencyAvg d' msg.ReceivedFrom msg.Topic =
          Int.tdiv (calls.map (latencyOf d)).sum calls.length) := by
  obtain ⟨d', hd', hc, h1, h2⟩ := addDuplicates_inv msg calls d 0 (by simp [h0])
    (by rw [h0]; omega) (by simp [h0]) (by simp [h0]) (by simp [h0]) hl (by simpa using hs)
  simp only [h0, zero_add] at hc h1 h2
  rw [hc] at h1 h2
  refine ⟨d', hd', hc, by rw [mul_comm]; exact h1,
    by rw [mul_comm (calls.length : Int)]; exact h2, ?_⟩
  intro hn1 hn2
  have hsum0 : (0 : Int) ≤ (calls.map (latencyOf d)).sum :=
    List.sum_nonneg (fun x hx => by
      obtain ⟨c', hc', rfl⟩ := List.mem_map.1 hx
      exact hl c' hc')
  exact mean_of_bounds _ _ _ (by omega) hsum0 (by rw [mul_comm]; exact h1)
    (by rw [mul_comm (calls.length : Int)]; exact h2)

set_option maxRecDepth 100000 in
/-- C11, witness: on a new tracker that knows the first delivery of `m1` and `m2` at
instant 0, duplicates arriving at 100 ms and 300 ms give the average 200 ms. -/
theorem addDuplicates_mean_witness :
    (DuplicateCount trackerThreeMessages "P" "T" = 0 ∧
      (∀ c ∈ [((100000000 : Time), "m1"), (300000000, "m2")],
        0 ≤ latencyOf trackerThreeMessages c) ∧
      ([((100000000 : Time), "m1"), (300000000, "m2")].map
        (latencyOf trackerThreeMessages)).sum < 2 ^ 63 ∧
      (([((100000000 : Time), "m1"), (300000000, "m2")].length : Nat) : Int) < 2 ^ 63 ∧
      Except.map (fun d' => (DuplicateCount d' "P" "T", DuplicateLatencyAvg d' "P" "T"))
        (addDuplicates trackerThreeMessages ⟨"P", "T"⟩
          [(100000000, "m1"), (300000000, "m2")]) = .ok (2, 200000000)) ∧
    ∃ d', addDuplicates trackerThreeMessages ⟨"P", "T"⟩
        [(100000000, "m1"), (300000000, "m2")] = .ok d' ∧
      DuplicateCount d' "P" "T" =
        ([((100000000 : Time), "m1"), (300000000, "m2")].length : Nat) :=
  ⟨⟨by decide, by decide, by decide, by decide, by decide⟩,
    (addDuplicates_mean trackerThreeMessages ⟨"P", "T"⟩ [(100000000, "m1"), (300000000, "m2")]
      (by decide) (by decide) (by decide) (by decide)).imp (fun _ hd => ⟨hd.1, hd.2.1⟩)⟩

set_option maxRecDepth 100000 in
/-- C11, counterexample: on a new tracker that knows the first delivery of `m1`, `m2`
and `m3` at instant 0, duplicates with latencies 1, 2 and 3 leave the average 1,
while the simple mean is 2; the same three duplicates in the order 3, 1, 2 leave the
average 2. -/
theorem addDuplicates_mean_counterexample :
    (FirstDeliveryTimestamp trackerThreeMessages "m1" = some 0 ∧
      FirstDeliveryTimestamp trackerThreeMessages "m2" = some 0 ∧
      FirstDeliveryTimestamp trackerThreeMessages "m3" = some 0) ∧
    ([(1, "m1"), (2, "m2"), (3, "m3")].map (latencyOf trackerThreeMessages) = [1, 2, 3]) ∧
    (trackerThreeMessages.duplicates = NewDeliveryTracker.duplicates ∧
      trackerThreeMessages.duplicateLatency = NewDeliveryTracker.duplicateLatency) ∧
    Except.map (fun d' => DuplicateLatencyAvg d' "P" "T")
      (addDuplicates trackerThreeMessages ⟨"P", "T"⟩
        [(1, "m1"), (2, "m2"), (3, "m3")]) = .ok 1 ∧
    Int.tdiv (1 + 2 + 3) 3 = 2 ∧
    Except.map (fun d' => DuplicateLatencyAvg d' "P" "T")
      (addDuplicates trackerThreeMessages ⟨"P", "T"⟩
        [(3, "m3"), (1, "m1"), (2, "m2")]) = .ok 2 := by
  refine ⟨by decide, by decide, by decide, ?_, by decide, ?_⟩
  · decide
  · decide

/-! ## Duplicates of unknown messages -/

/-- C12 (as amended): for a message ID with no recorded first-delivery time, from a
pair whose `DuplicateCount` `c` is non-negative and below the largest `int`,
`addDuplicate` reports nothing: it returns as for any duplicate, raises
`DuplicateCount(P,T)` from `c` to `c + 1`, records no first-delivery time for the ID
and changes the count and the average of no other pair. Nothing is stated of
`DuplicateLatencyAvg(P,T)` after such a call. -/
theorem addDuplicate_unknown_id (d : deliveryTracker) (now : Time) (msg : Message)
    (id : String) (h : FirstDeliveryTimestamp d id = none)
    (hc0 : 0 ≤ DuplicateCount d msg.ReceivedFrom msg.Topic)
    (hc1 : DuplicateCount d msg.ReceivedFrom msg.Topic < 2 ^ 63 - 1) :
    ∃ d', addDuplicate d now msg id = .ok d' ∧
      DuplicateCount d' msg.ReceivedFrom msg.Topic =
        DuplicateCount d msg.ReceivedFrom msg.Topic + 1 ∧
      FirstDeliveryTimestamp d' id = none ∧
      (∀ (Q : PeerID) (U : TopicID), (Q, U) ≠ (msg.ReceivedFrom, msg.Topic) →
        DuplicateCount d' Q U = DuplicateCount d Q U ∧
          DuplicateLatencyAvg d' Q U = DuplicateLatencyAvg d Q U) := by
  have hw : wrap64 (DuplicateCount d msg.ReceivedFrom msg.Topic + 1) =
      DuplicateCount d msg.ReceivedFrom msg.Topic + 1 :=
    wrap64_of_range _ (by omega) (by omega)
  have hne : wrap64 (DuplicateCount d msg.ReceivedFrom msg.Topic + 1) ≠ 0 := by
    rw [hw]; omega
  obtain ⟨d', hd'⟩ := addDuplicate_returns d now msg id hne
  have hres := addDuplicate_result d d' now msg id hd'
  have hself := hres msg.ReceivedFrom msg.Topic
  simp only [and_self, if_true, hw] at hself
  refine ⟨d', hd', hself.1, ?_, ?_⟩
  · unfold FirstDeliveryTimestamp at h ⊢
    rw [hself.2.2.2.1]
    exact h
  · intro Q U hne'
    have hne'' : ¬ (Q = msg.ReceivedFrom ∧ U = msg.Topic) := by
      rintro ⟨rfl, rfl⟩
      exact hne' rfl
    have hQ := hres Q U
    simp only [hne'', if_false] at hQ
    exact ⟨hQ.1, hQ.2.1⟩

/-- C12, witness: on a new tracker a duplicate of the unknown message `x` returns and
is counted, and `x` has no recorded time afterwards. -/
theorem addDuplicate_unknown_id_witness :
    (FirstDeliveryTimestamp NewDeliveryTracker "x" = none ∧
      0 ≤ DuplicateCount NewDeliveryTracker "P" "T" ∧
      DuplicateCount NewDeliveryTracker "P" "T" < 2 ^ 63 - 1 ∧
      Except.map (fun d' => (DuplicateCount d' "P" "T", FirstDeliveryTimestamp d' "x"))
        (addDuplicate NewDeliveryTracker 5 ⟨"P", "T"⟩ "x") = .ok (1, none)) ∧
    ∃ d', addDuplicate NewDeliveryTracker 5 ⟨"P", "T"⟩ "x" = .ok d' ∧
      DuplicateCount d' "P" "T" = DuplicateCount NewDeliveryTracker "P" "T" + 1 :=
  ⟨⟨by decide, by decide, by decide, by decide⟩,
    (addDuplicate_unknown_id NewDeliveryTracker 5 ⟨"P", "T"⟩ "x" (by decide) (by decide)
      (by decide)).imp (fun _ hd => ⟨hd.1, hd.2.1⟩)⟩

set_option maxRecDepth 100000 in
/-- C12, counterexample: a tracker holds the average 100 of one duplicate from `P` on
`T`; a duplicate of the unknown message `x` then arrives at a present-day instant.
The call returns a tracker, there is nothing in which it could report an error, and
the latency it computes from the zero time, the largest `Duration`, is folded in: the
average of the pair is no longer 100 but -4611686018427387854. -/
theorem addDuplicate_unknown_id_counterexample :
    FirstDeliveryTimestamp trackerOneDuplicate "x" = none ∧
    DuplicateLatencyAvg trackerOneDuplicate "P" "T" = 100 ∧
    latencyOf trackerOneDuplicate (63900000000000000000, "x") = 9223372036854775807 ∧
    Except.map (fun d' => DuplicateLatencyAvg d' "P" "T")
      (addDuplicate trackerOneDuplicate 63900000000000000000 ⟨"P", "T"⟩ "x") =
      .ok (-4611686018427387854) := by
  refine ⟨by decide, by decide, by decide, by decide⟩

end Episub
